import Mathlib

set_option synthInstance.maxHeartbeats 800000
set_option maxHeartbeats 1600000
set_option maxRecDepth 4000

/-!
Verification of the NIML parser/serializer in
`src/mvpa2/support/nibabel/afni_niml.py` (PyMVPA).

The source is Python 2 (`iteritems`, `xrange`, `basestring`); byte strings
are modelled as `List Char` whose elements stand for single bytes, and the
Python regular expressions used by the parser are embedded as executable
scanning functions that reproduce the leftmost-greedy backtracking semantics
of the concrete patterns in the source.

The companion module `afni_niml_types` (the spec's Type Registry, section 4.1)
is not part of the sources provided, so its functions are modelled from the
spec and marked `Modelled from the spec:` in their doc comments.
-/

namespace Afni

/-! ### Byte/character classes, matching Python 2 byte-string regexes -/

/-- Python 2 regex `\w` on byte strings: `[a-zA-Z0-9_]`. -/
def wordChar (c : Char) : Bool :=
  (('a' ≤ c && c ≤ 'z') || ('A' ≤ c && c ≤ 'Z') || ('0' ≤ c && c ≤ '9') || c == '_')

/-- Python 2 regex `\s` on byte strings (also `str.strip` / `str.split(None)`
whitespace): space, tab, newline, carriage return, vertical tab, form feed. -/
def wsChar (c : Char) : Bool :=
  (c == ' ' || c == '\t' || c == '\n' || c == '\r' || c == '\x0b' || c == '\x0c')

/-! ### Generic list utilities used by the embedding -/

/-- Prefix test on byte strings (reduces by cases on the pattern first, so
terms with a symbolic tail still evaluate). -/
def isPre : List Char → List Char → Bool
  | [], _ => true
  | _ :: _, [] => false
  | a :: as, b :: bs => a == b && isPre as bs

/-- Substring test: Python's `pat in s` for byte strings. -/
def occursIn (pat : List Char) : List Char → Bool
  | [] => isPre pat []
  | c :: t => isPre pat (c :: t) || occursIn pat t

/-- Split at the first occurrence of character `c`: returns the part before
and the part after (the separator removed). `none` when `c` is absent
(Python `str.index` raises `ValueError` there). -/
def firstSplitAtChar (c : Char) : List Char → Option (List Char × List Char)
  | [] => none
  | d :: t =>
    if d == c then some ([], t)
    else (firstSplitAtChar c t).map (fun p => (d :: p.1, p.2))

/-- Fueled core of `replaceAll` (structural recursion, so that concrete
instances evaluate inside the kernel); the wrapper supplies enough fuel
and `replaceAll_cons` recovers the natural recursion equation. -/
def replF (pat rep : List Char) : Nat → List Char → List Char
  | _, [] => []
  | 0, c :: t => c :: t
  | f + 1, c :: t =>
    if !pat.isEmpty && isPre pat (c :: t) then
      rep ++ replF pat rep f ((c :: t).drop pat.length)
    else
      c :: replF pat rep f t

/-- Python 2 `str.replace(pat, rep)`: replace every non-overlapping
occurrence, scanning left to right, the scan resuming after each
replacement.  (All patterns used by the source are non-empty.) -/
def replaceAll (pat rep s : List Char) : List Char :=
  replF pat rep s.length s

/-- Python 2 `str.split(sep)` with a one-character separator: keeps empty
fields between consecutive separators. -/
def splitOnChar (c : Char) : List Char → List (List Char)
  | [] => [[]]
  | d :: t =>
    if d == c then [] :: splitOnChar c t
    else
      match splitOnChar c t with
      | [] => [[d]]
      | f :: r => (d :: f) :: r

/-- Python 2 `str.split(None)`: split on whitespace runs, producing no empty
tokens. -/
def splitWsNone : List Char → List (List Char)
  | [] => []
  | c :: t =>
    if wsChar c then splitWsNone t
    else
      match splitWsNone t with
      | [] => [[c]]
      | f :: r =>
        match t with
        | [] => [[c]]
        | d :: _ => if wsChar d then [c] :: f :: r else (c :: f) :: r

/-- Python 2 `str.strip()`: remove leading and trailing whitespace. -/
def stripWs (s : List Char) : List Char :=
  ((s.dropWhile (fun c => wsChar c)).reverse.dropWhile (fun c => wsChar c)).reverse

/-- Remove every null byte, as in `s.replace(chr(0), '')`. -/
def removeNulls (s : List Char) : List Char :=
  s.filter (fun c => c ≠ '\x00')

/-- Fueled core of `chunkList` (structural recursion for kernel
evaluation). -/
def chunkF (n : Nat) : Nat → List α → List (List α)
  | _, [] => []
  | 0, _ :: _ => []
  | f + 1, c :: t => ((c :: t).take n) :: chunkF n f ((c :: t).drop n)

/-- Chunk a list into consecutive pieces of length `n` (`n = 0` gives `[]`). -/
def chunkList (n : Nat) (l : List α) : List (List α) :=
  match n with
  | 0 => []
  | m + 1 => chunkF (m + 1) l.length l

/-- Take exactly `n` elements: `some (front, rest)` or `none` when the list
is too short. -/
def takeExact : Nat → List α → Option (List α × List α)
  | 0, l => some ([], l)
  | _ + 1, [] => none
  | n + 1, c :: t => (takeExact n t).map (fun p => (c :: p.1, p.2))

/-- Fueled core of `chunkExact`. -/
def chunkExactF (w : Nat) : Nat → List α → Option (List (List α))
  | _, [] => some []
  | 0, _ :: _ => none
  | f + 1, c :: t =>
    match takeExact w (c :: t) with
    | none => none
    | some (chunk, rest) => (chunkExactF w f rest).map (fun l => chunk :: l)

/-- Chunk a list into pieces of length exactly `w`; `none` when the length
is not a multiple of `w`. -/
def chunkExact (w : Nat) (l : List α) : Option (List (List α)) :=
  chunkExactF w l.length l

/-! ### The escape codec (`_ESCAPE`, `encode_escape`, `decode_escape`)

The source iterates over the Python 2 dict
`_ESCAPE = dict(lt, gt, quot, amp, apos)`.  CPython 2.7 on a 64-bit
platform (no hash randomization) stores those five keys in hash slots
0, 1, 2, 5, 6 of the initial 8-slot table, so `iteritems()` yields the
pairs in the fixed order amp, apos, quot, lt, gt.  That concrete order is
reproduced here. -/

def escapePairs : List (List Char × List Char) :=
  [("&amp;".toList, "&".toList),
   ("&apos;".toList, "'".toList),
   ("&quot;".toList, "\"".toList),
   ("&lt;".toList, "<".toList),
   ("&gt;".toList, ">".toList)]

/-- Source `decode_escape`: for each `(k, v)` in dict order, `s = s.replace(k, v)`. -/
def decode_escape (s : List Char) : List Char :=
  escapePairs.foldl (fun acc p => replaceAll p.1 p.2 acc) s

/-- Source `encode_escape`: for each `(k, v)` in dict order, `s = s.replace(v, k)`. -/
def encode_escape (s : List Char) : List Char :=
  escapePairs.foldl (fun acc p => replaceAll p.2 p.1 acc) s

/-! ### The Type Registry

Modelled from the spec: the module `afni_niml_types` is not among the
provided sources.  Spec section 4.1 requires scalar codes for signed byte,
short integer, 32-bit integer, 32-bit float, 64-bit float and a string
pseudo-type with no fixed width, a `byte_width` per numeric code,
`find_uniform_type`, and exact `to_text`/`from_text` converters.  Numeric
cell values (including float payloads, whose round-trip the spec demands to
be bit-exact) are modelled as integers, binary-encoded in little-endian
two's complement at the declared width. -/

inductive NiType where
  | tbyte
  | tshort
  | tint
  | tfloat
  | tdouble
  | tstring
deriving DecidableEq, Repr

/-- Modelled from the spec: the textual name of each scalar type code
(the vocabulary of the `ni_type` header attribute). -/
def typeName : NiType → List Char
  | .tbyte => "byte".toList
  | .tshort => "short".toList
  | .tint => "int".toList
  | .tfloat => "float".toList
  | .tdouble => "double".toList
  | .tstring => "String".toList

/-- Modelled from the spec: `byte_width` of each code; the string
pseudo-type has no fixed width. -/
def byteWidth : NiType → Option Nat
  | .tbyte => some 1
  | .tshort => some 2
  | .tint => some 4
  | .tfloat => some 4
  | .tdouble => some 8
  | .tstring => none

/-- Modelled from the spec: parse one type name into a code
(`UnknownTypeCode` on failure, rendered as `none`). -/
def name2code (s : List Char) : Option NiType :=
  if s = typeName .tbyte then some .tbyte
  else if s = typeName .tshort then some .tshort
  else if s = typeName .tint then some .tint
  else if s = typeName .tfloat then some .tfloat
  else if s = typeName .tdouble then some .tdouble
  else if s = typeName .tstring then some .tstring
  else none

/-- Modelled from the spec: `str2codes` maps the comma-separated type-list
attribute to the ordered column type list. -/
def str2codes (s : List Char) : Option (List NiType) :=
  (splitOnChar ',' s).mapM name2code

/-- Modelled from the spec: `find_uniform_type` returns the single code
shared by all columns, else `none` (also for an empty column list). -/
def findonetype : List NiType → Option NiType
  | [] => none
  | t :: r => if r.all (fun x => x == t) then some t else none

/-! ### Exact decimal text for numeric cells

Modelled from the spec: section 4.1 gives each numeric type an exact
`to_text(value) -> string` / `from_text(string) -> value` converter pair
(`numpy_data2printer` / `code2python_convertor` in the missing registry
module); the spec's round-trip property demands the text form be exact. -/

/-- Fueled core of `natToRevDigits` (structural recursion for kernel
evaluation). -/
def natDigitsF : Nat → Nat → List Char
  | 0, _ => []
  | f + 1, n => if n = 0 then [] else Nat.digitChar (n % 10) :: natDigitsF f (n / 10)

/-- Decimal digits of `n`, least significant first (empty for 0). -/
def natToRevDigits (n : Nat) : List Char :=
  natDigitsF n n

/-- Decimal rendering of a natural number. -/
def natRepr (n : Nat) : List Char :=
  if n = 0 then ['0'] else (natToRevDigits n).reverse

/-- Decimal rendering of an integer (minus sign for negatives). -/
def intRepr (v : Int) : List Char :=
  if v < 0 then '-' :: natRepr (-v).toNat else natRepr v.toNat

/-- Value of a digit character, `none` for non-digits. -/
def digitVal (c : Char) : Option Nat :=
  if '0' ≤ c ∧ c ≤ '9' then some (c.toNat - '0'.toNat) else none

/-- Parse a non-empty all-digit string into a natural number. -/
def parseNatDigits (s : List Char) : Option Nat :=
  match s with
  | [] => none
  | _ :: _ => s.foldlM (fun acc c => (digitVal c).map (fun d => acc * 10 + d)) 0

/-- Python `int(s)`: optional surrounding whitespace, an optional sign, then
a non-empty run of decimal digits. -/
def parsePyInt (s : List Char) : Option Int :=
  match stripWs s with
  | '-' :: t => (parseNatDigits t).map (fun n => -(n : Int))
  | '+' :: t => (parseNatDigits t).map (fun n => (n : Int))
  | t => (parseNatDigits t).map (fun n => (n : Int))

/-! ### Little-endian byte codec for binary payloads

Modelled from the spec: binary payload bytes are "a row-major flattening of
the row_count × column_count grid, each element the declared native numeric
type in the byte order given by the encoding's order suffix" (section 4.4);
the byte order produced on this platform is little-endian (`lsbfirst`).
Cell values are integers encoded in two's complement at the declared
width. -/

/-- A byte value as a character (the buffer is a `List Char` of bytes). -/
def byteChar (n : Nat) : Char :=
  Char.ofNat (n % 256)

/-- Little-endian bytes of `n mod 256^w`, exactly `w` bytes. -/
def encBytes : Nat → Nat → List Char
  | 0, _ => []
  | w + 1, n => byteChar (n % 256) :: encBytes w (n / 256)

/-- Little-endian value of a byte list. -/
def decBytes : List Char → Nat
  | [] => 0
  | c :: t => c.toNat % 256 + 256 * decBytes t

/-- Encode one signed cell value at width `w` (two's complement wrap). -/
def sencVal (w : Nat) (v : Int) : List Char :=
  encBytes w (v.emod ((2 : Int) ^ (8 * w))).toNat

/-- Decode one signed cell value at width `w` from exactly `w` bytes. -/
def sdecVal (w : Nat) (bs : List Char) : Int :=
  let n : Int := (decBytes bs : Int)
  if n < (2 : Int) ^ (8 * w - 1) then n else n - (2 : Int) ^ (8 * w)

/-! ### Base64 (`base64.b64encode` / `base64.b64decode`) -/

def b64Alphabet : List Char :=
  "ABCDEFGHIJKLMNOPQRSTUVWXYZabcdefghijklmnopqrstuvwxyz0123456789+/".toList

/-- The character of a sextet value. -/
def sextetChar (n : Nat) : Char :=
  b64Alphabet.getD n 'A'

/-- The sextet value of an alphabet character. -/
def sextetVal (c : Char) : Option Nat :=
  b64Alphabet.indexOf? c

/-- Standard base64 encoding with `=` padding, on byte lists. -/
def b64encode : List Char → List Char
  | [] => []
  | [a] =>
    let x := (a.toNat % 256) * 65536
    [sextetChar (x / 262144), sextetChar (x / 4096 % 64), '=', '=']
  | [a, b] =>
    let x := (a.toNat % 256) * 65536 + (b.toNat % 256) * 256
    [sextetChar (x / 262144), sextetChar (x / 4096 % 64), sextetChar (x / 64 % 64), '=']
  | a :: b :: c :: t =>
    let x := (a.toNat % 256) * 65536 + (b.toNat % 256) * 256 + c.toNat % 256
    sextetChar (x / 262144) :: sextetChar (x / 4096 % 64) ::
      sextetChar (x / 64 % 64) :: sextetChar (x % 64) :: b64encode t

/-- Strict base64 decoding of well-padded input, `none` on malformed input.
(Python 2 `binascii` additionally skips non-alphabet bytes; the buffers the
source feeds to `b64decode` are exact encoder outputs, where the two
agree.) -/
def b64decode : List Char → Option (List Char)
  | [] => some []
  | c1 :: c2 :: c3 :: c4 :: t => do
    let s1 ← sextetVal c1
    let s2 ← sextetVal c2
    if c3 = '=' ∧ c4 = '=' ∧ t = [] then
      some [byteChar (s1 * 4 + s2 / 16)]
    else do
      let s3 ← sextetVal c3
      if c4 = '=' ∧ t = [] then
        some [byteChar (s1 * 4 + s2 / 16), byteChar (s2 % 16 * 16 + s3 / 4)]
      else do
        let s4 ← sextetVal c4
        let rest ← b64decode t
        some (byteChar (s1 * 4 + s2 / 16) :: byteChar (s2 % 16 * 16 + s3 / 4) ::
              byteChar (s3 % 4 * 64 + s4) :: rest)
  | _ => none

/-! ### The raw NIML data model

The source represents an element as a Python dict holding the string
attributes parsed from the header together with the special entries
`name`, `vec_typ`, `vec_len`, `vec_num` and either `data` (data element)
or `nodes` (group).  Those special entries are modelled as separate fields;
`attrs` holds the remaining string key/value pairs in order.  A payload is
a single string, a uniform-type numeric matrix (a numpy array carrying its
dtype) or a list of per-column containers (mixed types). -/

inductive PCol where
  | cint (tc : NiType) (xs : List Int)
  | cstr (xs : List (List Char))
deriving DecidableEq, Repr

inductive PData where
  | pstr (s : List Char)
  | pmat (tc : NiType) (rows : List (List Int))
  | pmixed (cols : List PCol)
deriving DecidableEq, Repr

mutual
inductive RawElem where
  | mk (name : List Char) (attrs : List (List Char × List Char))
       (vecTyp : List NiType) (vecLen vecNum : Nat)
       (data : Option PData) (nodes : Option RawForest)

inductive RawForest where
  | fnil
  | fcons (head : RawElem) (tail : RawForest)
end

/-- Build a forest from a list of elements. -/
def listToForest : List RawElem → RawForest
  | [] => .fnil
  | x :: t => .fcons x (listToForest t)

/-- The length of a forest. -/
def forestLength : RawForest → Nat
  | .fnil => 0
  | .fcons _ t => forestLength t + 1

def RawElem.name : RawElem → List Char
  | .mk n _ _ _ _ _ _ => n

def RawElem.attrs : RawElem → List (List Char × List Char)
  | .mk _ a _ _ _ _ _ => a

def RawElem.vecTyp : RawElem → List NiType
  | .mk _ _ t _ _ _ _ => t

def RawElem.vecLen : RawElem → Nat
  | .mk _ _ _ l _ _ _ => l

def RawElem.vecNum : RawElem → Nat
  | .mk _ _ _ _ n _ _ => n

def RawElem.data : RawElem → Option PData
  | .mk _ _ _ _ _ d _ => d

def RawElem.nodes : RawElem → Option RawForest
  | .mk _ _ _ _ _ _ ns => ns

/-- One row of the flattened tree view. -/
structure FlatRow where
  depth : Nat
  name : List Char
  attrs : List (List Char × List Char)
  vecTyp : List NiType
  vecLen : Nat
  vecNum : Nat
  data : Option PData
deriving DecidableEq, Repr

/-! Preorder-with-depth flattening of an element tree: one row per element,
children right after their parent with depth one larger.  Used to state
concrete equalities about parse results (the flattening determines the
tree). -/
mutual
/-- Flatten one element: its row, then its children's rows. -/
def flattenElem (d : Nat) : RawElem → List FlatRow
  | .mk name attrs vt vl vn dta nodes =>
    FlatRow.mk d name attrs vt vl vn dta ::
      (match nodes with
       | none => []
       | some ns => flattenForest (d + 1) ns)

/-- Flatten a forest of elements. -/
def flattenForest (d : Nat) : RawForest → List FlatRow
  | .fnil => []
  | .fcons x t => flattenElem d x ++ flattenForest d t
end

/-- Flatten a parsed document (a list of top-level elements). -/
def flattenDoc (l : List RawElem) : List FlatRow :=
  l.flatMap (flattenElem 0)

/-- Dict lookup over the attribute pairs.  A Python dict built from a pair
list keeps the last value bound to a key, so the fold keeps the last
match. -/
def pyGet (p : List (List Char × List Char)) (k : List Char) : Option (List Char) :=
  p.foldl (fun acc kv => if kv.1 = k then some kv.2 else acc) none

/-- Dict update `d[k] = v`: replace in place when the key is present,
append otherwise. -/
def setKey (p : List (List Char × List Char)) (k v : List Char) :
    List (List Char × List Char) :=
  if p.any (fun kv => kv.1 = k) then
    p.map (fun kv => if kv.1 = k then (k, v) else kv)
  else p ++ [(k, v)]

/-- Dict removal `d.pop(k, None)`. -/
def eraseKey (p : List (List Char × List Char)) (k : List Char) :
    List (List Char × List Char) :=
  p.filter (fun kv => kv.1 ≠ k)

/-- The three output encodings accepted by `rawniml2string` (strings other
than `text`/`binary`/`base64` raise `ValueError` in the source and are not
modelled). -/
inductive Form where
  | text
  | binary
  | base64
deriving DecidableEq, Repr

/-- Modelled from the spec: `data2ni_form` of the missing registry module
computes the byte-order-qualified encoding tag from the payload; this
platform writes least-significant-byte-first, and text (also forced for
string and mixed payloads, which the serializer always renders as text)
carries no tag. -/
def data2ni_form (d : PData) (form : Form) : Option (List Char) :=
  match d, form with
  | .pmat _ _, .binary => some "binary.lsbfirst".toList
  | .pmat _ _, .base64 => some "base64.lsbfirst".toList
  | _, _ => none

/-! ### The serializer (`rawniml2string`, `_data2string`, `_header2string`) -/

/-- Row-major little-endian bytes of a numeric matrix
(`data.reshape((cols, rows)).tostring()` in the source: the reshape keeps
the row-major element order, so the bytes are those of the original
array). -/
def matBytes (tc : NiType) (rows : List (List Int)) : List Char :=
  rows.flatten.flatMap (sencVal ((byteWidth tc).getD 0))

/-- Number of rows of a mixed column container. -/
def colLen : PCol → Nat
  | .cint _ xs => xs.length
  | .cstr xs => xs.length

/-- Modelled from the spec: per-column text formatter of the registry
(`numpy_data2printer`); numeric cells print exactly, string cells print
as-is. -/
def cellText (c : PCol) (r : Nat) : List Char :=
  match c with
  | .cint _ xs => intRepr (xs.getD r 0)
  | .cstr xs => xs.getD r []

/-- Source `_data2string`: strings are escaped and quoted in every form;
numeric matrices render as text, raw bytes, or base64 of those bytes;
mixed-type data always renders as text, "even if requested form is binary
of base64" (comment in the source). -/
def data2string (d : PData) (form : Form) : List Char :=
  match d with
  | .pstr s => '"' :: (encode_escape s ++ ['"'])
  | .pmat tc rows =>
    match form with
    | .text =>
      List.intercalate ['\n']
        (rows.map (fun r => List.intercalate [' '] (r.map intRepr)))
    | .binary => matBytes tc rows
    | .base64 => b64encode (matBytes tc rows)
  | .pmixed cols =>
    if cols.length = 0 then []
    else
      let nrows := colLen (cols.headD (.cstr []))
      List.intercalate ['\n']
        ((List.range nrows).map (fun r =>
          List.intercalate [' '] (cols.map (fun c => cellText c r))))

def keyfirst : List (List Char) :=
  ["dset_type".toList, "self_idcode".toList, "filename".toList, "data_type".toList]

def keylast : List (List Char) :=
  ["ni_form".toList]

/-- Pick `(k, p[k])` for each key of `keys` present in `p`, skipping keys
already taken (the `added` set of the source). -/
def pickKeys : List (List Char) → List (List Char) →
    List (List Char × List Char) → List (List Char × List Char)
  | [], _, _ => []
  | k :: ks, added, p =>
    if k ∈ added then pickKeys ks added p
    else
      match pyGet p k with
      | some v => (k, v) :: pickKeys ks (k :: added) p
      | none => pickKeys ks added p

/-- Source `_header2string`: priority keys first, then the remaining keys,
then `ni_form` last, each rendered as `   k="v"` and joined by newlines.
(The source iterates the remaining keys as an unordered Python 2 set; the
spec declares that order unspecified-but-deterministic, and the model uses
the attribute order.) -/
def header2string (p : List (List Char × List Char)) : List Char :=
  let otherkeys := (p.map Prod.fst).filter (fun k => ¬ k ∈ keyfirst ∧ ¬ k ∈ keylast)
  let kvs := pickKeys (keyfirst ++ otherkeys ++ keylast) [] p
  List.intercalate ['\n']
    (kvs.map (fun kv => "   ".toList ++ kv.1 ++ '=' :: '"' :: (kv.2 ++ ['"'])))

/-- Frame of one serialized element:
`'<' name '\n' header ' >' body '</' name '>'`. -/
def mkElemString (name hdr body : List Char) : List Char :=
  '<' :: (name ++ '\n' :: (hdr ++ ' ' :: '>' :: (body ++ '<' :: '/' :: (name ++ ['>']))))

/-! Source `rawniml2string` on one element (with `serForest` serializing a
group's node list joined by newlines, the source's recursion into the
list case).  A group serializes its nodes and keeps its attributes; a data
element serializes its payload, drops `ni_form` for text output or
recomputes it from the data otherwise, and drops the derived
`vec_typ`/`vec_len`/`vec_num` entries (here separate fields, so never
emitted).  An element with neither payload nor nodes raises `KeyError` in
the source; the model returns the empty string there (unreachable for the
trees considered). -/
mutual
/-- Serialize one raw NIML element in the given form. -/
def rawniml2string (form : Form) : RawElem → List Char
  | .mk name attrs _ _ _ dta nodes =>
    match nodes with
    | some ns =>
      mkElemString name (header2string attrs) (serForest form ns)
    | none =>
      match dta with
      | none => []
      | some d =>
        let body := data2string d form
        let attrs2 :=
          match form with
          | .text => eraseKey attrs "ni_form".toList
          | _ =>
            match data2ni_form d form with
            | some bo => setKey attrs "ni_form".toList bo
            | none => attrs
        mkElemString name (header2string attrs2) body

/-- Serialize a forest of elements, newline-joined. -/
def serForest (form : Form) : RawForest → List Char
  | .fnil => []
  | .fcons x .fnil => rawniml2string form x
  | .fcons x (.fcons y t) =>
    rawniml2string form x ++ '\n' :: serForest form (.fcons y t)
end

/-- Source `rawniml2string` on a list of elements: newline-joined. -/
def rawnimlList2string (form : Form) (l : List RawElem) : List Char :=
  List.intercalate ['\n'] (l.map (rawniml2string form))

/-! ### Scanner primitives for the parser's regular expressions

Each function reproduces the leftmost-greedy backtracking semantics of one
anchored pattern of the source on a byte string. -/

/-- Pattern `\W*<(?P<name>\w+)\W(?P<header>.*?)>` (DOTALL), anchored at the
start of `s`.  The greedy `\W*` run can only hand the literal `<` the
character directly before the first word character (a `<` anywhere earlier
in the run is followed by a non-word character, where `\w+` cannot start),
so the match is: a non-word run ending in `<`, a word run as name, one
further character consumed by `\W` (any character there is non-word
because the name run is maximal), then the lazy `.*?>` takes everything up
to the first `>`.  Returns `(name, header, rest after the >)`. -/
def headerMatch (s : List Char) : Option (List Char × List Char × List Char) :=
  let pre := s.takeWhile (fun c => ¬ wordChar c)
  match pre.getLast? with
  | some '<' =>
    let after := s.drop pre.length
    let name := after.takeWhile (fun c => wordChar c)
    match name, after.drop name.length with
    | _ :: _, _ :: rest2 =>
      match firstSplitAtChar '>' rest2 with
      | some (hdr, rest3) => some (name, hdr, rest3)
      | none => none
    | _, _ => none
  | _ => none

/-- Pattern `\W*</\w+>\s*`, anchored at the start of `s`.  As above the
only viable split puts the literal `</` directly before the first word
character.  Note the tag name is `\w+`: any name is accepted.  Returns the
suffix after the match (the trailing `\s*` is greedy). -/
def closeMatch (s : List Char) : Option (List Char) :=
  let pre := s.takeWhile (fun c => ¬ wordChar c)
  match pre.dropLast.getLast?, pre.getLast? with
  | some '<', some '/' =>
    let after := s.drop pre.length
    let name := after.takeWhile (fun c => wordChar c)
    match name, after.drop name.length with
    | _ :: _, '>' :: rest => some (rest.dropWhile (fun c => wsChar c))
    | _, _ => none
  | _, _ => none

/-- The close tag `</name>` of an element. -/
def closeTagOf (name : List Char) : List Char :=
  '<' :: '/' :: (name ++ ['>'])

/-- Pattern `\s*"(?P<data>[^"]*)[^"]*"\s*</name>`, anchored: greedy `\s*`,
an opening quote, the greedy `[^"]*` capture running to the next quote
(the second `[^"]*` is forced empty), the closing quote, optional
whitespace, then exactly the close tag.  Returns `(data, rest)`. -/
def quotedDataMatch (name s : List Char) : Option (List Char × List Char) :=
  match s.dropWhile (fun c => wsChar c) with
  | '"' :: t =>
    match firstSplitAtChar '"' t with
    | some (dta, u) =>
      let u2 := u.dropWhile (fun c => wsChar c)
      if isPre (closeTagOf name) u2 then
        some (dta, u2.drop (closeTagOf name).length)
      else none
    | none => none
  | _ => none

/-- Core of the unquoted pattern: find the latest occurrence of `close`
preceded only by non-quote characters; everything before it is the greedy
`data` capture.  Returns `(data, rest after close)`. -/
def lastCloseNoQuote (close : List Char) : List Char → Option (List Char × List Char)
  | [] => none
  | c :: t =>
    let later :=
      if c = '"' then none
      else (lastCloseNoQuote close t).map (fun p => (c :: p.1, p.2))
    match later with
    | some x => some x
    | none =>
      if isPre close (c :: t) then some ([], (c :: t).drop close.length)
      else none

/-- Pattern `\s*(?P<data>[^"]*)[^"]*\s*</name>`, anchored: greedy `\s*`,
then the greedy `[^"]*` capture extends to the latest occurrence of the
close tag that is preceded by quote-free text only (the second `[^"]*` and
the inner `\s*` are forced empty by the greediness of the capture). -/
def unquotedDataMatch (name s : List Char) : Option (List Char × List Char) :=
  lastCloseNoQuote (closeTagOf name) (s.dropWhile (fun c => wsChar c))

/-- Tail of one findall attempt of the key/value pattern, after the key
has been read: expects `=` then optional whitespace then a quoted
non-empty run of non-quote characters (`[^"]+`).  Returns the pair and the
suffix after the closing quote. -/
def kvTail (k : List Char) (u : List Char) : Option ((List Char × List Char) × List Char) :=
  match u with
  | [] => none
  | c :: u1 =>
    if c = '=' then
      match u1.dropWhile (fun c => wsChar c) with
      | [] => none
      | d :: u2 =>
        if d = '"' then
          match firstSplitAtChar '"' u2 with
          | some (v, rest) => if v = [] then none else some ((k, v), rest)
          | none => none
        else none
    else none

/-- One attempt of the findall pattern
`\s*(?P<lhs>\w+)\s*=\s*"(?P<rhs>[^"]+)"` at the start of `s`: whitespace,
a word-run key, then `kvTail` after more optional whitespace. -/
def kvTryMatch (s : List Char) : Option ((List Char × List Char) × List Char) :=
  match (s.dropWhile (fun c => wsChar c)).takeWhile (fun c => wordChar c) with
  | [] => none
  | k =>
    kvTail k
      (((s.dropWhile (fun c => wsChar c)).drop k.length).dropWhile (fun c => wsChar c))

/-- Fueled core of `parse_keyvalues` (structural recursion for kernel
evaluation; the wrapper supplies the buffer length as fuel, which
suffices since every match consumes at least one byte). -/
def pkvF : Nat → List Char → List (List Char × List Char)
  | _, [] => []
  | 0, _ :: _ => []
  | f + 1, c :: t =>
    match kvTryMatch (c :: t) with
    | some (kv, rest) => kv :: pkvF f rest
    | none => pkvF f t

/-- Source `_parse_keyvalues`: `re.findall` of the key/value pattern —
scan left to right, collect non-overlapping matches (the pattern cannot
match the empty string, so a failed attempt advances by one byte). -/
def parse_keyvalues (s : List Char) : List (List Char × List Char) :=
  pkvF s.length s

/-! ### Payload decoding (`_datastring2rawniml`, `_mixedtypes_datastring2rawniml`) -/

/-- Position of the first occurrence of `c` (Python `str.index`,
`none` = `ValueError`). -/
def firstIdxOfChar (c : Char) (s : List Char) : Option Nat :=
  (firstSplitAtChar c s).map (fun p => p.1.length)

/-- Decode a text cell of a numeric column.  Modelled from the spec:
`code2python_convertor` of the missing registry parses numeric text
exactly (integer values model both integer and float cells). -/
def convertNumCell (cell : List Char) : Except String Int :=
  match parsePyInt cell with
  | some v => .ok v
  | none => .error "invalid literal"

/-- Source `_mixedtypes_datastring2rawniml`: strip the payload, split rows
on newlines (checking the declared row count), split each row on single
spaces, then build one container per column: string columns collect their
cells as-is, numeric columns reject any `ni_form` ("Not supported: have
ni_form with mixed types") and parse each cell.  A missing cell raises
(`IndexError`). -/
def mixedtypes_datastring2rawniml (s : List Char) (tps : List NiType)
    (nrows : Nat) (niform : Option (List Char)) : Except String PData := do
  let lines := splitOnChar '\n' (stripWs s)
  if lines.length ≠ nrows then
    .error "Expected rows mismatch"
  else
    let elems := lines.map (fun x => splitOnChar ' ' (stripWs x))
    let cols ← tps.enum.mapM (fun ct => do
      let col := ct.1
      let tc := ct.2
      if tc = .tstring then
        let cells ← elems.mapM (fun row =>
          match row.get? col with
          | some cell => Except.ok cell
          | none => Except.error "IndexError")
        Except.ok (PCol.cstr cells)
      else
        if niform.isSome then
          Except.error "Not supported: have ni_form with mixed types"
        else do
          let cells ← elems.mapM (fun row =>
            match row.get? col with
            | some cell => convertNumCell cell
            | none => Except.error "IndexError")
          Except.ok (PCol.cint tc cells))
    .ok (.pmixed cols)

/-- Numeric text payload: split on whitespace, check the element count,
parse each value, fill the matrix row-major (`data[i / ncols, i % ncols]`;
with zero columns the fill loop runs zero times over the empty value
list). -/
def textNumeric (tc : NiType) (s : List Char) (nrows ncols : Nat) :
    Except String PData :=
  let vals := splitWsNone s
  if vals.length ≠ ncols * nrows then .error "unexpected number of elements"
  else if ncols = 0 then .ok (.pmat tc (List.replicate nrows []))
  else
    match vals.mapM parsePyInt with
    | none => .error "invalid literal"
    | some ivals => .ok (.pmat tc (chunkList ncols ivals))

/-- Binary payload: `np.fromstring` (length must be a multiple of the
element width, checked here by exact chunking) then
`np.reshape((nrows, ncols))` (the value count must be exactly
`nrows * ncols`). -/
def fromstringReshape (tc : NiType) (bytes : List Char) (nrows ncols : Nat) :
    Except String PData :=
  match byteWidth tc with
  | none => .error "no numpy type"
  | some w =>
    match chunkExact w bytes with
    | none => .error "fromstring: string size mismatch"
    | some chunks =>
      let vals := chunks.map (sdecVal w)
      if vals.length ≠ nrows * ncols then .error "cannot reshape"
      else if ncols = 0 then .ok (.pmat tc (List.replicate nrows []))
      else .ok (.pmat tc (chunkList ncols vals))

/-- Source `_datastring2rawniml`: mixed types go to the mixed decoder, a
uniform string type just unescapes the payload, and numeric data go to
the text path when `ni_form` is absent, empty or `text`, to base64 or raw
binary otherwise ("Illegal niform" for unrecognized forms). -/
def datastring2rawniml (s : List Char) (vecTyp : List NiType)
    (vecLen vecNum : Nat) (niform : Option (List Char)) : Except String PData :=
  match findonetype vecTyp with
  | none => mixedtypes_datastring2rawniml s vecTyp vecLen niform
  | some .tstring => .ok (.pstr (decode_escape s))
  | some tc =>
    match niform with
    | none => textNumeric tc s vecLen vecNum
    | some nf =>
      if nf = [] ∨ nf = "text".toList then textNumeric tc s vecLen vecNum
      else if occursIn "base64".toList nf then
        match b64decode s with
        | none => .error "base64 decode error"
        | some bytes => fromstringReshape tc bytes vecLen vecNum
      else if occursIn "binary".toList nf then
        fromstringReshape tc s vecLen vecNum
      else .error "Illegal niform"

/-- Source `_binary_data_bytecount`: requires a binary `ni_form`, returns
`none` (Python `None`) when the columns have no uniform type, and
otherwise `vec_num * vec_len * byte_width`. -/
def binary_data_bytecount (vecTyp : List NiType) (vecLen vecNum : Nat)
    (niform : List Char) : Except String (Option Nat) :=
  if ¬ occursIn "binary".toList niform then .error "Illegal niform"
  else
    match findonetype vecTyp with
    | none => .ok none
    | some tc =>
      match byteWidth tc with
      | none => .error "Type not supported"
      | some w => .ok (some (vecNum * vecLen * w))

/-! ### The main parser (`string2rawniml`) -/

/-- Keys of the element dict that the parser overwrites with its special
entries (`niml['name'] = ...` etc.) and that the serializer pops before
emitting the header; the model keeps them out of `attrs`. -/
def specialKeys : List (List Char) :=
  ["name".toList, "vec_typ".toList, "vec_len".toList, "vec_num".toList,
   "data".toList, "nodes".toList]

/-- Source `string2rawniml` parsing loop at one recursion level, in
cursor-as-suffix form: the Python cursor `i` into the full buffer
corresponds here to the suffix of the buffer starting at `i`.  Each
iteration skips an `<?xml ...>` tag, then matches a header.  On header
failure a close tag of any name ends the level: the level returns the
current suffix — the close tag is not consumed, the caller re-reads it —
but only when nothing except null bytes and whitespace follows the close
tag ("Unexpected end" otherwise, also when no close tag matches).  A
`ni_form="ni_group"` header recurses for the children and continues at
the returned suffix; other headers decode a data payload by scanning
(string-typed or formless elements) or by analytic length (base64 scans to
the next `<`, raw binary slices `_binary_data_bytecount` bytes — a `None`
count is a Python `TypeError` on slicing) and then require the exact close
tag right after the payload.  `fuel` bounds the iteration count
(`string2rawniml` supplies more than the loop can consume). -/
def parseNext (fuel : Nat) (s : List Char) (acc : List RawElem) :
    Except String (List Char × List RawElem) :=
  match fuel with
  | 0 => .error "fuel exhausted"
  | fuel + 1 =>
    let sxE : Except String (List Char) :=
      if isPre "<?xml".toList s then
        match firstSplitAtChar '>' s with
        | some (_, rest) => .ok rest
        | none => .error "ValueError: substring not found"
      else .ok s
    match sxE with
    | .error e => .error e
    | .ok sx =>
      match headerMatch sx with
      | none =>
        match closeMatch sx with
        | some rest =>
          if stripWs (removeNulls rest) = [] then .ok (sx, acc)
          else .error "Unexpected end"
        | none => .error "Unexpected end"
      | some (name, header, rest) =>
        let attrs0 := parse_keyvalues header
        let attrs := attrs0.filter (fun kv => ¬ kv.1 ∈ specialKeys)
        if pyGet attrs0 "ni_form".toList = some "ni_group".toList then
          match parseNext fuel rest [] with
          | .error e => .error e
          | .ok (rest2, children) =>
            parseNext fuel rest2
              (acc ++ [.mk name attrs [] 0 0 none (some (listToForest children))])
        else
          match pyGet attrs0 "ni_type".toList with
          | none => .error "KeyError: ni_type"
          | some nitype =>
            match str2codes nitype with
            | none => .error "UnknownTypeCode"
            | some vtyp =>
              match (pyGet attrs0 "ni_dimen".toList).bind parsePyInt with
              | none => .error "ni_dimen"
              | some vl =>
                if vl < 0 then .error "negative dimensions are not allowed"
                else
                  let vlen := vl.toNat
                  let vnum := vtyp.length
                  let niform := pyGet attrs0 "ni_form".toList
                  if nitype = "String".toList ∨ niform = none then
                    let quoted := nitype = "String".toList
                    match
                      (if quoted then quotedDataMatch name rest
                       else unquotedDataMatch name rest) with
                    | none => .error "Could not parse string data"
                    | some (dta, rest2) =>
                      match datastring2rawniml dta vtyp vlen vnum niform with
                      | .error e => .error e
                      | .ok d0 =>
                        let d := if quoted then
                            (match d0 with
                             | .pstr x => PData.pstr (decode_escape x)
                             | other => other)
                          else d0
                        parseNext fuel rest2
                          (acc ++ [.mk name attrs vtyp vlen vnum (some d) none])
                  else
                    match niform with
                    | none => .error "unreachable"
                    | some nf =>
                      let nbytesE : Except String Nat :=
                        if occursIn "base64".toList nf then
                          match rest with
                          | [] => .error "ValueError: substring not found"
                          | _ :: r1 =>
                            match firstIdxOfChar '<' r1 with
                            | some k => .ok (1 + k)
                            | none => .error "ValueError: substring not found"
                        else
                          match binary_data_bytecount vtyp vlen vnum nf with
                          | .error e => .error e
                          | .ok none => .error "TypeError: unsupported operand"
                          | .ok (some nb) => .ok nb
                      match nbytesE with
                      | .error e => .error e
                      | .ok nbytes =>
                        match datastring2rawniml (rest.take nbytes) vtyp vlen vnum (some nf) with
                        | .error e => .error e
                        | .ok d =>
                          let rest2 := rest.drop nbytes
                          if isPre (closeTagOf name) rest2 then
                            parseNext fuel (rest2.drop (closeTagOf name).length)
                              (acc ++ [.mk name attrs vtyp vlen vnum (some d) none])
                          else .error "Not found expected end string"

/-- Source `string2rawniml` with `i = None`: parse the whole buffer and
return the element list. -/
def string2rawniml (s : List Char) : Except String (List RawElem) :=
  (parseNext (s.length + 1) s []).map Prod.snd

/-! ### Concrete elements and documents used by the claims -/

/-- Short spelling for byte-string literals. -/
def strL (s : String) : List Char :=
  s.toList

instance {ε α : Type} [DecidableEq ε] [DecidableEq α] : DecidableEq (Except ε α) :=
  fun x y =>
    match x, y with
    | .ok a, .ok b =>
      match decEq a b with
      | isTrue h => isTrue (h ▸ rfl)
      | isFalse h => isFalse (fun hh => h (Except.ok.inj hh))
    | .error e, .error f =>
      match decEq e f with
      | isTrue h => isTrue (h ▸ rfl)
      | isFalse h => isFalse (fun hh => h (Except.error.inj hh))
    | .ok _, .error _ => isFalse (fun hh => Except.noConfusion hh)
    | .error _, .ok _ => isFalse (fun hh => Except.noConfusion hh)

/-- A well-formed 2-column, 2-row integer data element. -/
def exDataElem : RawElem :=
  .mk (strL "d") [(strL "ni_type", strL "int,int"), (strL "ni_dimen", strL "2")]
    [] 0 0 (some (.pmat .tint [[5, -3], [7, 100]])) none

/-- The group wrapping `exDataElem`. -/
def exGroup : RawElem :=
  .mk (strL "G") [(strL "ni_form", strL "ni_group")] [] 0 0 none
    (some (listToForest [exDataElem]))

/-- A second well-formed data element, used as a sibling after a group. -/
def exSibling : RawElem :=
  .mk (strL "e") [(strL "ni_type", strL "int"), (strL "ni_dimen", strL "1")]
    [] 0 0 (some (.pmat .tint [[9]])) none

/-- A string-typed data element whose payload is `hello & world`. -/
def exStrElem : RawElem :=
  .mk (strL "s") [(strL "ni_type", strL "String"), (strL "ni_dimen", strL "1")]
    [] 0 0 (some (.pstr (strL "hello & world"))) none

/-- A mixed-type (int column, string column) data element with rows
`(1, "a")` and `(2, "b")`. -/
def exMixedElem : RawElem :=
  .mk (strL "m") [(strL "ni_type", strL "int,String"), (strL "ni_dimen", strL "2")]
    [] 0 0 (some (.pmixed [.cint .tint [1, 2], .cstr [strL "a", strL "b"]])) none

/-- A group with two data children (`exDataElem` then `exSibling`). -/
def exGroup2 : RawElem :=
  .mk (strL "G") [(strL "ni_form", strL "ni_group")] [] 0 0 none
    (some (listToForest [exDataElem, exSibling]))

/-- A data element carrying stale header attributes: `ni_dimen="7"` and a
stale byte-order tag, while the payload has one row. -/
def exStale : RawElem :=
  .mk (strL "d")
    [(strL "ni_type", strL "int"), (strL "ni_dimen", strL "7"),
     (strL "ni_form", strL "binary.msbfirst")]
    [] 0 0 (some (.pmat .tint [[5]])) none

/-- A buffer declaring raw binary encoding together with heterogeneous
column types. -/
def exHetBinaryBuf : List Char :=
  strL "<h\nni_type=\"int,String\"\nni_dimen=\"2\"\nni_form=\"binary.lsbfirst\" >12345678</h></x>"

/-- The serialized children-plus-close-tag region of `exGroup2`: what the
recursive parser call sees after the group's opening tag. -/
def exGroup2Inner : List Char :=
  serForest .text (listToForest [exDataElem, exSibling]) ++ strL "</G>"

/-- Flattened view of the parse of `exGroup2` (text form). -/
def exGroup2Rows : List FlatRow :=
  [⟨0, strL "G", [(strL "ni_form", strL "ni_group")], [], 0, 0, none⟩,
   ⟨1, strL "d", [(strL "ni_type", strL "int,int"), (strL "ni_dimen", strL "2")],
    [.tint, .tint], 2, 2, some (.pmat .tint [[5, -3], [7, 100]])⟩,
   ⟨1, strL "e", [(strL "ni_type", strL "int"), (strL "ni_dimen", strL "1")],
    [.tint], 1, 1, some (.pmat .tint [[9]])⟩]

/-! ### Claim C1: counterexample (the amended round-trip theorem is below) -/

/-- C1 counterexample: a Document consisting of one bare DataElement,
serialized in Text form, does not re-parse at all — the parsing loop only
returns at a close tag followed by nothing, and a bare element's buffer
ends right after its own close tag has already been consumed, so parsing
fails ("Unexpected end") instead of reconstructing the tree. -/
theorem c1_counterexample :
    (string2rawniml (rawnimlList2string .text [exDataElem])).isOk = false := by
  decide

/-! ### Claim C2: group recursion and cursor position -/

/-- C2 counterexample: a sibling element following a group in the same
buffer does not parse — the recursive call that reads the group's children
fails with "Unexpected end" because the buffer does not end at the
group's close tag. -/
theorem c2_counterexample :
    (string2rawniml (rawnimlList2string .text [exGroup, exSibling])).isOk = false := by
  decide

/-- C2 amended: the parser recurses after a group's opening tag and
accumulates the children in their original order, but the recursive call
returns with the cursor at the START of the close tag (any close tag, its
name unchecked), which the enclosing level then re-reads as its own
terminator; the recursion only returns at all when nothing but null bytes
and whitespace follows that close tag, so a group works as the last
element of the buffer while a sibling after it fails (see the
counterexample). -/
theorem c2_amended :
    (string2rawniml (rawniml2string .text exGroup2)).map flattenDoc
        = .ok exGroup2Rows ∧
      (parseNext (exGroup2Inner.length + 1) exGroup2Inner []).map
          (fun p => (p.1, flattenDoc p.2))
        = .ok (strL "</G>", exGroup2Rows.tail.map
            (fun r => ⟨0, r.name, r.attrs, r.vecTyp, r.vecLen, r.vecNum, r.data⟩)) := by
  constructor
  · decide
  · decide

/-! ### Claim C5: escape codec (counterexample; amended theorem below) -/

/-- C5 counterexample: `unescape` is not the exact inverse of `escape` on
every string.  `escape` escapes the `&` of a literal `"&lt;"` to
`"&amp;lt;"`; `unescape` replaces `&amp;` first (the dict iteration order
of CPython 2.7), recreating `"&lt;"`, whose `&lt;` is then replaced in a
later pass, so the round trip returns `"<"` instead of the original
`"&lt;"`. -/
theorem c5_counterexample :
    decode_escape (encode_escape (strL "&lt;")) ≠ strL "&lt;" := by
  decide

/-! ### Claim C6: string payload `hello & world` -/

/-- C6 counterexample: the serialized form of the string-typed element
alone does not re-parse: after the element is consumed the loop finds
neither a header nor a close tag at the end of the buffer and fails with
"Unexpected end" — the round trip of the claim only succeeds inside a
buffer that ends with one more close tag (see the amended theorem). -/
theorem c6_counterexample :
    (string2rawniml (rawnimlList2string .text [exStrElem])).isOk = false := by
  decide

/-- C6 amended: the element serializes its payload with `&` escaped inside
the quoted payload (`"hello &amp; world"` appears in the output), and
parsing the serialized form followed by a terminating close tag yields the
literal `hello & world` payload again (the serialized element alone fails,
see the counterexample). -/
theorem c6_amended :
    occursIn (strL "\"hello &amp; world\"") (rawniml2string .text exStrElem) = true ∧
      (string2rawniml (rawniml2string .text exStrElem ++ strL "</x>")).map
          (fun l => (flattenDoc l).map (fun r => (r.name, r.vecTyp, r.vecLen, r.data)))
        = .ok [(strL "s", [.tstring], 1, some (.pstr (strL "hello & world")))] := by
  constructor
  · decide
  · decide

/-! ### Claim C7: binary/base64 with heterogeneous columns -/

/-- C7 counterexample: the serializer does not reject a Binary encoding
request for heterogeneous columns — it silently emits the Text rendering
instead.  Requesting Binary for the mixed element produces, without any
error, exactly the bytes of the Text form. -/
theorem c7_counterexample :
    rawniml2string .binary exMixedElem = rawniml2string .text exMixedElem := by
  decide

/-- C7 amended: the byte-length calculator is indeed inapplicable for
heterogeneous columns — it returns `None` (`Except.ok none`) whenever no
uniform type exists — and the parser fails on a binary-tagged
heterogeneous element (slicing with a `None` byte count is a Python
`TypeError`); the serializer however does not reject the combination but
always renders mixed-type payloads as text, whatever form is
requested. -/
theorem c7_amended :
    (∀ (tps : List NiType) (vl vn : Nat) (nf : List Char),
        findonetype tps = none → occursIn (strL "binary") nf = true →
          binary_data_bytecount tps vl vn nf = .ok none) ∧
      (string2rawniml exHetBinaryBuf).isOk = false ∧
      (∀ (cols : List PCol), data2string (.pmixed cols) .binary
          = data2string (.pmixed cols) .text) := by
  refine ⟨?_, by decide, ?_⟩
  · intro tps vl vn nf hone hbin
    unfold binary_data_bytecount
    simp only [strL] at hbin
    rw [hbin, hone]
    simp
  · intro cols
    rfl

/-- Witness instantiating C7's universally quantified parts at the
heterogeneous column list `[int32, string]`. -/
theorem c7_witness :
    binary_data_bytecount [.tint, .tstring] 2 2 (strL "binary.lsbfirst") = .ok none ∧
      data2string (.pmixed [.cint .tint [1, 2], .cstr [strL "a", strL "b"]]) .binary
        = data2string (.pmixed [.cint .tint [1, 2], .cstr [strL "a", strL "b"]]) .text := by
  exact ⟨c7_amended.1 [.tint, .tstring] 2 2 (strL "binary.lsbfirst") (by decide) (by decide),
         c7_amended.2.2 [.cint .tint [1, 2], .cstr [strL "a", strL "b"]]⟩

/-! ### Claim C8: which header attributes the serializer recomputes -/

/-- C8 counterexample: the serializer does not recompute the row count
from the payload.  For an element whose payload has one row but whose
`ni_dimen` attribute is the stale string `"7"`, the emitted header
contains `ni_dimen="7"` and not `ni_dimen="1"` — the emitted header and
the payload disagree. -/
theorem c8_counterexample :
    occursIn (strL "ni_dimen=\"7\"") (rawniml2string .text exStale) = true ∧
      occursIn (strL "ni_dimen=\"1\"") (rawniml2string .text exStale) = false := by
  constructor
  · decide
  · decide

/-- C8 amended: of the header fields, only the byte-order tag `ni_form`
is recomputed from the payload (and the derived `vec_typ`/`vec_len`/
`vec_num` entries are dropped): for binary output a stale
`ni_form="binary.msbfirst"` is replaced by the computed
`binary.lsbfirst`, and for text output `ni_form` is dropped entirely,
while the `ni_type` and `ni_dimen` attributes are emitted unchanged from
the input tree (here the stale `ni_dimen="7"` of a one-row payload). -/
theorem c8_amended :
    occursIn (strL "ni_form=\"binary.lsbfirst\"") (rawniml2string .binary exStale) = true ∧
      occursIn (strL "msbfirst") (rawniml2string .binary exStale) = false ∧
      occursIn (strL "ni_form") (rawniml2string .text exStale) = false ∧
      occursIn (strL "ni_dimen=\"7\"") (rawniml2string .binary exStale) = true := by
  refine ⟨by decide, by decide, by decide, by decide⟩

/-- An empty group element used by claim C9. -/
def c9group : RawElem :=
  .mk (strL "G") [(strL "ni_form", strL "ni_group")] [] 0 0 none (some .fnil)

/-- The serialized form of `c9group` as a byte-string literal (proved equal
to the serializer output in `c9doc_eq`). -/
def c9doc : List Char :=
  strL "<G\n   ni_form=\"ni_group\" ></G>"

/-- The parse result of `c9doc`. -/
def c9parsedG : RawElem :=
  .mk (strL "G") [(strL "ni_form", strL "ni_group")] [] 0 0 none (some .fnil)

/-- Header of the claim C4 buffer: a binary float32 data element `VOL`
with three rows and three columns (36 payload bytes). -/
def c4hdr : List Char :=
  strL "<VOL\nni_type=\"float,float,float\"\nni_dimen=\"3\"\nni_form=\"binary.lsbfirst\" >"

/-- The element C4's buffer parses to, for a given decoded payload. -/
def c4elem (d : PData) : RawElem :=
  .mk (strL "VOL")
    [(strL "ni_type", strL "float,float,float"), (strL "ni_dimen", strL "3"),
     (strL "ni_form", strL "binary.lsbfirst")]
    [.tfloat, .tfloat, .tfloat] 3 3 (some d) none

/-- A concrete 36-byte payload for the C4 witness. -/
def c4payload : List Char :=
  strL "ABCDEFGHIJKLMNOPQRSTUVWXYZ0123456789"

/-- The per-character escape map that `encode_escape` implements (claim
C5): each reserved character becomes its entity, everything else is
unchanged.  The `&` replacement runs first in the dict order, so entities
produced for the other four characters are never re-escaped. -/
def escChar (c : Char) : List Char :=
  if c = '&' then strL "&amp;"
  else if c = '\'' then strL "&apos;"
  else if c = '"' then strL "&quot;"
  else if c = '<' then strL "&lt;"
  else if c = '>' then strL "&gt;"
  else [c]

/-- Stage map after the `&amp;` pass of `decode_escape`. -/
def escCharA (c : Char) : List Char :=
  if c = '&' then ['&']
  else if c = '\'' then strL "&apos;"
  else if c = '"' then strL "&quot;"
  else if c = '<' then strL "&lt;"
  else if c = '>' then strL "&gt;"
  else [c]

/-- Stage map after the `&apos;` pass of `decode_escape`. -/
def escCharB (c : Char) : List Char :=
  if c = '&' then ['&']
  else if c = '\'' then ['\'']
  else if c = '"' then strL "&quot;"
  else if c = '<' then strL "&lt;"
  else if c = '>' then strL "&gt;"
  else [c]

/-- Stage map after the `&quot;` pass of `decode_escape`. -/
def escCharC (c : Char) : List Char :=
  if c = '&' then ['&']
  else if c = '\'' then ['\'']
  else if c = '"' then ['"']
  else if c = '<' then strL "&lt;"
  else if c = '>' then strL "&gt;"
  else [c]

/-- Stage map after the `&lt;` pass of `decode_escape`. -/
def escCharD (c : Char) : List Char :=
  if c = '&' then ['&']
  else if c = '\'' then ['\'']
  else if c = '"' then ['"']
  else if c = '<' then ['<']
  else if c = '>' then strL "&gt;"
  else [c]

/-- `mism pat b`: some position covered by both lists carries different
characters, so `pat` cannot be a prefix of `b ++ y` for any `y`. -/
def mism : List Char → List Char → Bool
  | [], _ => false
  | _ :: _, [] => false
  | a :: as, b :: bs => a != b || mism as bs

/-- `noStart pat b`: at every position inside `b` a mismatch with `pat`
occurs before `b` ends, so the scan of `replaceAll` walks through `b`
without a match whatever follows. -/
def noStart (pat : List Char) : List Char → Bool
  | [] => true
  | c :: t => mism pat (c :: t) && noStart pat t

/-- `noM close s`: the greedy quote-free close-tag scan
(`lastCloseNoQuote`) finds no match anywhere in `s` — at every position
before the first `"` the close tag does not start. -/
def noM (close : List Char) : List Char → Bool
  | [] => true
  | c :: t => !(isPre close (c :: t)) && ((c == '"') || noM close t)

/-- Attributes of the data elements used to analyse claim C1: two `int`
columns and the row count. -/
def c1attrs (n : Nat) : List (List Char × List Char) :=
  [(strL "ni_type", strL "int,int"), (strL "ni_dimen", natRepr n)]

/-- A data element with two int32 columns holding `rows` (claim C1). -/
def c1child (rows : List (List Int)) : RawElem :=
  .mk (strL "d") (c1attrs rows.length) [.tint, .tint] rows.length 2
    (some (.pmat .tint rows)) none

/-- A document that is a single group with two such data elements
(claim C1). -/
def c1doc (rows : List (List Int)) : RawElem :=
  .mk (strL "G") [(strL "ni_form", strL "ni_group")] [] 0 0 none
    (some (.fcons (c1child rows) (.fcons (c1child rows) .fnil)))

end Afni

namespace Afni

/-! ### Lemmas about the key/value scanner (claim C10) -/

lemma kvTail_val_ne {k u : List Char} {kv : List Char × List Char}
    {rest : List Char} (h : kvTail k u = some (kv, rest)) : kv.2 ≠ [] := by
  unfold kvTail at h
  split at h
  · exact absurd h (by simp)
  · split at h
    · split at h
      · exact absurd h (by simp)
      · split at h
        · split at h
          · split at h
            · exact absurd h (by simp)
            · rename_i hv
              simp at h
              obtain ⟨hkv, -⟩ := h
              rw [← hkv]
              exact hv
          · exact absurd h (by simp)
        · exact absurd h (by simp)
    · exact absurd h (by simp)

lemma kvTryMatch_val_ne {s : List Char} {kv : List Char × List Char}
    {rest : List Char} (h : kvTryMatch s = some (kv, rest)) : kv.2 ≠ [] := by
  unfold kvTryMatch at h
  split at h
  · exact absurd h (by simp)
  · exact kvTail_val_ne h

lemma pkvF_val_ne :
    ∀ (f : Nat) (s : List Char), ∀ kv ∈ pkvF f s, kv.2 ≠ [] := by
  intro f
  induction f with
  | zero =>
    intro s kv hmem
    match s with
    | [] => simp [pkvF] at hmem
    | c :: t => simp [pkvF] at hmem
  | succ m ih =>
    intro s kv hmem
    match s with
    | [] => simp [pkvF] at hmem
    | c :: t =>
      rw [pkvF] at hmem
      split at hmem
      · rename_i kv' rest hm
        rcases List.mem_cons.mp hmem with h1 | h1
        · subst h1; exact kvTryMatch_val_ne hm
        · exact ih rest kv h1
      · exact ih t kv hmem

/-! ### Theorems for the claims -/

/-- C10: the key/value scanner pattern requires `[^"]+` (at least one
non-quote byte) as the value, so every attribute value it produces is a
non-empty string, and an attribute written with an empty quoted value is
silently dropped from the result: `a="" b="x"` scans to just
`[("b", "x")]`. -/
theorem c10_empty_valued_attrs_omitted :
    (∀ (s : List Char), ∀ kv ∈ parse_keyvalues s, kv.2 ≠ []) ∧
      parse_keyvalues (strL "a=\"\" b=\"x\"") = [(strL "b", strL "x")] := by
  constructor
  · intro s kv hmem
    exact pkvF_val_ne s.length s kv hmem
  · decide

/-- Witness instantiating C10's universally quantified part at a concrete
scanned buffer. -/
theorem c10_witness : (strL "x") ≠ [] := by
  have hmem : (strL "b", strL "x") ∈ parse_keyvalues (strL "b=\"x\"") := by decide
  exact c10_empty_valued_attrs_omitted.1 (strL "b=\"x\"") (strL "b", strL "x") hmem

/-- C3: for a binary element whose columns share one uniform numeric type,
`_binary_data_bytecount` computes `row_count * column_count * byte_width`
(the source multiplies `vec_num * vec_len * bytes_per_elem`). -/
theorem c3_binary_bytecount (tc : NiType) (w r n : Nat) (nf : List Char)
    (hw : byteWidth tc = some w) (hn : 1 ≤ n)
    (hbin : occursIn (strL "binary") nf = true) :
    binary_data_bytecount (List.replicate n tc) r n nf = .ok (some (r * n * w)) := by
  unfold binary_data_bytecount
  rw [show occursIn "binary".toList nf = true from hbin]
  simp only [not_true, if_neg, ite_false]
  have hone : findonetype (List.replicate n tc) = some tc := by
    match n, hn with
    | n + 1, _ =>
      rw [List.replicate_succ, findonetype]
      have : (List.replicate n tc).all (fun x => x == tc) = true := by
        rw [List.all_eq_true]
        intro x hx
        rw [List.eq_of_mem_replicate hx]
        exact beq_self_eq_true tc
      rw [this]
      simp
  rw [hone]
  simp only [hw]
  have : n * r * w = r * n * w := by ring
  rw [this]

/-- Witness for C3: three float32 columns, three rows, 36 bytes. -/
theorem c3_witness :
    binary_data_bytecount (List.replicate 3 .tfloat) 3 3 (strL "binary.lsbfirst")
      = .ok (some 36) := by
  have h := c3_binary_bytecount .tfloat 4 3 3 (strL "binary.lsbfirst")
    rfl (by decide) (by decide)
  simpa using h

/-! ### Claim C9: close tag, stray nulls, and trailing data -/

lemma c9doc_eq : c9doc = rawniml2string .binary c9group := by decide

/-- The close-without-open branch of the loop on a buffer `</G> ++ t`:
any-name close tag matched, then the trailing-data test decides between
returning the accumulated elements (with the cursor still at the close
tag) and the "Unexpected end" error. -/
lemma c9_close_step (t : List Char) (fuel : Nat) (acc : List RawElem) :
    parseNext (fuel + 1) (strL "</G>" ++ t) acc =
      if stripWs (removeNulls (t.dropWhile (fun c => wsChar c))) = [] then
        .ok (strL "</G>" ++ t, acc)
      else .error "Unexpected end" := rfl

/-- One loop step on the serialized `c9group` followed by anything: read
the group header, recurse, continue at the returned suffix. -/
lemma c9_group_step (t : List Char) (fuel : Nat) :
    parseNext (fuel + 2) (c9doc ++ t) [] =
      match parseNext (fuel + 1) (strL "</G>" ++ t) [] with
      | .error e => .error e
      | .ok (rest2, children) =>
        parseNext (fuel + 1) rest2
          [RawElem.mk (strL "G") [(strL "ni_form", strL "ni_group")] [] 0 0 none
            (some (listToForest children))] := rfl

lemma stripWs_removeNulls_dropWhile (t : List Char) :
    stripWs (removeNulls (t.dropWhile (fun c => wsChar c)))
      = stripWs (removeNulls t) := by
  induction t with
  | nil => rfl
  | cons c r ih =>
    by_cases h : wsChar c = true
    · have hc0 : ¬ (c = '\x00') := by
        intro hc; subst hc; simp [wsChar] at h
      rw [List.dropWhile_cons, if_pos h, ih]
      have h1 : removeNulls (c :: r) = c :: removeNulls r := by
        simp [removeNulls, hc0]
      rw [h1]
      show stripWs (removeNulls r) = _
      unfold stripWs
      rw [List.dropWhile_cons, if_pos h]
    · rw [List.dropWhile_cons, if_neg h]

lemma c9_parse_eval (t : List Char) (fuel : Nat) :
    parseNext (fuel + 2) (c9doc ++ t) [] =
      if stripWs (removeNulls t) = [] then
        .ok (strL "</G>" ++ t, [c9parsedG])
      else .error "Unexpected end" := by
  rw [c9_group_step, c9_close_step, stripWs_removeNulls_dropWhile]
  by_cases hc : stripWs (removeNulls t) = []
  · rw [if_pos hc]
    show parseNext (fuel + 1) (strL "</G>" ++ t) [c9parsedG] = _
    rw [c9_close_step, stripWs_removeNulls_dropWhile, if_pos hc]
  · rw [if_neg hc]
    rw [if_neg hc]

/-- C9: when the parser matches a close tag instead of a header, the
remainder of the buffer after the close tag — null bytes removed and
surrounding whitespace stripped — decides the outcome: if it is empty the
parser returns the accumulated ordered element list, and otherwise parsing
fails ("Unexpected end", the spec's UnexpectedTrailingData). -/
theorem c9_trailing_data (t : List Char) :
    (stripWs (removeNulls t) = [] →
      (string2rawniml (c9doc ++ t)).map flattenDoc =
        .ok [⟨0, strL "G", [(strL "ni_form", strL "ni_group")], [], 0, 0, none⟩]) ∧
    (stripWs (removeNulls t) ≠ [] →
      (string2rawniml (c9doc ++ t)).isOk = false) := by
  have hfuel : (c9doc ++ t).length + 1 = (t.length + 29) + 2 := by
    rw [List.length_append]
    rw [show c9doc.length = 30 from rfl]
    omega
  have heval := c9_parse_eval t (t.length + 29)
  constructor
  · intro h
    unfold string2rawniml
    rw [hfuel, heval, if_pos h]
    rfl
  · intro h
    unfold string2rawniml
    rw [hfuel, heval, if_neg h]
    rfl

/-- Witness instantiating C9 both for a remainder of nulls and whitespace
(parse succeeds) and for a non-empty remainder (parse fails). -/
theorem c9_witness :
    (string2rawniml (c9doc ++ strL " \x00 ")).map flattenDoc =
        .ok [⟨0, strL "G", [(strL "ni_form", strL "ni_group")], [], 0, 0, none⟩] ∧
      (string2rawniml (c9doc ++ strL " x")).isOk = false := by
  exact ⟨(c9_trailing_data (strL " \x00 ")).1 (by decide),
         (c9_trailing_data (strL " x")).2 (by decide)⟩


/-! ### Chunking lemmas (used by claims C4 and C1) -/

lemma takeExact_eq {α : Type} :
    ∀ (w : Nat) (l : List α), w ≤ l.length →
      takeExact w l = some (l.take w, l.drop w) := by
  intro w
  induction w with
  | zero => intro l h; simp [takeExact]
  | succ m ih =>
    intro l h
    match l with
    | [] => simp at h
    | c :: t =>
      rw [takeExact]
      simp at h
      rw [ih t (by omega)]
      simp [List.take_succ_cons, List.drop_succ_cons]

lemma takeExact_none {α : Type} :
    ∀ (w : Nat) (l : List α), l.length < w → takeExact w l = none := by
  intro w
  induction w with
  | zero => intro l h; omega
  | succ m ih =>
    intro l h
    match l with
    | [] => rfl
    | c :: t =>
      rw [takeExact]
      simp at h
      rw [ih t (by omega)]
      rfl

lemma chunkExactF_fuel {α : Type} {w : Nat} (hw : 1 ≤ w) :
    ∀ (f1 : Nat) (l : List α) (f2 : Nat), l.length ≤ f1 → l.length ≤ f2 →
      chunkExactF w f1 l = chunkExactF w f2 l := by
  intro f1
  induction f1 with
  | zero =>
    intro l f2 h1 h2
    match l with
    | [] =>
      match f2 with
      | 0 => rfl
      | g + 1 => rfl
  | succ g1 ih =>
    intro l f2 h1 h2
    match l with
    | [] =>
      match f2 with
      | 0 => rfl
      | g + 1 => rfl
    | c :: t =>
      match f2 with
      | 0 => simp at h2
      | g2 + 1 =>
        rw [chunkExactF, chunkExactF]
        by_cases hlen : w ≤ (c :: t).length
        · have hdl : ((c :: t).drop w).length ≤ g1 := by
            simp [List.length_drop] at *
            omega
          have hdl2 : ((c :: t).drop w).length ≤ g2 := by
            simp [List.length_drop] at *
            omega
          simp only [takeExact_eq w (c :: t) hlen, ih ((c :: t).drop w) g2 hdl hdl2]
        · rw [takeExact_none w (c :: t) (by omega)]

lemma chunkExact_step {α : Type} {w : Nat} (hw : 1 ≤ w) (l : List α)
    (h : w ≤ l.length) :
    chunkExact w l = (chunkExact w (l.drop w)).map (fun r => l.take w :: r) := by
  match l with
  | [] => simp at h; omega
  | c :: t =>
    show chunkExactF w (c :: t).length (c :: t) = _
    have hlen : (c :: t).length = t.length + 1 := by simp
    rw [hlen, chunkExactF]
    have hd : ((c :: t).drop w).length ≤ t.length := by
      simp [List.length_drop]
      omega
    simp only [takeExact_eq w (c :: t) h,
      chunkExactF_fuel hw t.length ((c :: t).drop w) ((c :: t).drop w).length hd (Nat.le_refl _)]
    rfl

lemma chunkF_fuel {α : Type} {w : Nat} (hw : 1 ≤ w) :
    ∀ (f1 : Nat) (l : List α) (f2 : Nat), l.length ≤ f1 → l.length ≤ f2 →
      chunkF w f1 l = chunkF w f2 l := by
  intro f1
  induction f1 with
  | zero =>
    intro l f2 h1 h2
    match l with
    | [] =>
      match f2 with
      | 0 => rfl
      | g + 1 => rfl
  | succ g1 ih =>
    intro l f2 h1 h2
    match l with
    | [] =>
      match f2 with
      | 0 => rfl
      | g + 1 => rfl
    | c :: t =>
      match f2 with
      | 0 => simp at h2
      | g2 + 1 =>
        rw [chunkF, chunkF]
        have hdl : ((c :: t).drop w).length ≤ g1 := by
          simp [List.length_drop] at *
          omega
        have hdl2 : ((c :: t).drop w).length ≤ g2 := by
          simp [List.length_drop] at *
          omega
        rw [ih ((c :: t).drop w) g2 hdl hdl2]

lemma chunkList_step {α : Type} {w : Nat} (hw : 1 ≤ w) (c : α) (t : List α) :
    chunkList w (c :: t) = (c :: t).take w :: chunkList w ((c :: t).drop w) := by
  match w, hw with
  | m + 1, _ =>
    show chunkF (m + 1) (c :: t).length (c :: t) = _
    have hlen : (c :: t).length = t.length + 1 := by simp
    rw [hlen, chunkF]
    have hd : ((c :: t).drop (m + 1)).length ≤ t.length := by
      simp [List.length_drop]
    rw [chunkF_fuel (by omega) t.length ((c :: t).drop (m + 1))
      ((c :: t).drop (m + 1)).length hd (Nat.le_refl _)]
    rfl

lemma chunkList_nil {α : Type} (w : Nat) : chunkList w ([] : List α) = [] := by
  match w with
  | 0 => rfl
  | m + 1 => rfl

lemma chunkExact_of_mul {α : Type} :
    ∀ (k w : Nat) (l : List α), 1 ≤ w → l.length = w * k →
      chunkExact w l = some (chunkList w l) ∧ (chunkList w l).length = k := by
  intro k
  induction k with
  | zero =>
    intro w l hw hl
    simp at hl
    subst hl
    constructor
    · rw [chunkList_nil]
      rfl
    · rw [chunkList_nil]
      rfl
  | succ m ih =>
    intro w l hw hl
    have hwle : w ≤ l.length := by
      rw [hl]
      calc w = w * 1 := by omega
      _ ≤ w * (m + 1) := Nat.mul_le_mul_left w (by omega)
    match l, hwle with
    | [], hwle => exact absurd hwle (by simp; omega)
    | c :: t, hwle =>
      have hdrop : ((c :: t).drop w).length = w * m := by
        rw [List.length_drop]
        rw [Nat.mul_succ] at hl
        omega
      obtain ⟨ih1, ih2⟩ := ih w ((c :: t).drop w) hw hdrop
      constructor
      · rw [chunkExact_step hw (c :: t) hwle, ih1, chunkList_step hw]
        rfl
      · rw [chunkList_step hw]
        simp [ih2]

lemma chunkList_length_of_mul {α : Type} (k w : Nat) (l : List α)
    (hw : 1 ≤ w) (hl : l.length = w * k) : (chunkList w l).length = k :=
  (chunkExact_of_mul k w l hw hl).2

/-! ### Claim C4: analytic binary slicing and the close-tag check -/

/-- One parsing step on the C4 buffer, for an arbitrary suffix `X` after
the header: decode exactly 36 sliced bytes, then demand the close tag
right after the slice. -/
lemma c4_header_step (X : List Char) (fuel : Nat) :
    parseNext (fuel + 1) (c4hdr ++ X) [] =
      match datastring2rawniml (X.take 36) [.tfloat, .tfloat, .tfloat] 3 3
          (some (strL "binary.lsbfirst")) with
      | .error e => .error e
      | .ok d =>
        if isPre (closeTagOf (strL "VOL")) (X.drop 36) then
          parseNext fuel ((X.drop 36).drop (closeTagOf (strL "VOL")).length) [c4elem d]
        else .error "Not found expected end string" := rfl

/-- The loop returns at a final close tag with nothing after it. -/
lemma c4_final_step (fuel : Nat) (acc : List RawElem) :
    parseNext (fuel + 1) (strL "</x>") acc = .ok (strL "</x>", acc) := rfl

/-- Decoding a 36-byte float32 payload always succeeds, producing the
3-row chunking of the per-value decodes. -/
lemma c4_decode (p : List Char) (hp : p.length = 36) :
    datastring2rawniml p [.tfloat, .tfloat, .tfloat] 3 3
        (some (strL "binary.lsbfirst"))
      = .ok (.pmat .tfloat (chunkList 3 ((chunkList 4 p).map (sdecVal 4)))) := by
  have h4 : chunkExact 4 p = some (chunkList 4 p) ∧ (chunkList 4 p).length = 9 :=
    chunkExact_of_mul 9 4 p (by omega) (by omega)
  show fromstringReshape .tfloat p 3 3 = _
  unfold fromstringReshape
  simp only [byteWidth]
  rw [h4.1]
  simp only [List.length_map, h4.2]
  rfl

/-- C4: parsing a raw-binary DataElement slices exactly the computed
number of payload bytes (36 here) without scanning — the slice is the
payload whatever bytes it holds — and succeeds only when the bytes
immediately after the slice are the close tag `</VOL>`: with the close tag
there, the element parses with exactly the sliced payload decoded into its
matrix; with anything else there (for example when one payload byte is
missing, so that the slice swallows the `<` of the close tag), parsing
fails ("Not found expected end string", the spec's MissingCloseTag) and no
tree is returned. -/
theorem c4_binary_slice (p rest : List Char) (hp : p.length = 36) :
    (isPre (closeTagOf (strL "VOL")) rest = false →
      (string2rawniml (c4hdr ++ (p ++ rest))).isOk = false) ∧
    (string2rawniml (c4hdr ++ (p ++ strL "</VOL></x>"))).map
        (fun l => (flattenDoc l).map (fun r => (r.name, r.vecTyp, r.vecLen, r.vecNum, r.data)))
      = .ok [(strL "VOL", [.tfloat, .tfloat, .tfloat], 3, 3,
              some (.pmat .tfloat (chunkList 3 ((chunkList 4 p).map (sdecVal 4)))))] := by
  have htake : ∀ (y : List Char), (p ++ y).take 36 = p := by
    intro y
    rw [show (36 : Nat) = p.length from hp.symm]
    exact List.take_left p y
  have hdrop : ∀ (y : List Char), (p ++ y).drop 36 = y := by
    intro y
    rw [show (36 : Nat) = p.length from hp.symm]
    exact List.drop_left p y
  constructor
  · intro hclose
    unfold string2rawniml
    have hlen : (c4hdr ++ (p ++ rest)).length + 1
        = (c4hdr.length + p.length + rest.length) + 1 := by
      simp [List.length_append]
      omega
    rw [hlen, c4_header_step (p ++ rest) (c4hdr.length + p.length + rest.length),
      htake, hdrop, c4_decode p hp, hclose]
    rfl
  · unfold string2rawniml
    have hlen : (c4hdr ++ (p ++ strL "</VOL></x>")).length + 1
        = (118 + 1) + 1 := by
      simp [List.length_append, hp]
      rw [show (strL "</VOL></x>").length = 10 from rfl,
        show c4hdr.length = 73 from rfl]
    rw [hlen, c4_header_step (p ++ strL "</VOL></x>") (118 + 1),
      htake, hdrop, c4_decode p hp]
    rw [show isPre (closeTagOf (strL "VOL")) (strL "</VOL></x>") = true from rfl]
    simp only [if_true]
    rw [show ((strL "</VOL></x>").drop (closeTagOf (strL "VOL")).length) = strL "</x>" from rfl]
    rw [show (118 : Nat) + 1 = 118 + 1 from rfl]
    rw [c4_final_step 118]
    rfl

/-- Witness for C4 at a concrete 36-byte payload: with the close tag in
place parsing succeeds with exactly those bytes decoded; with the payload
shifted so the close tag starts one byte early, parsing fails. -/
theorem c4_witness :
    (string2rawniml (c4hdr ++ (c4payload ++ strL "</VOL></x>"))).map
        (fun l => (flattenDoc l).map (fun r => (r.name, r.vecTyp, r.vecLen, r.vecNum, r.data)))
      = .ok [(strL "VOL", [.tfloat, .tfloat, .tfloat], 3, 3,
              some (.pmat .tfloat (chunkList 3 ((chunkList 4 c4payload).map (sdecVal 4)))))] ∧
    (string2rawniml (c4hdr ++ ((c4payload.drop 1 ++ ['<']) ++ strL "/VOL></x>"))).isOk = false := by
  constructor
  · exact (c4_binary_slice c4payload (strL "x") (by decide)).2
  · exact (c4_binary_slice (c4payload.drop 1 ++ ['<']) (strL "/VOL></x>")
      (by decide)).1 (by decide)


/-! ### Escape-codec toolkit (claim C5): equations of `replaceAll` -/

/-- `replF` ignores the exact fuel once it covers the input length. -/
theorem replF_fuel (pat rep : List Char) :
    ∀ (f g : Nat) (s : List Char), s.length ≤ f → s.length ≤ g →
      replF pat rep f s = replF pat rep g s := by
  intro f
  induction f with
  | zero =>
    intro g s hf _
    have hs : s = [] := List.eq_nil_of_length_eq_zero (Nat.le_zero.mp hf)
    subst hs
    cases g <;> rfl
  | succ f ih =>
    intro g s hf hg
    match s, g with
    | [], g => cases g <;> rfl
    | c :: t, 0 => simp at hg
    | c :: t, g + 1 =>
      simp only [replF]
      by_cases h : (!pat.isEmpty && isPre pat (c :: t)) = true
      · rw [if_pos h, if_pos h]
        have hpat : 1 ≤ pat.length := by
          cases pat with
          | nil => simp at h
          | cons p pr => simp
        have hlen : ((c :: t).drop pat.length).length ≤ t.length := by
          rw [List.length_drop]
          simp only [List.length_cons]
          omega
        have h1 : ((c :: t).drop pat.length).length ≤ f := by
          simp only [List.length_cons] at hf; omega
        have h2 : ((c :: t).drop pat.length).length ≤ g := by
          simp only [List.length_cons] at hg; omega
        rw [ih g _ h1 h2]
      · rw [if_neg h, if_neg h]
        have h1 : t.length ≤ f := by simp only [List.length_cons] at hf; omega
        have h2 : t.length ≤ g := by simp only [List.length_cons] at hg; omega
        rw [ih g t h1 h2]

/-- Every list is a prefix of itself followed by anything. -/
theorem isPre_append_self : ∀ (l y : List Char), isPre l (l ++ y) = true := by
  intro l y
  induction l with
  | nil => rfl
  | cons a as ih => simp [isPre, ih]

/-- When the pattern does not start at the head, `replaceAll` keeps the
head character and scans on. -/
theorem replaceAll_cons_skip (pat rep : List Char) (c : Char) (t : List Char)
    (h : isPre pat (c :: t) = false) :
    replaceAll pat rep (c :: t) = c :: replaceAll pat rep t := by
  unfold replaceAll
  simp only [List.length_cons, replF, h, Bool.and_false]
  simp

/-- When the (non-empty) pattern starts at the head, `replaceAll`
substitutes it and resumes after the occurrence. -/
theorem replaceAll_match (pat rep y : List Char) (hp : pat ≠ []) :
    replaceAll pat rep (pat ++ y) = rep ++ replaceAll pat rep y := by
  match pat, hp with
  | p :: pr, _ =>
    show replaceAll (p :: pr) rep ((p :: pr) ++ y) = rep ++ replaceAll (p :: pr) rep y
    unfold replaceAll
    have hlen : ((p :: pr) ++ y).length = (pr ++ y).length + 1 := by simp
    rw [hlen]
    have hcons : (p :: pr) ++ y = p :: (pr ++ y) := rfl
    have hcond : (!(p :: pr).isEmpty && isPre (p :: pr) (p :: (pr ++ y))) = true := by
      have h1 := isPre_append_self (p :: pr) y
      rw [List.cons_append] at h1
      simp [h1]
    rw [hcons]
    simp only [replF]
    rw [if_pos hcond]
    have hdrop : List.drop (p :: pr).length (p :: (pr ++ y)) = y := by
      simp only [List.length_cons, List.drop_succ_cons, List.drop_left]
    rw [hdrop]
    congr 1
    exact replF_fuel _ _ _ _ _ (by simp) (le_refl _)

/-- `replaceAll` is the identity when the pattern never occurs. -/
theorem replaceAll_id (pat rep : List Char) (hp : pat ≠ []) :
    ∀ (s : List Char), occursIn pat s = false → replaceAll pat rep s = s := by
  intro s
  induction s with
  | nil => intro _; rfl
  | cons c t ih =>
    intro hocc
    simp only [occursIn, Bool.or_eq_false_iff] at hocc
    rw [replaceAll_cons_skip _ _ _ _ hocc.1, ih hocc.2]

/-- A mismatch inside the covered region kills the prefix test whatever
follows. -/
theorem mism_isPre_false :
    ∀ (pat b : List Char), mism pat b = true →
      ∀ (y : List Char), isPre pat (b ++ y) = false := by
  intro pat
  induction pat with
  | nil => intro b h; simp [mism] at h
  | cons a as ih =>
    intro b h y
    match b with
    | [] => simp [mism] at h
    | c :: t =>
      simp only [mism, Bool.or_eq_true, bne_iff_ne] at h
      rcases h with h | h
      · simp [isPre, beq_eq_false_iff_ne.mpr h]
      · have h2 : isPre as (t ++ y) = false := ih t h y
        simp [isPre, h2]

/-- The scan of `replaceAll` walks through a block that blocks every
match-start without touching it. -/
theorem replaceAll_skip_block (pat rep : List Char) :
    ∀ (b y : List Char), noStart pat b = true →
      replaceAll pat rep (b ++ y) = b ++ replaceAll pat rep y := by
  intro b
  induction b with
  | nil => intro y _; rfl
  | cons c t ih =>
    intro y h
    simp only [noStart, Bool.and_eq_true] at h
    rw [List.cons_append,
      replaceAll_cons_skip _ _ _ _ (by
        have := mism_isPre_false pat (c :: t) h.1 y
        simpa using this),
      ih y h.2]
    rfl

/-- Replacement of a single-character pattern is a `flatMap`. -/
theorem replaceAll_singleton (c : Char) (rep : List Char) :
    ∀ (s : List Char),
      replaceAll [c] rep s = s.flatMap (fun d => if d = c then rep else [d]) := by
  intro s
  induction s with
  | nil => rfl
  | cons d t ih =>
    rw [List.flatMap_cons]
    by_cases h : d = c
    · subst h
      have : (d :: t) = [d] ++ t := rfl
      rw [this, replaceAll_match _ _ _ (by simp), ih, if_pos rfl]
    · rw [replaceAll_cons_skip _ _ _ _ (by
          simp [isPre, beq_eq_false_iff_ne.mpr (Ne.symm h)]),
        ih, if_neg h]
      rfl


/-- Each `escCharA` block is the character itself or starts with `&`. -/
theorem escCharA_blocks : ∀ c, escCharA c = [c] ∨ ∃ e, escCharA c = '&' :: e := by
  intro c
  by_cases h1 : c = '&'
  · subst h1; left; rfl
  · by_cases h2 : c = '\''
    · subst h2; right; exact ⟨strL "apos;", rfl⟩
    · by_cases h3 : c = '"'
      · subst h3; right; exact ⟨strL "quot;", rfl⟩
      · by_cases h4 : c = '<'
        · subst h4; right; exact ⟨strL "lt;", rfl⟩
        · by_cases h5 : c = '>'
          · subst h5; right; exact ⟨strL "gt;", rfl⟩
          · left; simp [escCharA, h1, h2, h3, h4, h5]

/-- Each `escCharB` block is the character itself or starts with `&`. -/
theorem escCharB_blocks : ∀ c, escCharB c = [c] ∨ ∃ e, escCharB c = '&' :: e := by
  intro c
  by_cases h1 : c = '&'
  · subst h1; left; rfl
  · by_cases h2 : c = '\''
    · subst h2; left; rfl
    · by_cases h3 : c = '"'
      · subst h3; right; exact ⟨strL "quot;", rfl⟩
      · by_cases h4 : c = '<'
        · subst h4; right; exact ⟨strL "lt;", rfl⟩
        · by_cases h5 : c = '>'
          · subst h5; right; exact ⟨strL "gt;", rfl⟩
          · left; simp [escCharB, h1, h2, h3, h4, h5]

/-- Each `escCharC` block is the character itself or starts with `&`. -/
theorem escCharC_blocks : ∀ c, escCharC c = [c] ∨ ∃ e, escCharC c = '&' :: e := by
  intro c
  by_cases h1 : c = '&'
  · subst h1; left; rfl
  · by_cases h2 : c = '\''
    · subst h2; left; rfl
    · by_cases h3 : c = '"'
      · subst h3; left; rfl
      · by_cases h4 : c = '<'
        · subst h4; right; exact ⟨strL "lt;", rfl⟩
        · by_cases h5 : c = '>'
          · subst h5; right; exact ⟨strL "gt;", rfl⟩
          · left; simp [escCharC, h1, h2, h3, h4, h5]

/-- Each `escCharD` block is the character itself or starts with `&`. -/
theorem escCharD_blocks : ∀ c, escCharD c = [c] ∨ ∃ e, escCharD c = '&' :: e := by
  intro c
  by_cases h1 : c = '&'
  · subst h1; left; rfl
  · by_cases h2 : c = '\''
    · subst h2; left; rfl
    · by_cases h3 : c = '"'
      · subst h3; left; rfl
      · by_cases h4 : c = '<'
        · subst h4; left; rfl
        · by_cases h5 : c = '>'
          · subst h5; right; exact ⟨strL "gt;", rfl⟩
          · left; simp [escCharD, h1, h2, h3, h4, h5]

/-- A `&`-free pattern that is a prefix of the flattened blocks is already
a prefix of the underlying characters (blocks are singletons or start
with `&`). -/
theorem isPre_flatMap_of_blocks (g : Char → List Char)
    (hg : ∀ c, g c = [c] ∨ ∃ e, g c = '&' :: e) :
    ∀ (q : List Char), '&' ∉ q → ∀ (t : List Char),
      isPre q (t.flatMap g) = true → isPre q t = true := by
  intro q
  induction q with
  | nil => intro _ t _; rfl
  | cons a q' ih =>
    intro hq t hpre
    have ha : a ≠ '&' := fun h => hq (h ▸ List.mem_cons_self a q')
    match t with
    | [] => simp [isPre] at hpre
    | d :: t' =>
      rw [List.flatMap_cons] at hpre
      rcases hg d with hd | ⟨e, hd⟩
      · rw [hd, List.singleton_append] at hpre
        simp only [isPre, Bool.and_eq_true, beq_iff_eq] at hpre
        obtain ⟨had, hrest⟩ := hpre
        have hq' : '&' ∉ q' := fun h => hq (List.mem_cons_of_mem a h)
        have hr := ih hq' t' hrest
        simp [isPre, had, hr]
      · rw [hd, List.cons_append] at hpre
        simp only [isPre, Bool.and_eq_true, beq_iff_eq] at hpre
        exact absurd hpre.1 ha

/-- Contrapositive form of `isPre_flatMap_of_blocks`. -/
theorem isPre_flatMap_false (g : Char → List Char)
    (hg : ∀ c, g c = [c] ∨ ∃ e, g c = '&' :: e)
    (q : List Char) (hq : '&' ∉ q) (t : List Char)
    (h : isPre q t = false) : isPre q (t.flatMap g) = false := by
  cases hb : isPre q (t.flatMap g) with
  | false => rfl
  | true =>
    rw [isPre_flatMap_of_blocks g hg q hq t hb] at h
    exact absurd h (by simp)

/-- `encode_escape` unfolded: five single-character replacements in dict
order, each a `flatMap`. -/
theorem encode_chain (s : List Char) :
    encode_escape s =
      ((((s.flatMap (fun d => if d = '&' then strL "&amp;" else [d])).flatMap
          (fun d => if d = '\'' then strL "&apos;" else [d])).flatMap
          (fun d => if d = '"' then strL "&quot;" else [d])).flatMap
          (fun d => if d = '<' then strL "&lt;" else [d])).flatMap
          (fun d => if d = '>' then strL "&gt;" else [d]) := by
  have h0 : encode_escape s =
      replaceAll ['>'] (strL "&gt;")
        (replaceAll ['<'] (strL "&lt;")
          (replaceAll ['"'] (strL "&quot;")
            (replaceAll ['\''] (strL "&apos;")
              (replaceAll ['&'] (strL "&amp;") s)))) := rfl
  rw [h0, replaceAll_singleton, replaceAll_singleton, replaceAll_singleton,
    replaceAll_singleton, replaceAll_singleton]

/-- `encode_escape` is exactly the per-character map `escChar`: escaping
`&` first (dict order) never re-escapes the other entities. -/
theorem encode_escape_eq : ∀ (s : List Char), encode_escape s = s.flatMap escChar := by
  intro s
  induction s with
  | nil => rfl
  | cons c t ih =>
    rw [encode_chain, List.flatMap_cons, List.flatMap_append, List.flatMap_append,
      List.flatMap_append, List.flatMap_append, ← encode_chain, ih, List.flatMap_cons]
    congr 1
    by_cases h1 : c = '&'
    · subst h1; decide
    · by_cases h2 : c = '\''
      · subst h2; decide
      · by_cases h3 : c = '"'
        · subst h3; decide
        · by_cases h4 : c = '<'
          · subst h4; decide
          · by_cases h5 : c = '>'
            · subst h5; decide
            · simp [escChar, h1, h2, h3, h4, h5]


/-- First `decode_escape` pass: `&amp;` back to `&`, turning `escChar`
blocks into `escCharA` blocks.  Entity blocks of the other four
characters are walked through unharmed (their second character already
mismatches `&amp;`). -/
theorem decode_amp_step : ∀ (s : List Char),
    replaceAll (strL "&amp;") (strL "&") (s.flatMap escChar) = s.flatMap escCharA := by
  intro s
  induction s with
  | nil => rfl
  | cons c t ih =>
    rw [List.flatMap_cons, List.flatMap_cons]
    by_cases h1 : c = '&'
    · subst h1
      have hE : escChar '&' = strL "&amp;" := rfl
      have hA : escCharA '&' = strL "&" := rfl
      rw [hE, hA, replaceAll_match (strL "&amp;") (strL "&") (t.flatMap escChar) (by decide), ih]
    · by_cases h2 : c = '\''
      · subst h2
        have hE : escChar '\'' = strL "&apos;" := rfl
        have hA : escCharA '\'' = strL "&apos;" := rfl
        rw [hE, hA,
          replaceAll_skip_block (strL "&amp;") (strL "&") (strL "&apos;") (t.flatMap escChar)
            (by decide), ih]
      · by_cases h3 : c = '"'
        · subst h3
          have hE : escChar '"' = strL "&quot;" := rfl
          have hA : escCharA '"' = strL "&quot;" := rfl
          rw [hE, hA,
            replaceAll_skip_block (strL "&amp;") (strL "&") (strL "&quot;") (t.flatMap escChar)
              (by decide), ih]
        · by_cases h4 : c = '<'
          · subst h4
            have hE : escChar '<' = strL "&lt;" := rfl
            have hA : escCharA '<' = strL "&lt;" := rfl
            rw [hE, hA,
              replaceAll_skip_block (strL "&amp;") (strL "&") (strL "&lt;") (t.flatMap escChar)
                (by decide), ih]
          · by_cases h5 : c = '>'
            · subst h5
              have hE : escChar '>' = strL "&gt;" := rfl
              have hA : escCharA '>' = strL "&gt;" := rfl
              rw [hE, hA,
                replaceAll_skip_block (strL "&amp;") (strL "&") (strL "&gt;") (t.flatMap escChar)
                  (by decide), ih]
            · have hE : escChar c = [c] := by simp [escChar, h1, h2, h3, h4, h5]
              have hA : escCharA c = [c] := by simp [escCharA, h1, h2, h3, h4, h5]
              have hskip : isPre (strL "&amp;") (c :: t.flatMap escChar) = false := by
                have h0 : isPre (strL "&amp;") (c :: t.flatMap escChar) =
                    (('&' == c) && isPre (strL "amp;") (t.flatMap escChar)) := rfl
                rw [h0, beq_eq_false_iff_ne.mpr (Ne.symm h1), Bool.false_and]
              rw [hE, hA, List.singleton_append, List.singleton_append,
                replaceAll_cons_skip (strL "&amp;") (strL "&") c (t.flatMap escChar) hskip, ih]

/-- Second `decode_escape` pass: `&apos;` back to the quote.  The literal
`&` characters reconstructed by the first pass are only safe because the
input contained no `&apos;` substring. -/
theorem decode_apos_step : ∀ (s : List Char), occursIn (strL "&apos;") s = false →
    replaceAll (strL "&apos;") (strL "'") (s.flatMap escCharA) = s.flatMap escCharB := by
  intro s
  induction s with
  | nil => intro _; rfl
  | cons c t ih =>
    intro hocc
    simp only [occursIn, Bool.or_eq_false_iff] at hocc
    obtain ⟨hpre, hocc'⟩ := hocc
    rw [List.flatMap_cons, List.flatMap_cons]
    by_cases h2 : c = '\''
    · subst h2
      have hA : escCharA '\'' = strL "&apos;" := rfl
      have hB : escCharB '\'' = strL "'" := rfl
      rw [hA, hB,
        replaceAll_match (strL "&apos;") (strL "'") (t.flatMap escCharA) (by decide), ih hocc']
    · by_cases h3 : c = '"'
      · subst h3
        have hA : escCharA '"' = strL "&quot;" := rfl
        have hB : escCharB '"' = strL "&quot;" := rfl
        rw [hA, hB,
          replaceAll_skip_block (strL "&apos;") (strL "'") (strL "&quot;") (t.flatMap escCharA)
            (by decide), ih hocc']
      · by_cases h4 : c = '<'
        · subst h4
          have hA : escCharA '<' = strL "&lt;" := rfl
          have hB : escCharB '<' = strL "&lt;" := rfl
          rw [hA, hB,
            replaceAll_skip_block (strL "&apos;") (strL "'") (strL "&lt;") (t.flatMap escCharA)
              (by decide), ih hocc']
        · by_cases h5 : c = '>'
          · subst h5
            have hA : escCharA '>' = strL "&gt;" := rfl
            have hB : escCharB '>' = strL "&gt;" := rfl
            rw [hA, hB,
              replaceAll_skip_block (strL "&apos;") (strL "'") (strL "&gt;") (t.flatMap escCharA)
                (by decide), ih hocc']
          · have hA : escCharA c = [c] := by
              by_cases h1 : c = '&'
              · subst h1; rfl
              · simp [escCharA, h1, h2, h3, h4, h5]
            have hB : escCharB c = [c] := by
              by_cases h1 : c = '&'
              · subst h1; rfl
              · simp [escCharB, h1, h2, h3, h4, h5]
            have hskip : isPre (strL "&apos;") (c :: t.flatMap escCharA) = false := by
              by_cases h1 : c = '&'
              · subst h1
                have hq : isPre (strL "apos;") t = false := by
                  have h0 : isPre (strL "&apos;") ('&' :: t) =
                      (('&' == '&') && isPre (strL "apos;") t) := rfl
                  rw [h0] at hpre
                  simpa using hpre
                have hqf : isPre (strL "apos;") (t.flatMap escCharA) = false :=
                  isPre_flatMap_false escCharA escCharA_blocks (strL "apos;") (by decide) t hq
                have h0 : isPre (strL "&apos;") ('&' :: t.flatMap escCharA) =
                    (('&' == '&') && isPre (strL "apos;") (t.flatMap escCharA)) := rfl
                rw [h0, hqf, Bool.and_false]
              · have h0 : isPre (strL "&apos;") (c :: t.flatMap escCharA) =
                    (('&' == c) && isPre (strL "apos;") (t.flatMap escCharA)) := rfl
                rw [h0, beq_eq_false_iff_ne.mpr (Ne.symm h1), Bool.false_and]
            rw [hA, hB, List.singleton_append, List.singleton_append,
              replaceAll_cons_skip (strL "&apos;") (strL "'") c (t.flatMap escCharA) hskip,
              ih hocc']

/-- Third `decode_escape` pass: `&quot;` back to the double quote. -/
theorem decode_quot_step : ∀ (s : List Char), occursIn (strL "&quot;") s = false →
    replaceAll (strL "&quot;") (strL "\"") (s.flatMap escCharB) = s.flatMap escCharC := by
  intro s
  induction s with
  | nil => intro _; rfl
  | cons c t ih =>
    intro hocc
    simp only [occursIn, Bool.or_eq_false_iff] at hocc
    obtain ⟨hpre, hocc'⟩ := hocc
    rw [List.flatMap_cons, List.flatMap_cons]
    by_cases h3 : c = '"'
    · subst h3
      have hB : escCharB '"' = strL "&quot;" := rfl
      have hC : escCharC '"' = strL "\"" := rfl
      rw [hB, hC,
        replaceAll_match (strL "&quot;") (strL "\"") (t.flatMap escCharB) (by decide), ih hocc']
    · by_cases h4 : c = '<'
      · subst h4
        have hB : escCharB '<' = strL "&lt;" := rfl
        have hC : escCharC '<' = strL "&lt;" := rfl
        rw [hB, hC,
          replaceAll_skip_block (strL "&quot;") (strL "\"") (strL "&lt;") (t.flatMap escCharB)
            (by decide), ih hocc']
      · by_cases h5 : c = '>'
        · subst h5
          have hB : escCharB '>' = strL "&gt;" := rfl
          have hC : escCharC '>' = strL "&gt;" := rfl
          rw [hB, hC,
            replaceAll_skip_block (strL "&quot;") (strL "\"") (strL "&gt;") (t.flatMap escCharB)
              (by decide), ih hocc']
        · have hB : escCharB c = [c] := by
            by_cases h1 : c = '&'
            · subst h1; rfl
            · by_cases h2 : c = '\''
              · subst h2; rfl
              · simp [escCharB, h1, h2, h3, h4, h5]
          have hC : escCharC c = [c] := by
            by_cases h1 : c = '&'
            · subst h1; rfl
            · by_cases h2 : c = '\''
              · subst h2; rfl
              · simp [escCharC, h1, h2, h3, h4, h5]
          have hskip : isPre (strL "&quot;") (c :: t.flatMap escCharB) = false := by
            by_cases h1 : c = '&'
            · subst h1
              have hq : isPre (strL "quot;") t = false := by
                have h0 : isPre (strL "&quot;") ('&' :: t) =
                    (('&' == '&') && isPre (strL "quot;") t) := rfl
                rw [h0] at hpre
                simpa using hpre
              have hqf : isPre (strL "quot;") (t.flatMap escCharB) = false :=
                isPre_flatMap_false escCharB escCharB_blocks (strL "quot;") (by decide) t hq
              have h0 : isPre (strL "&quot;") ('&' :: t.flatMap escCharB) =
                  (('&' == '&') && isPre (strL "quot;") (t.flatMap escCharB)) := rfl
              rw [h0, hqf, Bool.and_false]
            · have h0 : isPre (strL "&quot;") (c :: t.flatMap escCharB) =
                  (('&' == c) && isPre (strL "quot;") (t.flatMap escCharB)) := rfl
              rw [h0, beq_eq_false_iff_ne.mpr (Ne.symm h1), Bool.false_and]
          rw [hB, hC, List.singleton_append, List.singleton_append,
            replaceAll_cons_skip (strL "&quot;") (strL "\"") c (t.flatMap escCharB) hskip,
            ih hocc']

/-- Fourth `decode_escape` pass: `&lt;` back to the open angle. -/
theorem decode_lt_step : ∀ (s : List Char), occursIn (strL "&lt;") s = false →
    replaceAll (strL "&lt;") (strL "<") (s.flatMap escCharC) = s.flatMap escCharD := by
  intro s
  induction s with
  | nil => intro _; rfl
  | cons c t ih =>
    intro hocc
    simp only [occursIn, Bool.or_eq_false_iff] at hocc
    obtain ⟨hpre, hocc'⟩ := hocc
    rw [List.flatMap_cons, List.flatMap_cons]
    by_cases h4 : c = '<'
    · subst h4
      have hC : escCharC '<' = strL "&lt;" := rfl
      have hD : escCharD '<' = strL "<" := rfl
      rw [hC, hD,
        replaceAll_match (strL "&lt;") (strL "<") (t.flatMap escCharC) (by decide), ih hocc']
    · by_cases h5 : c = '>'
      · subst h5
        have hC : escCharC '>' = strL "&gt;" := rfl
        have hD : escCharD '>' = strL "&gt;" := rfl
        rw [hC, hD,
          replaceAll_skip_block (strL "&lt;") (strL "<") (strL "&gt;") (t.flatMap escCharC)
            (by decide), ih hocc']
      · have hC : escCharC c = [c] := by
          by_cases h1 : c = '&'
          · subst h1; rfl
          · by_cases h2 : c = '\''
            · subst h2; rfl
            · by_cases h3 : c = '"'
              · subst h3; rfl
              · simp [escCharC, h1, h2, h3, h4, h5]
        have hD : escCharD c = [c] := by
          by_cases h1 : c = '&'
          · subst h1; rfl
          · by_cases h2 : c = '\''
            · subst h2; rfl
            · by_cases h3 : c = '"'
              · subst h3; rfl
              · simp [escCharD, h1, h2, h3, h4, h5]
        have hskip : isPre (strL "&lt;") (c :: t.flatMap escCharC) = false := by
          by_cases h1 : c = '&'
          · subst h1
            have hq : isPre (strL "lt;") t = false := by
              have h0 : isPre (strL "&lt;") ('&' :: t) =
                  (('&' == '&') && isPre (strL "lt;") t) := rfl
              rw [h0] at hpre
              simpa using hpre
            have hqf : isPre (strL "lt;") (t.flatMap escCharC) = false :=
              isPre_flatMap_false escCharC escCharC_blocks (strL "lt;") (by decide) t hq
            have h0 : isPre (strL "&lt;") ('&' :: t.flatMap escCharC) =
                (('&' == '&') && isPre (strL "lt;") (t.flatMap escCharC)) := rfl
            rw [h0, hqf, Bool.and_false]
          · have h0 : isPre (strL "&lt;") (c :: t.flatMap escCharC) =
                (('&' == c) && isPre (strL "lt;") (t.flatMap escCharC)) := rfl
            rw [h0, beq_eq_false_iff_ne.mpr (Ne.symm h1), Bool.false_and]
        rw [hC, hD, List.singleton_append, List.singleton_append,
          replaceAll_cons_skip (strL "&lt;") (strL "<") c (t.flatMap escCharC) hskip,
          ih hocc']

/-- Fifth `decode_escape` pass: `&gt;` back to the close angle, restoring
the original characters. -/
theorem decode_gt_step : ∀ (s : List Char), occursIn (strL "&gt;") s = false →
    replaceAll (strL "&gt;") (strL ">") (s.flatMap escCharD) = s := by
  intro s
  induction s with
  | nil => intro _; rfl
  | cons c t ih =>
    intro hocc
    simp only [occursIn, Bool.or_eq_false_iff] at hocc
    obtain ⟨hpre, hocc'⟩ := hocc
    rw [List.flatMap_cons]
    by_cases h5 : c = '>'
    · subst h5
      have hD : escCharD '>' = strL "&gt;" := rfl
      rw [hD,
        replaceAll_match (strL "&gt;") (strL ">") (t.flatMap escCharD) (by decide), ih hocc']
      rfl
    · have hD : escCharD c = [c] := by
        by_cases h1 : c = '&'
        · subst h1; rfl
        · by_cases h2 : c = '\''
          · subst h2; rfl
          · by_cases h3 : c = '"'
            · subst h3; rfl
            · by_cases h4 : c = '<'
              · subst h4; rfl
              · simp [escCharD, h1, h2, h3, h4, h5]
      have hskip : isPre (strL "&gt;") (c :: t.flatMap escCharD) = false := by
        by_cases h1 : c = '&'
        · subst h1
          have hq : isPre (strL "gt;") t = false := by
            have h0 : isPre (strL "&gt;") ('&' :: t) =
                (('&' == '&') && isPre (strL "gt;") t) := rfl
            rw [h0] at hpre
            simpa using hpre
          have hqf : isPre (strL "gt;") (t.flatMap escCharD) = false :=
            isPre_flatMap_false escCharD escCharD_blocks (strL "gt;") (by decide) t hq
          have h0 : isPre (strL "&gt;") ('&' :: t.flatMap escCharD) =
              (('&' == '&') && isPre (strL "gt;") (t.flatMap escCharD)) := rfl
          rw [h0, hqf, Bool.and_false]
        · have h0 : isPre (strL "&gt;") (c :: t.flatMap escCharD) =
              (('&' == c) && isPre (strL "gt;") (t.flatMap escCharD)) := rfl
          rw [h0, beq_eq_false_iff_ne.mpr (Ne.symm h1), Bool.false_and]
      rw [hD, List.singleton_append,
        replaceAll_cons_skip (strL "&gt;") (strL ">") c (t.flatMap escCharD) hskip,
        ih hocc']


/-- Claim C5 (corrected): `encode_escape` replaces each of the five
reserved characters by its named entity, `&` first in the CPython 2.7
dict order, so no double-escaping occurs (it equals the per-character map
`escChar`); `decode_escape` inverts it on every string containing none of
the four substrings `&apos;`, `&quot;`, `&lt;`, `&gt;` — in particular a
string containing all five reserved characters round-trips — and
`decode_escape` is the identity on text containing no entity at all.
(It is not the inverse on all strings: see `c5_counterexample`.) -/
theorem c5_amended :
    (∀ s : List Char, encode_escape s = s.flatMap escChar) ∧
    (∀ s : List Char,
      occursIn (strL "&apos;") s = false →
      occursIn (strL "&quot;") s = false →
      occursIn (strL "&lt;") s = false →
      occursIn (strL "&gt;") s = false →
      decode_escape (encode_escape s) = s) ∧
    (∀ s : List Char,
      occursIn (strL "&amp;") s = false →
      occursIn (strL "&apos;") s = false →
      occursIn (strL "&quot;") s = false →
      occursIn (strL "&lt;") s = false →
      occursIn (strL "&gt;") s = false →
      decode_escape s = s) := by
  have hdec : ∀ x : List Char, decode_escape x =
      replaceAll (strL "&gt;") (strL ">")
        (replaceAll (strL "&lt;") (strL "<")
          (replaceAll (strL "&quot;") (strL "\"")
            (replaceAll (strL "&apos;") (strL "'")
              (replaceAll (strL "&amp;") (strL "&") x)))) := fun _ => rfl
  refine ⟨encode_escape_eq, ?_, ?_⟩
  · intro s h1 h2 h3 h4
    rw [hdec, encode_escape_eq, decode_amp_step, decode_apos_step s h1,
      decode_quot_step s h2, decode_lt_step s h3, decode_gt_step s h4]
  · intro s h0 h1 h2 h3 h4
    rw [hdec, replaceAll_id (strL "&amp;") (strL "&") (by decide) s h0,
      replaceAll_id (strL "&apos;") (strL "'") (by decide) s h1,
      replaceAll_id (strL "&quot;") (strL "\"") (by decide) s h2,
      replaceAll_id (strL "&lt;") (strL "<") (by decide) s h3,
      replaceAll_id (strL "&gt;") (strL ">") (by decide) s h4]

/-- Witness for C5: a string containing all five reserved characters is
escaped with each entity exactly once and round-trips; entity-free text
passes `decode_escape` unchanged. -/
theorem c5_witness :
    encode_escape (strL "a<&>\"'b") = strL "a&lt;&amp;&gt;&quot;&apos;b" ∧
    decode_escape (encode_escape (strL "a<&>\"'b")) = strL "a<&>\"'b" ∧
    decode_escape (strL "plain text") = strL "plain text" := by
  refine ⟨?_, ?_, ?_⟩
  · rw [c5_amended.1 (strL "a<&>\"'b")]
    decide
  · exact c5_amended.2.1 (strL "a<&>\"'b") (by decide) (by decide) (by decide) (by decide)
  · exact c5_amended.2.2 (strL "plain text") (by decide) (by decide) (by decide)
      (by decide) (by decide)


/-! ### Decimal text round-trip (toolkit for claim C1) -/

lemma digitChar_mem (m : Nat) (hm : m < 10) :
    Nat.digitChar m ∈ strL "0123456789" := by
  interval_cases m <;> decide

lemma digitVal_digitChar (m : Nat) (hm : m < 10) :
    digitVal (Nat.digitChar m) = some m := by
  interval_cases m <;> decide

lemma natDigitsF_mem :
    ∀ (f n : Nat), ∀ c ∈ natDigitsF f n, c ∈ strL "0123456789" := by
  intro f
  induction f with
  | zero => intro n c hc; simp [natDigitsF] at hc
  | succ f ih =>
    intro n c hc
    rw [natDigitsF] at hc
    by_cases h : n = 0
    · rw [if_pos h] at hc; simp at hc
    · rw [if_neg h] at hc
      rcases List.mem_cons.mp hc with h1 | h1
      · subst h1; exact digitChar_mem _ (Nat.mod_lt _ (by omega))
      · exact ih _ c h1

lemma natRepr_mem : ∀ (n : Nat), ∀ c ∈ natRepr n, c ∈ strL "0123456789" := by
  intro n c hc
  unfold natRepr at hc
  by_cases h : n = 0
  · rw [if_pos h] at hc
    simp at hc
    subst hc
    decide
  · rw [if_neg h] at hc
    exact natDigitsF_mem n n c (List.mem_reverse.mp hc)

lemma natRepr_ne_nil (n : Nat) : natRepr n ≠ [] := by
  unfold natRepr
  by_cases h : n = 0
  · rw [if_pos h]; simp
  · rw [if_neg h]
    simp only [ne_eq, List.reverse_eq_nil_iff]
    unfold natToRevDigits
    match n, h with
    | n + 1, _ =>
      rw [natDigitsF]
      simp

lemma parseNatDigits_eq (s : List Char) (h : s ≠ []) :
    parseNatDigits s
      = s.foldlM (fun acc c => (digitVal c).map (fun d => acc * 10 + d)) 0 := by
  match s, h with
  | c :: t, _ => rfl

lemma foldlM_digits :
    ∀ (fuel n acc : Nat), n ≤ fuel →
      (natDigitsF fuel n).reverse.foldlM
          (fun acc c => (digitVal c).map (fun d => acc * 10 + d)) acc
        = some (acc * 10 ^ (natDigitsF fuel n).length + n) := by
  intro fuel
  induction fuel with
  | zero =>
    intro n acc hn
    have h0 : n = 0 := by omega
    subst h0
    simp [natDigitsF]
  | succ f ih =>
    intro n acc hn
    by_cases h : n = 0
    · subst h; simp [natDigitsF]
    · rw [natDigitsF, if_neg h, List.reverse_cons, List.foldlM_append]
      have hdiv : n / 10 ≤ f := by
        have h2 : n / 10 < n := Nat.div_lt_self (Nat.pos_of_ne_zero h) (by omega)
        omega
      rw [ih (n / 10) acc hdiv]
      simp only [Option.bind_eq_bind, Option.some_bind, List.foldlM_cons,
        digitVal_digitChar (n % 10) (by omega), Option.map_some',
        List.foldlM_nil, List.length_cons]
      simp only [Option.map_some', Option.some_bind, Option.pure_def]
      congr 1
      rw [pow_succ]
      generalize (10 : Nat) ^ (natDigitsF f (n / 10)).length = B
      have hd : n / 10 * 10 + n % 10 = n := by omega
      calc (acc * B + n / 10) * 10 + n % 10
          = acc * (B * 10) + (n / 10 * 10 + n % 10) := by ring
        _ = acc * (B * 10) + n := by rw [hd]

lemma parseNatDigits_natRepr (n : Nat) : parseNatDigits (natRepr n) = some n := by
  by_cases h : n = 0
  · subst h; decide
  · unfold natRepr
    rw [if_neg h]
    rw [parseNatDigits_eq _ (by
      simp only [ne_eq, List.reverse_eq_nil_iff]
      unfold natToRevDigits
      match n, h with
      | n + 1, _ =>
        rw [natDigitsF]
        simp)]
    unfold natToRevDigits
    rw [foldlM_digits n n 0 (le_refl n)]
    simp

lemma dropWhile_all_false (p : Char → Bool) (s : List Char)
    (h : ∀ c ∈ s, p c = false) : s.dropWhile p = s := by
  cases s with
  | nil => rfl
  | cons c t =>
    rw [List.dropWhile_cons, if_neg]
    rw [h c (by simp)]
    simp

lemma stripWs_id (s : List Char) (h : ∀ c ∈ s, wsChar c = false) :
    stripWs s = s := by
  unfold stripWs
  rw [dropWhile_all_false _ s h,
    dropWhile_all_false _ s.reverse (fun c hc => h c (List.mem_reverse.mp hc)),
    List.reverse_reverse]

lemma parsePyInt_digits (s : List Char) (hne : s ≠ [])
    (h : ∀ c ∈ s, c ∈ strL "0123456789") :
    parsePyInt s = (parseNatDigits s).map (fun m => (m : Int)) := by
  have hws : ∀ c ∈ s, wsChar c = false := fun c hc =>
    (by decide : ∀ c ∈ strL "0123456789", wsChar c = false) c (h c hc)
  unfold parsePyInt
  rw [stripWs_id s hws]
  match s, hne with
  | c :: t, _ =>
    have hc := h c (by simp)
    fin_cases hc <;> rfl

lemma parsePyInt_natRepr (n : Nat) : parsePyInt (natRepr n) = some (n : Int) := by
  rw [parsePyInt_digits _ (natRepr_ne_nil n) (natRepr_mem n), parseNatDigits_natRepr]
  rfl

lemma intRepr_chars (v : Int) : ∀ c ∈ intRepr v, c ∈ strL "-0123456789" := by
  intro c hc
  unfold intRepr at hc
  by_cases h : v < 0
  · rw [if_pos h] at hc
    rcases List.mem_cons.mp hc with h1 | h1
    · subst h1; decide
    · exact (by decide : ∀ c ∈ strL "0123456789", c ∈ strL "-0123456789") c
        (natRepr_mem _ c h1)
  · rw [if_neg h] at hc
    exact (by decide : ∀ c ∈ strL "0123456789", c ∈ strL "-0123456789") c
      (natRepr_mem _ c hc)

lemma intRepr_ne_nil (v : Int) : intRepr v ≠ [] := by
  unfold intRepr
  by_cases h : v < 0
  · rw [if_pos h]; simp
  · rw [if_neg h]; exact natRepr_ne_nil _

lemma parsePyInt_intRepr (v : Int) : parsePyInt (intRepr v) = some v := by
  unfold intRepr
  by_cases h : v < 0
  · rw [if_pos h]
    have hws : ∀ c ∈ '-' :: natRepr (-v).toNat, wsChar c = false := by
      intro c hc
      rcases List.mem_cons.mp hc with h1 | h1
      · subst h1; rfl
      · exact (by decide : ∀ c ∈ strL "0123456789", wsChar c = false) c
          (natRepr_mem _ c h1)
    unfold parsePyInt
    rw [stripWs_id _ hws]
    show (parseNatDigits (natRepr (-v).toNat)).map (fun n => -(n : Int)) = some v
    rw [parseNatDigits_natRepr]
    show some (-(((-v).toNat : Nat) : Int)) = some v
    congr 1
    omega
  · rw [if_neg h]
    rw [parsePyInt_natRepr]
    simp only [Option.some.injEq]
    omega


/-! ### Whitespace splitting of serialized text bodies (claim C1) -/

lemma intercalate_singleton (s a : List Char) : List.intercalate s [a] = a := by
  simp [List.intercalate]

lemma intercalate_cons (s a : List Char) (l : List (List Char)) (h : l ≠ []) :
    List.intercalate s (a :: l) = a ++ (s ++ List.intercalate s l) := by
  match l, h with
  | b :: r, _ =>
    simp [List.intercalate, List.intersperse]

lemma splitWsNone_token (a : List Char) (w : Char) (y : List Char)
    (ha : a ≠ []) (hna : ∀ c ∈ a, wsChar c = false) (hw : wsChar w = true) :
    splitWsNone (a ++ (w :: y)) = a :: splitWsNone y := by
  induction a with
  | nil => exact absurd rfl ha
  | cons c a' ih =>
    have hc : wsChar c = false := hna c (by simp)
    cases a' with
    | nil =>
      show splitWsNone (c :: (w :: y)) = [c] :: splitWsNone y
      rw [splitWsNone, if_neg (by rw [hc]; simp)]
      have hsub : splitWsNone (w :: y) = splitWsNone y := by
        rw [splitWsNone, if_pos (by rw [hw])]
      rw [hsub]
      cases hy : splitWsNone y with
      | nil => rfl
      | cons f r =>
        show (if wsChar w = true then [c] :: f :: r else (c :: f) :: r) = [c] :: f :: r
        rw [if_pos hw]
    | cons c2 a'' =>
      have ih2 := ih (by simp) (fun d hd => hna d (List.mem_cons_of_mem _ hd))
      show splitWsNone (c :: ((c2 :: a'') ++ (w :: y))) = _
      rw [splitWsNone, if_neg (by rw [hc]; simp), ih2]
      have hc2 : wsChar c2 = false := hna c2 (by simp)
      show (if wsChar c2 = true then [c] :: (c2 :: a'') :: splitWsNone y
          else (c :: (c2 :: a'')) :: splitWsNone y) = (c :: c2 :: a'') :: splitWsNone y
      rw [if_neg (by rw [hc2]; simp)]

lemma splitWsNone_single (a : List Char) (ha : a ≠ [])
    (hna : ∀ c ∈ a, wsChar c = false) : splitWsNone a = [a] := by
  induction a with
  | nil => exact absurd rfl ha
  | cons c a' ih =>
    have hc : wsChar c = false := hna c (by simp)
    cases a' with
    | nil => rw [splitWsNone, if_neg (by rw [hc]; simp)]; rfl
    | cons c2 a'' =>
      have ih2 := ih (by simp) (fun d hd => hna d (List.mem_cons_of_mem _ hd))
      rw [splitWsNone, if_neg (by rw [hc]; simp), ih2]
      have hc2 : wsChar c2 = false := hna c2 (by simp)
      show (if wsChar c2 = true then [c] :: (c2 :: a'') :: ([] : List (List Char))
          else (c :: (c2 :: a'')) :: []) = [c :: c2 :: a'']
      rw [if_neg (by rw [hc2]; simp)]

lemma intRepr_no_ws (v : Int) : ∀ c ∈ intRepr v, wsChar c = false := fun c hc =>
  (by decide : ∀ c ∈ strL "-0123456789", wsChar c = false) c (intRepr_chars v c hc)

lemma rowStr_mem (r : List Int) :
    ∀ c ∈ List.intercalate [' '] (r.map intRepr), c ∈ strL "-0123456789 " := by
  induction r with
  | nil => intro c hc; simp [List.intercalate] at hc
  | cons v rest ih =>
    intro c hc
    cases rest with
    | nil =>
      rw [List.map_cons, List.map_nil, intercalate_singleton] at hc
      exact (by decide : ∀ c ∈ strL "-0123456789", c ∈ strL "-0123456789 ") c
        (intRepr_chars v c hc)
    | cons v2 rest2 =>
      rw [List.map_cons, intercalate_cons _ _ _ (by simp)] at hc
      rcases List.mem_append.mp hc with h1 | h1
      · exact (by decide : ∀ c ∈ strL "-0123456789", c ∈ strL "-0123456789 ") c
          (intRepr_chars v c h1)
      · rcases List.mem_append.mp h1 with h2 | h2
        · simp at h2; subst h2; decide
        · exact ih c h2

lemma c1_body_mem (rows : List (List Int)) :
    ∀ c ∈ data2string (.pmat .tint rows) .text, c ∈ strL "-0123456789 \x0a" := by
  show ∀ c ∈ List.intercalate ['\n'] (rows.map
      (fun r => List.intercalate [' '] (r.map intRepr))), _
  induction rows with
  | nil => intro c hc; simp [List.intercalate] at hc
  | cons r rest ih =>
    intro c hc
    cases rest with
    | nil =>
      rw [List.map_cons, List.map_nil, intercalate_singleton] at hc
      exact (by decide : ∀ c ∈ strL "-0123456789 ", c ∈ strL "-0123456789 \x0a") c
        (rowStr_mem r c hc)
    | cons r2 rest2 =>
      rw [List.map_cons, intercalate_cons _ _ _ (by simp)] at hc
      rcases List.mem_append.mp hc with h1 | h1
      · exact (by decide : ∀ c ∈ strL "-0123456789 ", c ∈ strL "-0123456789 \x0a") c
          (rowStr_mem r c h1)
      · rcases List.mem_append.mp h1 with h2 | h2
        · simp at h2; subst h2; decide
        · exact ih c h2

lemma c1_body_split (rows : List (List Int)) (hne : rows ≠ [])
    (hlen : ∀ r ∈ rows, r.length = 2) :
    splitWsNone (data2string (.pmat .tint rows) .text)
      = rows.flatten.map intRepr := by
  show splitWsNone (List.intercalate ['\n'] (rows.map
      (fun r => List.intercalate [' '] (r.map intRepr)))) = _
  induction rows with
  | nil => exact absurd rfl hne
  | cons r rest ih =>
    have hr2 : r.length = 2 := hlen r (by simp)
    match r, hr2 with
    | [v1, v2], _ =>
      cases rest with
      | nil =>
        rw [List.map_cons, List.map_nil, intercalate_singleton,
          List.map_cons, List.map_cons, List.map_nil,
          intercalate_cons _ _ _ (by simp), intercalate_singleton,
          List.singleton_append,
          splitWsNone_token (intRepr v1) ' ' (intRepr v2) (intRepr_ne_nil v1)
            (intRepr_no_ws v1) (by decide),
          splitWsNone_single _ (intRepr_ne_nil v2) (intRepr_no_ws v2)]
        simp
      | cons r2 rest2 =>
        have ih2 := ih (by simp) (fun r hr => hlen r (List.mem_cons_of_mem _ hr))
        rw [List.map_cons, intercalate_cons _ _ _ (by simp),
          List.map_cons, List.map_cons, List.map_nil,
          intercalate_cons _ _ _ (by simp), intercalate_singleton,
          List.singleton_append, List.singleton_append]
        rw [List.append_assoc, List.cons_append]
        rw [splitWsNone_token (intRepr v1) ' '
          (intRepr v2 ++ '\n' :: List.intercalate ['\n'] (List.map
            (fun r => List.intercalate [' '] (List.map intRepr r)) (r2 :: rest2)))
          (intRepr_ne_nil v1) (intRepr_no_ws v1) (by decide)]
        rw [splitWsNone_token (intRepr v2) '\n'
          (List.intercalate ['\n'] (List.map
            (fun r => List.intercalate [' '] (List.map intRepr r)) (r2 :: rest2)))
          (intRepr_ne_nil v2) (intRepr_no_ws v2) (by decide)]
        rw [ih2]
        simp

lemma flatten_len {α : Type} (k : Nat) :
    ∀ (l : List (List α)), (∀ r ∈ l, r.length = k) → l.flatten.length = k * l.length := by
  intro l
  induction l with
  | nil => intro _; simp
  | cons r rest ih =>
    intro h
    rw [List.flatten_cons, List.length_append, h r (by simp),
      ih (fun r hr => h r (List.mem_cons_of_mem _ hr)), List.length_cons]
    ring

lemma chunkList_flatten {α : Type} (k : Nat) (hk : 1 ≤ k) :
    ∀ (l : List (List α)), (∀ r ∈ l, r.length = k) → chunkList k l.flatten = l := by
  intro l
  induction l with
  | nil => intro _; simp [chunkList_nil]
  | cons r rest ih =>
    intro h
    have hr : r.length = k := h r (by simp)
    rw [List.flatten_cons]
    match r, hr with
    | [], hr => exact absurd hr (by intro hx; simp at hx; omega)
    | x :: r', hr =>
      rw [List.cons_append, chunkList_step hk x (r' ++ rest.flatten)]
      have ht : (x :: (r' ++ rest.flatten)).take k = x :: r' := by
        rw [← List.cons_append, ← hr]
        exact List.take_left ..
      have hd : (x :: (r' ++ rest.flatten)).drop k = rest.flatten := by
        rw [← List.cons_append, ← hr]
        exact List.drop_left ..
      rw [ht, hd, ih (fun r hr2 => h r (List.mem_cons_of_mem _ hr2))]

lemma mapM_intRepr : ∀ (l : List Int), (l.map intRepr).mapM parsePyInt = some l := by
  intro l
  induction l with
  | nil => rfl
  | cons v rest ih =>
    rw [List.map_cons, List.mapM_cons, parsePyInt_intRepr, ih]
    rfl

lemma c1_textNumeric (rows : List (List Int)) (hne : rows ≠ [])
    (hlen : ∀ r ∈ rows, r.length = 2) :
    textNumeric .tint (data2string (.pmat .tint rows) .text) rows.length 2
      = .ok (.pmat .tint rows) := by
  unfold textNumeric
  rw [c1_body_split rows hne hlen]
  have hv : (rows.flatten.map intRepr).length = 2 * rows.length := by
    rw [List.length_map]
    exact flatten_len 2 rows hlen
  rw [if_neg (by rw [hv]; exact fun h => h rfl)]
  rw [if_neg (by omega)]
  rw [mapM_intRepr]
  show Except.ok (PData.pmat .tint (chunkList 2 rows.flatten)) = _
  rw [chunkList_flatten 2 (by omega) rows hlen]

lemma c1_dec_text (rows : List (List Int)) (hne : rows ≠ [])
    (hlen : ∀ r ∈ rows, r.length = 2) :
    datastring2rawniml (data2string (.pmat .tint rows) .text) [.tint, .tint]
        rows.length 2 none = .ok (.pmat .tint rows) := by
  show textNumeric .tint (data2string (.pmat .tint rows) .text) rows.length 2 = _
  exact c1_textNumeric rows hne hlen


/-! ### Little-endian byte codec round-trip (claim C1) -/

lemma char_ofNat_toNat_small (m : Nat) (hm : m < 256) : (Char.ofNat m).toNat = m := by
  have h : ∀ k : Fin 256, (Char.ofNat k.val).toNat = k.val := by decide
  exact h ⟨m, hm⟩

lemma byteChar_toNat (m : Nat) : (byteChar m).toNat = m % 256 :=
  char_ofNat_toNat_small (m % 256) (by omega)

lemma encBytes_length : ∀ (w n : Nat), (encBytes w n).length = w := by
  intro w
  induction w with
  | zero => intro n; rfl
  | succ w ih => intro n; rw [encBytes]; simp [ih]

lemma sencVal_length (w : Nat) (v : Int) : (sencVal w v).length = w :=
  encBytes_length w _

lemma decBytes_encBytes : ∀ (w n : Nat), decBytes (encBytes w n) = n % 256 ^ w := by
  intro w
  induction w with
  | zero =>
    intro n
    simp [encBytes, decBytes]
    omega
  | succ w ih =>
    intro n
    rw [encBytes, decBytes, byteChar_toNat, ih, pow_succ', Nat.mod_mul]
    congr 1
    omega

/-- `sdecVal` with the `let` unfolded. -/
lemma sdecVal_eq (w : Nat) (bs : List Char) :
    sdecVal w bs = if ((decBytes bs : Nat) : Int) < 2 ^ (8 * w - 1)
      then ((decBytes bs : Nat) : Int)
      else ((decBytes bs : Nat) : Int) - 2 ^ (8 * w) := rfl

lemma sdec_senc (w : Nat) (hw : 1 ≤ w) (v : Int)
    (hlo : -(2 ^ (8 * w - 1)) ≤ v) (hhi : v < 2 ^ (8 * w - 1)) :
    sdecVal w (sencVal w v) = v := by
  have hM2 : (2 : Int) ^ (8 * w) = 2 * 2 ^ (8 * w - 1) := by
    conv_lhs => rw [show 8 * w = (8 * w - 1) + 1 from by omega]
    rw [pow_succ']
  have hKpos : (0 : Int) < 2 ^ (8 * w - 1) := by positivity
  have hMpos : (0 : Int) < 2 ^ (8 * w) := by positivity
  have hKN : (((2 : Nat) ^ (8 * w) : Nat) : Int) = (2 : Int) ^ (8 * w) := by
    push_cast
    ring
  have h256 : (256 : Nat) ^ w = 2 ^ (8 * w) := by
    rw [show (256 : Nat) = 2 ^ 8 from rfl, ← pow_mul]
  have hbs : decBytes (sencVal w v)
      = (v.emod ((2 : Int) ^ (8 * w))).toNat % 2 ^ (8 * w) := by
    rw [show decBytes (sencVal w v)
        = decBytes (encBytes w (v.emod ((2 : Int) ^ (8 * w))).toNat) from rfl,
      decBytes_encBytes, h256]
  have hemod : v.emod ((2 : Int) ^ (8 * w))
      = if 0 ≤ v then v else v + 2 ^ (8 * w) := by
    by_cases hv : 0 ≤ v
    · rw [if_pos hv]
      exact Int.emod_eq_of_lt hv (by rw [hM2]; linarith)
    · rw [if_neg hv]
      push_neg at hv
      have h1 : Int.emod v ((2 : Int) ^ (8 * w))
          = Int.emod (v + 2 ^ (8 * w)) ((2 : Int) ^ (8 * w)) := by
        rw [show v + (2 : Int) ^ (8 * w) = v + 2 ^ (8 * w) * 1 from by ring,
          show Int.emod (v + (2 : Int) ^ (8 * w) * 1) ((2 : Int) ^ (8 * w))
            = (v + (2 : Int) ^ (8 * w) * 1) % ((2 : Int) ^ (8 * w)) from rfl,
          Int.add_mul_emod_self_left]
        rfl
      rw [h1]
      exact Int.emod_eq_of_lt (by rw [hM2]; linarith) (by linarith)
  rw [sdecVal_eq, hbs, hemod]
  by_cases hv : 0 ≤ v
  · rw [if_pos hv]
    have hvM : v < (2 : Int) ^ (8 * w) := by rw [hM2]; linarith
    have hlt : v.toNat < 2 ^ (8 * w) := by
      have h2 : (v.toNat : Int) < (((2 : Nat) ^ (8 * w) : Nat) : Int) := by
        rw [Int.toNat_of_nonneg hv, hKN]
        exact hvM
      exact_mod_cast h2
    rw [Nat.mod_eq_of_lt hlt, Int.toNat_of_nonneg hv, if_pos hhi]
  · rw [if_neg hv]
    push_neg at hv
    have hnn : (0 : Int) ≤ v + 2 ^ (8 * w) := by rw [hM2]; linarith
    have hlt : (v + 2 ^ (8 * w)).toNat < 2 ^ (8 * w) := by
      have h3 : v + (2 : Int) ^ (8 * w) < (2 : Int) ^ (8 * w) := by linarith
      have h2 : ((v + 2 ^ (8 * w)).toNat : Int) < (((2 : Nat) ^ (8 * w) : Nat) : Int) := by
        rw [Int.toNat_of_nonneg hnn, hKN]
        exact h3
      exact_mod_cast h2
    rw [Nat.mod_eq_of_lt hlt, Int.toNat_of_nonneg hnn,
      if_neg (not_lt.mpr (by rw [hM2]; linarith))]
    ring

lemma flatMap_const_length {α : Type} (g : α → List Char) (k : Nat)
    (hg : ∀ x, (g x).length = k) :
    ∀ (l : List α), (l.flatMap g).length = k * l.length := by
  intro l
  induction l with
  | nil => simp
  | cons x rest ih =>
    rw [List.flatMap_cons, List.length_append, hg, ih, List.length_cons]
    ring

lemma chunkExact_flatMap (w : Nat) (hw : 1 ≤ w) (g : Int → List Char)
    (hg : ∀ x, (g x).length = w) :
    ∀ (l : List Int), chunkExact w (l.flatMap g) = some (l.map g) := by
  intro l
  induction l with
  | nil => rfl
  | cons x rest ih =>
    rw [List.flatMap_cons]
    have hlen : w ≤ (g x ++ rest.flatMap g).length := by
      rw [List.length_append, hg]
      omega
    rw [chunkExact_step hw _ hlen]
    have ht : (g x ++ rest.flatMap g).take w = g x := by
      rw [← hg x]
      exact List.take_left ..
    have hd : (g x ++ rest.flatMap g).drop w = rest.flatMap g := by
      rw [← hg x]
      exact List.drop_left ..
    rw [ht, hd, ih]
    rfl

lemma c1_payload_roundtrip (l : List Int)
    (hrange : ∀ v ∈ l, -(2 ^ 31) ≤ v ∧ v < 2 ^ 31) :
    (l.map (sencVal 4)).map (sdecVal 4) = l := by
  induction l with
  | nil => rfl
  | cons v rest ih =>
    rw [List.map_cons, List.map_cons,
      sdec_senc 4 (by omega) v (hrange v (by simp)).1 (hrange v (by simp)).2,
      ih (fun x hx => hrange x (List.mem_cons_of_mem _ hx))]

lemma c1_matBytes_length (rows : List (List Int)) (hlen : ∀ r ∈ rows, r.length = 2) :
    (matBytes .tint rows).length = 2 * rows.length * 4 := by
  show (rows.flatten.flatMap (sencVal 4)).length = _
  rw [flatMap_const_length (sencVal 4) 4 (sencVal_length 4) rows.flatten,
    flatten_len 2 rows hlen]
  ring

lemma c1_fromstring (rows : List (List Int)) (hne : rows ≠ [])
    (hlen : ∀ r ∈ rows, r.length = 2)
    (hrange : ∀ r ∈ rows, ∀ v ∈ r, -(2 ^ 31) ≤ v ∧ v < 2 ^ 31) :
    fromstringReshape .tint (matBytes .tint rows) rows.length 2
      = .ok (.pmat .tint rows) := by
  unfold fromstringReshape
  show (match chunkExact 4 (matBytes .tint rows) with
    | none => Except.error "fromstring: string size mismatch"
    | some chunks =>
      let vals := chunks.map (sdecVal 4)
      if vals.length ≠ rows.length * 2 then Except.error "cannot reshape"
      else if 2 = 0 then Except.ok (PData.pmat .tint (List.replicate rows.length []))
      else Except.ok (PData.pmat .tint (chunkList 2 vals))) = _
  rw [show matBytes .tint rows = rows.flatten.flatMap (sencVal 4) from rfl,
    chunkExact_flatMap 4 (by omega) (sencVal 4) (sencVal_length 4) rows.flatten]
  show (if ((rows.flatten.map (sencVal 4)).map (sdecVal 4)).length ≠ rows.length * 2
      then Except.error "cannot reshape"
      else if 2 = 0 then Except.ok (PData.pmat .tint (List.replicate rows.length []))
      else Except.ok (PData.pmat .tint
        (chunkList 2 ((rows.flatten.map (sencVal 4)).map (sdecVal 4))))) = _
  have hflat : ∀ v ∈ rows.flatten, -(2 ^ 31) ≤ v ∧ v < 2 ^ 31 := by
    intro v hv
    obtain ⟨r, hr, hvr⟩ := List.mem_flatten.mp hv
    exact hrange r hr v hvr
  rw [c1_payload_roundtrip rows.flatten hflat]
  have hv : rows.flatten.length = 2 * rows.length := flatten_len 2 rows hlen
  rw [if_neg (by rw [hv]; omega)]
  rw [if_neg (by omega)]
  rw [chunkList_flatten 2 (by omega) rows hlen]

lemma c1_dec_binary (rows : List (List Int)) (hne : rows ≠ [])
    (hlen : ∀ r ∈ rows, r.length = 2)
    (hrange : ∀ r ∈ rows, ∀ v ∈ r, -(2 ^ 31) ≤ v ∧ v < 2 ^ 31) :
    datastring2rawniml (matBytes .tint rows) [.tint, .tint] rows.length 2
        (some (strL "binary.lsbfirst")) = .ok (.pmat .tint rows) := by
  show fromstringReshape .tint (matBytes .tint rows) rows.length 2 = _
  exact c1_fromstring rows hne hlen hrange


/-! ### Base64 round-trip (claim C1) -/

lemma sextetVal_sextetChar (k : Nat) (hk : k < 64) :
    sextetVal (sextetChar k) = some k := by
  have h : ∀ k : Fin 64, sextetVal (sextetChar k.val) = some k.val := by decide
  exact h ⟨k, hk⟩

lemma sextetChar_ne_eq (k : Nat) (hk : k < 64) : sextetChar k ≠ '=' := by
  have h : ∀ k : Fin 64, sextetChar k.val ≠ '=' := by decide
  exact h ⟨k, hk⟩

lemma sextetChar_ne_lt (k : Nat) (hk : k < 64) : sextetChar k ≠ '<' := by
  have h : ∀ k : Fin 64, sextetChar k.val ≠ '<' := by decide
  exact h ⟨k, hk⟩

lemma byteChar_of_lt (c : Char) (h : c.toNat < 256) : byteChar c.toNat = c := by
  unfold byteChar
  rw [Nat.mod_eq_of_lt h, Char.ofNat_toNat]

/-- Decoding a four-sextet chunk followed by more encoded text. -/
lemma b64decode_quad (s1 s2 s3 s4 : Nat) (t : List Char)
    (h1 : s1 < 64) (h2 : s2 < 64) (h3 : s3 < 64) (h4 : s4 < 64) :
    b64decode (sextetChar s1 :: sextetChar s2 :: sextetChar s3 :: sextetChar s4 :: t)
      = (b64decode t).bind (fun rest =>
          some (byteChar (s1 * 4 + s2 / 16) :: byteChar (s2 % 16 * 16 + s3 / 4) ::
            byteChar (s3 % 4 * 64 + s4) :: rest)) := by
  rw [b64decode]
  simp only [sextetVal_sextetChar s1 h1, sextetVal_sextetChar s2 h2,
    Option.some_bind, Option.bind_eq_bind]
  rw [if_neg (fun h => sextetChar_ne_eq s3 h3 h.1)]
  simp only [sextetVal_sextetChar s3 h3, Option.some_bind]
  rw [if_neg (fun h => sextetChar_ne_eq s4 h4 h.1)]
  simp only [sextetVal_sextetChar s4 h4, Option.some_bind]

lemma b64_roundtrip_fuel :
    ∀ (L : Nat) (B : List Char), B.length ≤ L → (∀ c ∈ B, c.toNat < 256) →
      b64decode (b64encode B) = some B := by
  intro L
  induction L with
  | zero =>
    intro B hB _
    have hBn : B = [] := List.eq_nil_of_length_eq_zero (by omega)
    subst hBn
    rfl
  | succ L ih =>
    intro B hB hb
    match B with
    | [] => rfl
    | [a] =>
      have ha : a.toNat < 256 := hb a (by simp)
      show b64decode [sextetChar (a.toNat % 256 * 65536 / 262144),
        sextetChar (a.toNat % 256 * 65536 / 4096 % 64), '=', '='] = some [a]
      rw [b64decode]
      simp only [sextetVal_sextetChar (a.toNat % 256 * 65536 / 262144) (by omega),
        sextetVal_sextetChar (a.toNat % 256 * 65536 / 4096 % 64) (by omega),
        Option.some_bind, Option.bind_eq_bind]
      rw [if_pos (by simp)]
      have harith : a.toNat % 256 * 65536 / 262144 * 4
          + a.toNat % 256 * 65536 / 4096 % 64 / 16 = a.toNat := by omega
      rw [harith, byteChar_of_lt a ha]
    | [a, b] =>
      have ha : a.toNat < 256 := hb a (by simp)
      have hbb : b.toNat < 256 := hb b (by simp)
      show b64decode [sextetChar ((a.toNat % 256 * 65536 + b.toNat % 256 * 256) / 262144),
        sextetChar ((a.toNat % 256 * 65536 + b.toNat % 256 * 256) / 4096 % 64),
        sextetChar ((a.toNat % 256 * 65536 + b.toNat % 256 * 256) / 64 % 64), '=']
          = some [a, b]
      rw [b64decode]
      simp only [sextetVal_sextetChar ((a.toNat % 256 * 65536 + b.toNat % 256 * 256) / 262144)
          (by omega),
        sextetVal_sextetChar ((a.toNat % 256 * 65536 + b.toNat % 256 * 256) / 4096 % 64)
          (by omega),
        Option.some_bind, Option.bind_eq_bind]
      rw [if_neg (fun h =>
        sextetChar_ne_eq ((a.toNat % 256 * 65536 + b.toNat % 256 * 256) / 64 % 64)
          (by omega) h.1)]
      simp only [sextetVal_sextetChar ((a.toNat % 256 * 65536 + b.toNat % 256 * 256) / 64 % 64)
        (by omega), Option.some_bind]
      rw [if_pos (by simp)]
      have e1 : (a.toNat % 256 * 65536 + b.toNat % 256 * 256) / 262144 * 4
          + (a.toNat % 256 * 65536 + b.toNat % 256 * 256) / 4096 % 64 / 16 = a.toNat := by
        omega
      have e2 : (a.toNat % 256 * 65536 + b.toNat % 256 * 256) / 4096 % 64 % 16 * 16
          + (a.toNat % 256 * 65536 + b.toNat % 256 * 256) / 64 % 64 / 4 = b.toNat := by
        omega
      rw [e1, e2, byteChar_of_lt a ha, byteChar_of_lt b hbb]
    | a :: b :: c :: t =>
      have ha : a.toNat < 256 := hb a (by simp)
      have hbb : b.toNat < 256 := hb b (by simp)
      have hc : c.toNat < 256 := hb c (by simp)
      show b64decode
        (sextetChar ((a.toNat % 256 * 65536 + b.toNat % 256 * 256 + c.toNat % 256) / 262144) ::
         sextetChar ((a.toNat % 256 * 65536 + b.toNat % 256 * 256 + c.toNat % 256) / 4096 % 64) ::
         sextetChar ((a.toNat % 256 * 65536 + b.toNat % 256 * 256 + c.toNat % 256) / 64 % 64) ::
         sextetChar ((a.toNat % 256 * 65536 + b.toNat % 256 * 256 + c.toNat % 256) % 64) ::
         b64encode t) = some (a :: b :: c :: t)
      rw [b64decode_quad _ _ _ _ (b64encode t) (by omega) (by omega) (by omega) (by omega)]
      rw [ih t (by simp at hB ⊢; omega) (fun x hx => hb x (by simp [hx]))]
      simp only [Option.some_bind]
      have e1 : (a.toNat % 256 * 65536 + b.toNat % 256 * 256 + c.toNat % 256) / 262144 * 4
          + (a.toNat % 256 * 65536 + b.toNat % 256 * 256 + c.toNat % 256) / 4096 % 64 / 16
          = a.toNat := by omega
      have e2 : (a.toNat % 256 * 65536 + b.toNat % 256 * 256 + c.toNat % 256)
            / 4096 % 64 % 16 * 16
          + (a.toNat % 256 * 65536 + b.toNat % 256 * 256 + c.toNat % 256) / 64 % 64 / 4
          = b.toNat := by omega
      have e3 : (a.toNat % 256 * 65536 + b.toNat % 256 * 256 + c.toNat % 256) / 64 % 64 % 4 * 64
          + (a.toNat % 256 * 65536 + b.toNat % 256 * 256 + c.toNat % 256) % 64
          = c.toNat := by omega
      rw [e1, e2, e3, byteChar_of_lt a ha, byteChar_of_lt b hbb, byteChar_of_lt c hc]

lemma b64_roundtrip (B : List Char) (hb : ∀ c ∈ B, c.toNat < 256) :
    b64decode (b64encode B) = some B :=
  b64_roundtrip_fuel B.length B (le_refl _) hb

lemma encBytes_lt : ∀ (w n : Nat), ∀ c ∈ encBytes w n, c.toNat < 256 := by
  intro w
  induction w with
  | zero => intro n c hc; simp [encBytes] at hc
  | succ w ih =>
    intro n c hc
    rw [encBytes] at hc
    rcases List.mem_cons.mp hc with h1 | h1
    · subst h1
      rw [byteChar_toNat]
      omega
    · exact ih _ c h1

lemma matBytes_lt (rows : List (List Int)) :
    ∀ c ∈ matBytes .tint rows, c.toNat < 256 := by
  intro c hc
  have hc2 : c ∈ rows.flatten.flatMap (sencVal 4) := hc
  obtain ⟨v, _, hcv⟩ := List.mem_flatMap.mp hc2
  exact encBytes_lt 4 _ c hcv

lemma b64encode_ne_nil (B : List Char) (h : B ≠ []) : b64encode B ≠ [] := by
  match B, h with
  | [a], _ => simp [b64encode]
  | [a, b], _ => simp [b64encode]
  | a :: b :: c :: t, _ => simp [b64encode]

lemma b64encode_no_lt :
    ∀ (L : Nat) (B : List Char), B.length ≤ L → ∀ c ∈ b64encode B, c ≠ '<' := by
  intro L
  induction L with
  | zero =>
    intro B hB c hc
    have hBn : B = [] := List.eq_nil_of_length_eq_zero (by omega)
    subst hBn
    simp [b64encode] at hc
  | succ L ih =>
    intro B hB c hc
    match B with
    | [] => simp [b64encode] at hc
    | [a] =>
      have hm : c ∈ [sextetChar (a.toNat % 256 * 65536 / 262144),
          sextetChar (a.toNat % 256 * 65536 / 4096 % 64), '=', '='] := hc
      simp only [List.mem_cons, List.not_mem_nil, or_false] at hm
      rcases hm with h | h | h | h
      · subst h; exact sextetChar_ne_lt _ (by omega)
      · subst h; exact sextetChar_ne_lt _ (by omega)
      · subst h; decide
      · subst h; decide
    | [a, b] =>
      have hm : c ∈ [sextetChar ((a.toNat % 256 * 65536 + b.toNat % 256 * 256) / 262144),
          sextetChar ((a.toNat % 256 * 65536 + b.toNat % 256 * 256) / 4096 % 64),
          sextetChar ((a.toNat % 256 * 65536 + b.toNat % 256 * 256) / 64 % 64), '='] := hc
      simp only [List.mem_cons, List.not_mem_nil, or_false] at hm
      rcases hm with h | h | h | h
      · subst h; exact sextetChar_ne_lt _ (by omega)
      · subst h; exact sextetChar_ne_lt _ (by omega)
      · subst h; exact sextetChar_ne_lt _ (by omega)
      · subst h; decide
    | x :: y :: z :: t =>
      have hm : c ∈ sextetChar ((x.toNat % 256 * 65536 + y.toNat % 256 * 256 + z.toNat % 256)
            / 262144) ::
          sextetChar ((x.toNat % 256 * 65536 + y.toNat % 256 * 256 + z.toNat % 256)
            / 4096 % 64) ::
          sextetChar ((x.toNat % 256 * 65536 + y.toNat % 256 * 256 + z.toNat % 256)
            / 64 % 64) ::
          sextetChar ((x.toNat % 256 * 65536 + y.toNat % 256 * 256 + z.toNat % 256) % 64) ::
          b64encode t := hc
      simp only [List.mem_cons] at hm
      rcases hm with h | h | h | h | h
      · subst h; exact sextetChar_ne_lt _ (by omega)
      · subst h; exact sextetChar_ne_lt _ (by omega)
      · subst h; exact sextetChar_ne_lt _ (by omega)
      · subst h; exact sextetChar_ne_lt _ (by omega)
      · exact ih t (by simp at hB ⊢; omega) c h


/-! ### Key/value scan stepping (claim C1) -/

lemma firstSplitAtChar_lt (c : Char) :
    ∀ (s a b : List Char), firstSplitAtChar c s = some (a, b) → b.length < s.length := by
  intro s
  induction s with
  | nil => intro a b h; simp [firstSplitAtChar] at h
  | cons d t ih =>
    intro a b h
    rw [firstSplitAtChar] at h
    by_cases hd : (d == c) = true
    · rw [if_pos hd] at h
      simp only [Option.some.injEq, Prod.mk.injEq] at h
      rw [← h.2]
      simp
    · rw [if_neg hd] at h
      match hsp : firstSplitAtChar c t with
      | none => rw [hsp] at h; simp at h
      | some (a', b') =>
        rw [hsp] at h
        simp only [Option.map_some', Option.some.injEq, Prod.mk.injEq] at h
        have := ih a' b' hsp
        rw [← h.2]
        simp
        omega

lemma dropWhile_len (p : Char → Bool) (s : List Char) :
    (s.dropWhile p).length ≤ s.length := by
  induction s with
  | nil => simp
  | cons c t ih =>
    rw [List.dropWhile_cons]
    by_cases h : p c = true
    · rw [if_pos h]
      simp only [List.length_cons]
      omega
    · rw [if_neg h]

lemma kvTail_consumes {k u : List Char} {kv : List Char × List Char}
    {rest : List Char} (h : kvTail k u = some (kv, rest)) :
    rest.length + 2 ≤ u.length := by
  unfold kvTail at h
  split at h
  · exact absurd h (by simp)
  · rename_i c u1
    split at h
    · split at h
      · exact absurd h (by simp)
      · rename_i d u2 hdrop
        split at h
        · split at h
          · rename_i v rest2 hsp
            split at h
            · exact absurd h (by simp)
            · simp only [Option.some.injEq, Prod.mk.injEq] at h
              have h1 : rest2.length < u2.length := firstSplitAtChar_lt '"' u2 v rest2 hsp
              have h2 : (u1.dropWhile (fun c => wsChar c)).length ≤ u1.length :=
                dropWhile_len _ u1
              rw [hdrop] at h2
              simp only [List.length_cons] at h2
              rw [← h.2]
              simp only [List.length_cons]
              omega
          · exact absurd h (by simp)
        · exact absurd h (by simp)
    · exact absurd h (by simp)

lemma kvTryMatch_consumes {s : List Char} {kv : List Char × List Char}
    {rest : List Char} (h : kvTryMatch s = some (kv, rest)) :
    rest.length < s.length := by
  have hgen : ∀ (x : List Char) (n : Nat),
      ((x.drop n).dropWhile (fun c => wsChar c)).length ≤ x.length := by
    intro x n
    have h0 := dropWhile_len (fun c => wsChar c) (x.drop n)
    simp only [List.length_drop] at h0
    omega
  unfold kvTryMatch at h
  split at h
  · exact absurd h (by simp)
  · have h1 := kvTail_consumes h
    have hfin : rest.length + 2 ≤ s.length :=
      le_trans h1 (le_trans (hgen _ _) (dropWhile_len _ s))
    omega

lemma pkvF_fuel :
    ∀ (f g : Nat) (s : List Char), s.length ≤ f → s.length ≤ g →
      pkvF f s = pkvF g s := by
  intro f
  induction f with
  | zero =>
    intro g s hf _
    have hs : s = [] := List.eq_nil_of_length_eq_zero (Nat.le_zero.mp hf)
    subst hs
    cases g <;> rfl
  | succ f ih =>
    intro g s hf hg
    match s, g with
    | [], g => cases g <;> rfl
    | c :: t, 0 => simp at hg
    | c :: t, g + 1 =>
      rw [pkvF, pkvF]
      match hm : kvTryMatch (c :: t) with
      | some (kv, rest) =>
        have hc := kvTryMatch_consumes hm
        simp only [List.length_cons] at hf hg hc
        show kv :: pkvF f rest = kv :: pkvF g rest
        rw [ih g rest (by omega) (by omega)]
      | none =>
        simp only [List.length_cons] at hf hg
        show pkvF f t = pkvF g t
        exact ih g t (by omega) (by omega)

lemma parse_keyvalues_cons_match (s : List Char) (kv : List Char × List Char)
    (rest : List Char) (h : kvTryMatch s = some (kv, rest)) :
    parse_keyvalues s = kv :: parse_keyvalues rest := by
  match s with
  | [] => exact absurd h (by simp [kvTryMatch])
  | c :: t =>
    show pkvF (c :: t).length (c :: t) = _
    have hlen : (c :: t).length = t.length + 1 := by simp
    rw [hlen, pkvF, h]
    have hc := kvTryMatch_consumes h
    simp only [List.length_cons] at hc
    show kv :: pkvF t.length rest = kv :: parse_keyvalues rest
    rw [pkvF_fuel t.length rest.length rest (by omega) (le_refl _)]
    rfl


/-! ### Greedy unquoted data scan (claim C1) -/

lemma c1_dec_b64 (rows : List (List Int)) (hne : rows ≠ [])
    (hlen : ∀ r ∈ rows, r.length = 2)
    (hrange : ∀ r ∈ rows, ∀ v ∈ r, -(2 ^ 31) ≤ v ∧ v < 2 ^ 31) :
    datastring2rawniml (b64encode (matBytes .tint rows)) [.tint, .tint] rows.length 2
        (some (strL "base64.lsbfirst")) = .ok (.pmat .tint rows) := by
  show (match b64decode (b64encode (matBytes .tint rows)) with
    | none => Except.error "base64 decode error"
    | some bytes => fromstringReshape .tint bytes rows.length 2) = _
  rw [b64_roundtrip _ (matBytes_lt rows)]
  show fromstringReshape .tint (matBytes .tint rows) rows.length 2 = _
  exact c1_fromstring rows hne hlen hrange

lemma firstSplit_miss (c : Char) :
    ∀ (a y : List Char), (∀ d ∈ a, d ≠ c) →
      firstSplitAtChar c (a ++ y)
        = (firstSplitAtChar c y).map (fun p => (a ++ p.1, p.2)) := by
  intro a
  induction a with
  | nil =>
    intro y _
    rw [List.nil_append]
    cases firstSplitAtChar c y <;> simp
  | cons d a' ih =>
    intro y h
    rw [List.cons_append, firstSplitAtChar,
      if_neg (by
        rw [beq_eq_false_iff_ne.mpr (h d (by simp))]
        simp),
      ih y (fun e he => h e (List.mem_cons_of_mem _ he))]
    cases firstSplitAtChar c y <;> simp

lemma dropWhile_ws_token (a y : List Char) (ha : a ≠ [])
    (hna : ∀ c ∈ a, wsChar c = false) :
    (a ++ y).dropWhile (fun c => wsChar c) = a ++ y := by
  match a, ha with
  | c :: a', _ =>
    rw [List.cons_append, List.dropWhile_cons,
      if_neg (by rw [hna c (by simp)]; simp)]

lemma noM_lastClose_none (close : List Char) :
    ∀ (s : List Char), noM close s = true → lastCloseNoQuote close s = none := by
  intro s
  induction s with
  | nil => intro _; rfl
  | cons c t ih =>
    intro h
    rw [noM] at h
    simp only [Bool.and_eq_true, Bool.or_eq_true, beq_iff_eq, Bool.not_eq_true'] at h
    obtain ⟨hnp, hq⟩ := h
    have hlater : (if c = '"' then none
        else (lastCloseNoQuote close t).map (fun p => (c :: p.1, p.2))) = none := by
      by_cases hc : c = '"'
      · rw [if_pos hc]
      · rw [if_neg hc]
        rcases hq with hq | hq
        · exact absurd hq hc
        · rw [ih hq]
          rfl
    rw [lastCloseNoQuote, hlater]
    show (if isPre close (c :: t) = true
        then some ([], (c :: t).drop close.length) else none) = none
    rw [hnp]
    simp

lemma lastClose_exact (cl0 : List Char) :
    ∀ (a y : List Char), (∀ c ∈ a, c ≠ '"' ∧ c ≠ '<') →
      noM ('<' :: cl0) (cl0 ++ y) = true →
      lastCloseNoQuote ('<' :: cl0) (a ++ (('<' :: cl0) ++ y)) = some (a, y) := by
  intro a
  induction a with
  | nil =>
    intro y _ hy
    rw [List.nil_append, List.cons_append, lastCloseNoQuote,
      if_neg (by decide), noM_lastClose_none _ _ hy]
    show (if isPre ('<' :: cl0) ('<' :: (cl0 ++ y)) = true
        then some ([], ('<' :: (cl0 ++ y)).drop ('<' :: cl0).length) else none)
      = some ([], y)
    rw [show isPre ('<' :: cl0) ('<' :: (cl0 ++ y)) = true from by
      have h0 := isPre_append_self ('<' :: cl0) y
      rwa [List.cons_append] at h0]
    rw [if_pos rfl]
    rw [show ('<' :: (cl0 ++ y)) = ('<' :: cl0) ++ y from by simp, List.drop_left]
  | cons c a' ih =>
    intro y ha hy
    rw [List.cons_append, lastCloseNoQuote,
      if_neg (ha c (by simp)).1,
      ih y (fun d hd => ha d (List.mem_cons_of_mem _ hd)) hy]
    rfl


/-! ### Parser stepping lemmas (claim C1) -/

/-- Header match on a serialized `d` element: everything up to the first
`>` after the `\n` separator is the header capture. -/
lemma headerMatch_d (T : List Char) :
    headerMatch ('<' :: 'd' :: '\n' :: T)
      = (match firstSplitAtChar '>' T with
        | some (hdr, r3) => some (strL "d", hdr, r3)
        | none => none) := rfl

/-- The same with the newline the serializer puts between siblings. -/
lemma headerMatch_nl_d (T : List Char) :
    headerMatch ('\n' :: '<' :: 'd' :: '\n' :: T)
      = (match firstSplitAtChar '>' T with
        | some (hdr, r3) => some (strL "d", hdr, r3)
        | none => none) := rfl

/-- The loop returns at the group close tag with nothing after it. -/
lemma c1_close_step (f : Nat) (acc : List RawElem) :
    parseNext (f + 1) (strL "</G>") acc = .ok (strL "</G>", acc) := rfl

/-- The serialized single-group document of claim C1. -/
lemma c1_ser_doc (form : Form) (rows : List (List Int)) :
    rawnimlList2string form [c1doc rows]
      = mkElemString (strL "G") (header2string [(strL "ni_form", strL "ni_group")])
          (rawniml2string form (c1child rows)
            ++ '\n' :: rawniml2string form (c1child rows)) := by
  show List.intercalate ['\n'] [rawniml2string form (c1doc rows)] = _
  rw [intercalate_singleton]
  rfl

/-- One loop step on the serialized group: read the concrete group header,
recurse for the children, continue at the returned suffix. -/
lemma c1_group_step (B : List Char) (f : Nat) (acc : List RawElem) :
    parseNext (f + 1)
        (mkElemString (strL "G") (header2string [(strL "ni_form", strL "ni_group")]) B) acc
      = (match parseNext f (B ++ strL "</G>") [] with
        | .error e => .error e
        | .ok (rest2, children) =>
          parseNext f rest2 (acc ++ [.mk (strL "G") [(strL "ni_form", strL "ni_group")]
            [] 0 0 none (some (listToForest children))])) := rfl

/-- Generic loop step for a data element parsed by scanning (no
`ni_form`): given the scan components, one step appends the parsed element
and continues after its close tag. -/
lemma parseNext_scan_step (f : Nat) (s name hdr rest nitype dta rest2 : List Char)
    (acc : List RawElem) (vtyp : List NiType) (vlen : Nat) (d : PData)
    (hxml : isPre "<?xml".toList s = false)
    (hm : headerMatch s = some (name, hdr, rest))
    (hnt : pyGet (parse_keyvalues hdr) "ni_type".toList = some nitype)
    (hcodes : str2codes nitype = some vtyp)
    (hnd : (pyGet (parse_keyvalues hdr) "ni_dimen".toList).bind parsePyInt
      = some (Int.ofNat vlen))
    (hnstr : nitype ≠ "String".toList)
    (hnf : pyGet (parse_keyvalues hdr) "ni_form".toList = none)
    (hscan : unquotedDataMatch name rest = some (dta, rest2))
    (hdec : datastring2rawniml dta vtyp vlen vtyp.length none = .ok d) :
    parseNext (f + 1) s acc
      = parseNext f rest2
          (acc ++ [.mk name ((parse_keyvalues hdr).filter
            (fun kv => ¬ kv.1 ∈ specialKeys)) vtyp vlen vtyp.length (some d) none]) := by
  rw [parseNext]
  simp only [hxml, Bool.false_eq_true, if_false, hm, hnt, hcodes, hnd, hnf, hscan,
    hnstr]
  rw [show (Int.ofNat vlen).toNat = vlen from rfl, hdec,
    if_neg (by simp), if_neg (show ¬ Int.ofNat vlen < 0 from not_lt.mpr (Int.ofNat_nonneg vlen)),
    if_pos (Or.inr trivial)]

/-- Generic loop step for a raw-binary data element: slice the computed
byte count, decode, demand the close tag. -/
lemma parseNext_binary_step (f : Nat) (s name hdr rest nitype nf : List Char)
    (acc : List RawElem) (vtyp : List NiType) (vlen nb : Nat) (d : PData)
    (hxml : isPre "<?xml".toList s = false)
    (hm : headerMatch s = some (name, hdr, rest))
    (hnt : pyGet (parse_keyvalues hdr) "ni_type".toList = some nitype)
    (hcodes : str2codes nitype = some vtyp)
    (hnd : (pyGet (parse_keyvalues hdr) "ni_dimen".toList).bind parsePyInt
      = some (Int.ofNat vlen))
    (hnstr : nitype ≠ "String".toList)
    (hnf : pyGet (parse_keyvalues hdr) "ni_form".toList = some nf)
    (hgrp : nf ≠ "ni_group".toList)
    (hb64 : occursIn "base64".toList nf = false)
    (hbc : binary_data_bytecount vtyp vlen vtyp.length nf = .ok (some nb))
    (hdec : datastring2rawniml (rest.take nb) vtyp vlen vtyp.length (some nf) = .ok d)
    (hclose : isPre (closeTagOf name) (rest.drop nb) = true) :
    parseNext (f + 1) s acc
      = parseNext f ((rest.drop nb).drop (closeTagOf name).length)
          (acc ++ [.mk name ((parse_keyvalues hdr).filter
            (fun kv => ¬ kv.1 ∈ specialKeys)) vtyp vlen vtyp.length (some d) none]) := by
  rw [parseNext]
  simp only [hxml, Bool.false_eq_true, if_false, hm, hnt, hcodes, hnd, hnf]
  rw [if_neg (fun hcon => hgrp (Option.some.inj hcon)), if_neg (show ¬ Int.ofNat vlen < 0 from not_lt.mpr (Int.ofNat_nonneg vlen)),
    if_neg (fun hcon => hcon.elim (fun h => hnstr h) (fun h => Option.noConfusion h)), show (Int.ofNat vlen).toNat = vlen from rfl]
  simp only [hb64, Bool.false_eq_true, if_false, hbc, hdec, hclose, if_true]

/-- Generic loop step for a base64 data element: scan to the next `<`,
decode that many bytes, demand the close tag. -/
lemma parseNext_b64_step (f : Nat) (s name hdr nitype nf r0 : List Char) (c0 : Char)
    (acc : List RawElem) (vtyp : List NiType) (vlen k : Nat) (d : PData)
    (hxml : isPre "<?xml".toList s = false)
    (hm : headerMatch s = some (name, hdr, c0 :: r0))
    (hnt : pyGet (parse_keyvalues hdr) "ni_type".toList = some nitype)
    (hcodes : str2codes nitype = some vtyp)
    (hnd : (pyGet (parse_keyvalues hdr) "ni_dimen".toList).bind parsePyInt
      = some (Int.ofNat vlen))
    (hnstr : nitype ≠ "String".toList)
    (hnf : pyGet (parse_keyvalues hdr) "ni_form".toList = some nf)
    (hgrp : nf ≠ "ni_group".toList)
    (hb64 : occursIn "base64".toList nf = true)
    (hidx : firstIdxOfChar '<' r0 = some k)
    (hdec : datastring2rawniml ((c0 :: r0).take (1 + k)) vtyp vlen vtyp.length (some nf)
      = .ok d)
    (hclose : isPre (closeTagOf name) ((c0 :: r0).drop (1 + k)) = true) :
    parseNext (f + 1) s acc
      = parseNext f (((c0 :: r0).drop (1 + k)).drop (closeTagOf name).length)
          (acc ++ [.mk name ((parse_keyvalues hdr).filter
            (fun kv => ¬ kv.1 ∈ specialKeys)) vtyp vlen vtyp.length (some d) none]) := by
  rw [parseNext]
  simp only [hxml, Bool.false_eq_true, if_false, hm, hnt, hcodes, hnd, hnf]
  rw [if_neg (fun hcon => hgrp (Option.some.inj hcon)), if_neg (show ¬ Int.ofNat vlen < 0 from not_lt.mpr (Int.ofNat_nonneg vlen)),
    if_neg (fun hcon => hcon.elim (fun h => hnstr h) (fun h => Option.noConfusion h)), show (Int.ofNat vlen).toNat = vlen from rfl]
  simp only [hb64, if_true, hidx, hdec, hclose]


/-! ### Serialized child elements of claim C1 and their scans -/

lemma c1_child_ser_text (rows : List (List Int)) :
    rawniml2string .text (c1child rows)
      = mkElemString (strL "d")
          (strL "   ni_type=\"int,int\"\n   ni_dimen=\""
            ++ (natRepr rows.length ++ strL "\""))
          (data2string (.pmat .tint rows) .text) := by
  have h1 : rawniml2string .text (c1child rows)
      = mkElemString (strL "d")
          (strL "   ni_type=\"int,int\"\n   ni_dimen=\""
            ++ ((natRepr rows.length ++ ['"']) ++ []))
          (data2string (.pmat .tint rows) .text) := rfl
  rw [h1, List.append_nil]
  rfl

lemma c1_child_ser_bin (rows : List (List Int)) :
    rawniml2string .binary (c1child rows)
      = mkElemString (strL "d")
          (strL "   ni_type=\"int,int\"\n   ni_dimen=\""
            ++ (natRepr rows.length ++ strL "\"\n   ni_form=\"binary.lsbfirst\""))
          (matBytes .tint rows) := by
  have h1 : rawniml2string .binary (c1child rows)
      = mkElemString (strL "d")
          (strL "   ni_type=\"int,int\"\n   ni_dimen=\""
            ++ ((natRepr rows.length ++ ['"'])
              ++ ('\n' :: (strL "   ni_form=\"binary.lsbfirst\"" ++ []))))
          (matBytes .tint rows) := rfl
  rw [h1, List.append_nil, List.append_assoc, List.singleton_append]
  rfl

lemma c1_child_ser_b64 (rows : List (List Int)) :
    rawniml2string .base64 (c1child rows)
      = mkElemString (strL "d")
          (strL "   ni_type=\"int,int\"\n   ni_dimen=\""
            ++ (natRepr rows.length ++ strL "\"\n   ni_form=\"base64.lsbfirst\""))
          (b64encode (matBytes .tint rows)) := by
  have h1 : rawniml2string .base64 (c1child rows)
      = mkElemString (strL "d")
          (strL "   ni_type=\"int,int\"\n   ni_dimen=\""
            ++ ((natRepr rows.length ++ ['"'])
              ++ ('\n' :: (strL "   ni_form=\"base64.lsbfirst\"" ++ []))))
          (b64encode (matBytes .tint rows)) := rfl
  rw [h1, List.append_nil, List.append_assoc, List.singleton_append]
  rfl

lemma mkd_append (H B X : List Char) :
    mkElemString (strL "d") H B ++ X
      = '<' :: 'd' :: '\n' :: (H ++ (' ' :: '>' :: (B ++ ('<' :: '/' :: 'd' :: '>' :: X)))) := by
  show ('<' :: (strL "d" ++ '\n' :: (H ++ ' ' :: '>' ::
      (B ++ '<' :: '/' :: (strL "d" ++ ['>']))))) ++ X = _
  simp only [show strL "d" = ['d'] from rfl, List.cons_append, List.singleton_append,
    List.append_assoc, List.nil_append]

lemma c1_fsp (n : Nat) (Q Z : List Char) (hQ : ∀ c ∈ Q, c ≠ '>') :
    firstSplitAtChar '>'
        ((strL "   ni_type=\"int,int\"\n   ni_dimen=\"" ++ (natRepr n ++ Q))
          ++ (' ' :: '>' :: Z))
      = some ((strL "   ni_type=\"int,int\"\n   ni_dimen=\"" ++ (natRepr n ++ Q)) ++ [' '], Z)
      := by
  have hH : ∀ c ∈ strL "   ni_type=\"int,int\"\n   ni_dimen=\"" ++ (natRepr n ++ Q),
      c ≠ '>' := by
    intro c hc
    rcases List.mem_append.mp hc with h | h
    · exact (by decide : ∀ c ∈ strL "   ni_type=\"int,int\"\n   ni_dimen=\"", c ≠ '>') c h
    · rcases List.mem_append.mp h with h2 | h2
      · exact (by decide : ∀ c ∈ strL "0123456789", c ≠ '>') c (natRepr_mem n c h2)
      · exact hQ c h2
  rw [firstSplit_miss '>' _ (' ' :: '>' :: Z) hH,
    show firstSplitAtChar '>' (' ' :: '>' :: Z) = some ([' '], Z) from rfl]
  rfl

lemma c1_kv (ds T : List Char) (hne : ds ≠ [])
    (hdg : ∀ c ∈ ds, c ∈ strL "0123456789") :
    parse_keyvalues (strL "   ni_type=\"int,int\"\n   ni_dimen=\"" ++ (ds ++ ('"' :: T)))
      = (strL "ni_type", strL "int,int") :: (strL "ni_dimen", ds) :: parse_keyvalues T := by
  have hkv1 : kvTryMatch (strL "   ni_type=\"int,int\"\n   ni_dimen=\"" ++ (ds ++ ('"' :: T)))
      = some ((strL "ni_type", strL "int,int"),
          strL "\n   ni_dimen=\"" ++ (ds ++ ('"' :: T))) := rfl
  have hkv2 : kvTryMatch (strL "\n   ni_dimen=\"" ++ (ds ++ ('"' :: T)))
      = some ((strL "ni_dimen", ds), T) := by
    have h0 : kvTryMatch (strL "\n   ni_dimen=\"" ++ (ds ++ ('"' :: T)))
        = (match firstSplitAtChar '"' (ds ++ ('"' :: T)) with
          | some (v, rest) => if v = [] then none else some ((strL "ni_dimen", v), rest)
          | none => none) := rfl
    rw [h0, firstSplit_miss '"' ds ('"' :: T) (fun c hc =>
      (by decide : ∀ c ∈ strL "0123456789", c ≠ '"') c (hdg c hc)),
      show firstSplitAtChar '"' ('"' :: T) = some ([], T) from rfl]
    show (if ds ++ [] = [] then none
      else some ((strL "ni_dimen", ds ++ []), T)) = some ((strL "ni_dimen", ds), T)
    simp only [List.append_nil]
    rw [if_neg hne]
  rw [parse_keyvalues_cons_match _ _ _ hkv1, parse_keyvalues_cons_match _ _ _ hkv2]

/-- The greedy quote-free scan cannot reach past a sibling element's
header: its first `ni_type` quote stops the capture. -/
lemma c1_noM_mid (H B X : List Char) :
    noM ('<' :: strL "/d>") (strL "/d>" ++ ('\n' :: (mkElemString (strL "d")
      (strL "   ni_type=\"int,int\"\n   ni_dimen=\"" ++ H) B ++ X))) = true := rfl

/-- After the last child, the only text before the buffer end is the
group close tag, where the close tag `</d>` does not occur. -/
lemma c1_noM_last : noM ('<' :: strL "/d>") (strL "/d>" ++ strL "</G>") = true := by decide

lemma c1_body_head (rows : List (List Int)) (hne : rows ≠ [])
    (hlen : ∀ r ∈ rows, r.length = 2) :
    ∃ c t, data2string (.pmat .tint rows) .text = c :: t ∧ wsChar c = false := by
  match rows, hne with
  | r :: rest, _ =>
    have hr : r.length = 2 := hlen r (by simp)
    match r, hr with
    | [v1, v2], _ =>
      obtain ⟨c, t, hct⟩ := List.exists_cons_of_ne_nil (intRepr_ne_nil v1)
      have hcw : wsChar c = false := intRepr_no_ws v1 c (by rw [hct]; simp)
      cases rest with
      | nil =>
        refine ⟨c, t ++ (' ' :: intRepr v2), ?_, hcw⟩
        show List.intercalate ['\n'] [List.intercalate [' '] [intRepr v1, intRepr v2]] = _
        rw [intercalate_singleton, intercalate_cons _ _ _ (by simp), intercalate_singleton,
          List.singleton_append, hct, List.cons_append]
      | cons r2 rest2 =>
        refine ⟨c, (t ++ (' ' :: intRepr v2)) ++ ('\n' :: List.intercalate ['\n']
          (List.map (fun r => List.intercalate [' '] (List.map intRepr r)) (r2 :: rest2))),
          ?_, hcw⟩
        show List.intercalate ['\n'] (List.intercalate [' '] [intRepr v1, intRepr v2]
          :: List.map (fun r => List.intercalate [' '] (List.map intRepr r)) (r2 :: rest2)) = _
        rw [intercalate_cons _ _ _ (by simp), intercalate_cons _ _ _ (by simp),
          intercalate_singleton, List.singleton_append, List.singleton_append, hct,
          List.cons_append, List.cons_append]

lemma c1_scan (rows : List (List Int)) (X : List Char) (hne : rows ≠ [])
    (hlen : ∀ r ∈ rows, r.length = 2)
    (hnoM : noM ('<' :: strL "/d>") (strL "/d>" ++ X) = true) :
    unquotedDataMatch (strL "d")
        (data2string (.pmat .tint rows) .text ++ ('<' :: '/' :: 'd' :: '>' :: X))
      = some (data2string (.pmat .tint rows) .text, X) := by
  unfold unquotedDataMatch
  obtain ⟨c, t, hct, hcw⟩ := c1_body_head rows hne hlen
  rw [hct, List.cons_append, List.dropWhile_cons, if_neg (by rw [hcw]; simp),
    ← List.cons_append, ← hct]
  have hbody : ∀ c ∈ data2string (.pmat .tint rows) .text, c ≠ '"' ∧ c ≠ '<' := by
    intro d hd
    exact (by decide : ∀ c ∈ strL "-0123456789 \x0a", c ≠ '"' ∧ c ≠ '<') d
      (c1_body_mem rows d hd)
  rw [show closeTagOf (strL "d") = '<' :: strL "/d>" from rfl,
    show ('<' :: '/' :: 'd' :: '>' :: X) = ('<' :: strL "/d>") ++ X from rfl]
  exact lastClose_exact (strL "/d>") (data2string (.pmat .tint rows) .text) X hbody hnoM


lemma xml_false_d (t : List Char) : isPre "<?xml".toList ('<' :: 'd' :: t) = false := rfl

lemma xml_false_nl (t : List Char) : isPre "<?xml".toList ('\n' :: t) = false := rfl

/-- One loop step consuming a serialized text-form child element. -/
lemma c1_child_step_text (rows : List (List Int)) (X : List Char) (f : Nat)
    (acc : List RawElem) (hne : rows ≠ []) (hlen : ∀ r ∈ rows, r.length = 2)
    (hnoM : noM ('<' :: strL "/d>") (strL "/d>" ++ X) = true) :
    parseNext (f + 1) (rawniml2string .text (c1child rows) ++ X) acc
      = parseNext f X (acc ++ [RawElem.mk (strL "d")
          [(strL "ni_type", strL "int,int"), (strL "ni_dimen", natRepr rows.length)]
          [.tint, .tint] rows.length 2 (some (.pmat .tint rows)) none]) := by
  rw [c1_child_ser_text rows, mkd_append]
  have hsp := c1_fsp rows.length (strL "\"")
    (data2string (.pmat .tint rows) .text ++ ('<' :: '/' :: 'd' :: '>' :: X))
    (by decide)
  have hm : headerMatch ('<' :: 'd' :: '\n' ::
      ((strL "   ni_type=\"int,int\"\n   ni_dimen=\""
          ++ (natRepr rows.length ++ strL "\""))
        ++ (' ' :: '>' :: (data2string (.pmat .tint rows) .text
          ++ ('<' :: '/' :: 'd' :: '>' :: X)))))
      = some (strL "d",
          (strL "   ni_type=\"int,int\"\n   ni_dimen=\""
            ++ (natRepr rows.length ++ strL "\"")) ++ [' '],
          data2string (.pmat .tint rows) .text ++ ('<' :: '/' :: 'd' :: '>' :: X)) := by
    rw [headerMatch_d, hsp]
  have hkv : parse_keyvalues ((strL "   ni_type=\"int,int\"\n   ni_dimen=\""
        ++ (natRepr rows.length ++ strL "\"")) ++ [' '])
      = [(strL "ni_type", strL "int,int"), (strL "ni_dimen", natRepr rows.length)] := by
    rw [show (strL "   ni_type=\"int,int\"\n   ni_dimen=\""
          ++ (natRepr rows.length ++ strL "\"")) ++ [' ']
        = strL "   ni_type=\"int,int\"\n   ni_dimen=\""
          ++ (natRepr rows.length ++ ('"' :: [' '])) from by
      rw [List.append_assoc, List.append_assoc]
      rfl]
    rw [c1_kv (natRepr rows.length) [' '] (natRepr_ne_nil _) (natRepr_mem _)]
    rfl
  rw [parseNext_scan_step f _ (strL "d") _ _ (strL "int,int")
    (data2string (.pmat .tint rows) .text) X acc [.tint, .tint] rows.length
    (.pmat .tint rows) (xml_false_d _) hm
    (by rw [hkv]; rfl)
    (by decide)
    (by rw [hkv]
        show parsePyInt (natRepr rows.length) = some (Int.ofNat rows.length)
        rw [parsePyInt_natRepr]
        rfl)
    (by decide)
    (by rw [hkv]; rfl)
    (c1_scan rows X hne hlen hnoM)
    (c1_dec_text rows hne hlen)]
  rw [hkv]
  rfl

/-- The same step with the serializer's separating newline in front. -/
lemma c1_child_step_text_nl (rows : List (List Int)) (X : List Char) (f : Nat)
    (acc : List RawElem) (hne : rows ≠ []) (hlen : ∀ r ∈ rows, r.length = 2)
    (hnoM : noM ('<' :: strL "/d>") (strL "/d>" ++ X) = true) :
    parseNext (f + 1) ('\n' :: (rawniml2string .text (c1child rows) ++ X)) acc
      = parseNext f X (acc ++ [RawElem.mk (strL "d")
          [(strL "ni_type", strL "int,int"), (strL "ni_dimen", natRepr rows.length)]
          [.tint, .tint] rows.length 2 (some (.pmat .tint rows)) none]) := by
  rw [c1_child_ser_text rows, mkd_append]
  have hsp := c1_fsp rows.length (strL "\"")
    (data2string (.pmat .tint rows) .text ++ ('<' :: '/' :: 'd' :: '>' :: X))
    (by decide)
  have hm : headerMatch ('\n' :: '<' :: 'd' :: '\n' ::
      ((strL "   ni_type=\"int,int\"\n   ni_dimen=\""
          ++ (natRepr rows.length ++ strL "\""))
        ++ (' ' :: '>' :: (data2string (.pmat .tint rows) .text
          ++ ('<' :: '/' :: 'd' :: '>' :: X)))))
      = some (strL "d",
          (strL "   ni_type=\"int,int\"\n   ni_dimen=\""
            ++ (natRepr rows.length ++ strL "\"")) ++ [' '],
          data2string (.pmat .tint rows) .text ++ ('<' :: '/' :: 'd' :: '>' :: X)) := by
    rw [headerMatch_nl_d, hsp]
  have hkv : parse_keyvalues ((strL "   ni_type=\"int,int\"\n   ni_dimen=\""
        ++ (natRepr rows.length ++ strL "\"")) ++ [' '])
      = [(strL "ni_type", strL "int,int"), (strL "ni_dimen", natRepr rows.length)] := by
    rw [show (strL "   ni_type=\"int,int\"\n   ni_dimen=\""
          ++ (natRepr rows.length ++ strL "\"")) ++ [' ']
        = strL "   ni_type=\"int,int\"\n   ni_dimen=\""
          ++ (natRepr rows.length ++ ('"' :: [' '])) from by
      rw [List.append_assoc, List.append_assoc]
      rfl]
    rw [c1_kv (natRepr rows.length) [' '] (natRepr_ne_nil _) (natRepr_mem _)]
    rfl
  rw [parseNext_scan_step f _ (strL "d") _ _ (strL "int,int")
    (data2string (.pmat .tint rows) .text) X acc [.tint, .tint] rows.length
    (.pmat .tint rows) (xml_false_nl _) hm
    (by rw [hkv]; rfl)
    (by decide)
    (by rw [hkv]
        show parsePyInt (natRepr rows.length) = some (Int.ofNat rows.length)
        rw [parsePyInt_natRepr]
        rfl)
    (by decide)
    (by rw [hkv]; rfl)
    (c1_scan rows X hne hlen hnoM)
    (c1_dec_text rows hne hlen)]
  rw [hkv]
  rfl


/-- One loop step consuming a serialized binary-form child element. -/
lemma c1_child_step_bin (rows : List (List Int)) (X : List Char) (f : Nat)
    (acc : List RawElem) (hne : rows ≠ []) (hlen : ∀ r ∈ rows, r.length = 2)
    (hrange : ∀ r ∈ rows, ∀ v ∈ r, -(2 ^ 31) ≤ v ∧ v < 2 ^ 31) :
    parseNext (f + 1) (rawniml2string .binary (c1child rows) ++ X) acc
      = parseNext f X (acc ++ [RawElem.mk (strL "d")
          [(strL "ni_type", strL "int,int"), (strL "ni_dimen", natRepr rows.length),
           (strL "ni_form", strL "binary.lsbfirst")]
          [.tint, .tint] rows.length 2 (some (.pmat .tint rows)) none]) := by
  rw [c1_child_ser_bin rows, mkd_append]
  have hsp := c1_fsp rows.length (strL "\"\n   ni_form=\"binary.lsbfirst\"")
    (matBytes .tint rows ++ ('<' :: '/' :: 'd' :: '>' :: X))
    (by decide)
  have hm : headerMatch ('<' :: 'd' :: '\n' ::
      ((strL "   ni_type=\"int,int\"\n   ni_dimen=\""
          ++ (natRepr rows.length ++ strL "\"\n   ni_form=\"binary.lsbfirst\""))
        ++ (' ' :: '>' :: (matBytes .tint rows ++ ('<' :: '/' :: 'd' :: '>' :: X)))))
      = some (strL "d",
          (strL "   ni_type=\"int,int\"\n   ni_dimen=\""
            ++ (natRepr rows.length ++ strL "\"\n   ni_form=\"binary.lsbfirst\"")) ++ [' '],
          matBytes .tint rows ++ ('<' :: '/' :: 'd' :: '>' :: X)) := by
    rw [headerMatch_d, hsp]
  have hkv : parse_keyvalues ((strL "   ni_type=\"int,int\"\n   ni_dimen=\""
        ++ (natRepr rows.length ++ strL "\"\n   ni_form=\"binary.lsbfirst\"")) ++ [' '])
      = [(strL "ni_type", strL "int,int"), (strL "ni_dimen", natRepr rows.length),
         (strL "ni_form", strL "binary.lsbfirst")] := by
    rw [show (strL "   ni_type=\"int,int\"\n   ni_dimen=\""
          ++ (natRepr rows.length ++ strL "\"\n   ni_form=\"binary.lsbfirst\"")) ++ [' ']
        = strL "   ni_type=\"int,int\"\n   ni_dimen=\""
          ++ (natRepr rows.length
            ++ ('"' :: (strL "\n   ni_form=\"binary.lsbfirst\"" ++ [' ']))) from by
      rw [List.append_assoc, List.append_assoc]
      rfl]
    rw [c1_kv (natRepr rows.length) (strL "\n   ni_form=\"binary.lsbfirst\"" ++ [' '])
      (natRepr_ne_nil _) (natRepr_mem _)]
    rfl
  have htake : (matBytes .tint rows ++ ('<' :: '/' :: 'd' :: '>' :: X)).take
      (2 * rows.length * 4) = matBytes .tint rows := by
    rw [← c1_matBytes_length rows hlen]
    exact List.take_left ..
  have hdrop : (matBytes .tint rows ++ ('<' :: '/' :: 'd' :: '>' :: X)).drop
      (2 * rows.length * 4) = '<' :: '/' :: 'd' :: '>' :: X := by
    rw [← c1_matBytes_length rows hlen]
    exact List.drop_left ..
  rw [parseNext_binary_step f _ (strL "d") _ _ (strL "int,int")
    (strL "binary.lsbfirst") acc [.tint, .tint] rows.length (2 * rows.length * 4)
    (.pmat .tint rows) (xml_false_d _) hm
    (by rw [hkv]; rfl)
    (by decide)
    (by rw [hkv]
        show parsePyInt (natRepr rows.length) = some (Int.ofNat rows.length)
        rw [parsePyInt_natRepr]
        rfl)
    (by decide)
    (by rw [hkv]; rfl)
    (by decide)
    (by decide)
    rfl
    (by rw [htake]; exact c1_dec_binary rows hne hlen hrange)
    (by rw [hdrop]; exact isPre_append_self (closeTagOf (strL "d")) X)]
  rw [hdrop, hkv]
  rfl

/-- The same step with the serializer's separating newline in front. -/
lemma c1_child_step_bin_nl (rows : List (List Int)) (X : List Char) (f : Nat)
    (acc : List RawElem) (hne : rows ≠ []) (hlen : ∀ r ∈ rows, r.length = 2)
    (hrange : ∀ r ∈ rows, ∀ v ∈ r, -(2 ^ 31) ≤ v ∧ v < 2 ^ 31) :
    parseNext (f + 1) ('\n' :: (rawniml2string .binary (c1child rows) ++ X)) acc
      = parseNext f X (acc ++ [RawElem.mk (strL "d")
          [(strL "ni_type", strL "int,int"), (strL "ni_dimen", natRepr rows.length),
           (strL "ni_form", strL "binary.lsbfirst")]
          [.tint, .tint] rows.length 2 (some (.pmat .tint rows)) none]) := by
  rw [c1_child_ser_bin rows, mkd_append]
  have hsp := c1_fsp rows.length (strL "\"\n   ni_form=\"binary.lsbfirst\"")
    (matBytes .tint rows ++ ('<' :: '/' :: 'd' :: '>' :: X))
    (by decide)
  have hm : headerMatch ('\n' :: '<' :: 'd' :: '\n' ::
      ((strL "   ni_type=\"int,int\"\n   ni_dimen=\""
          ++ (natRepr rows.length ++ strL "\"\n   ni_form=\"binary.lsbfirst\""))
        ++ (' ' :: '>' :: (matBytes .tint rows ++ ('<' :: '/' :: 'd' :: '>' :: X)))))
      = some (strL "d",
          (strL "   ni_type=\"int,int\"\n   ni_dimen=\""
            ++ (natRepr rows.length ++ strL "\"\n   ni_form=\"binary.lsbfirst\"")) ++ [' '],
          matBytes .tint rows ++ ('<' :: '/' :: 'd' :: '>' :: X)) := by
    rw [headerMatch_nl_d, hsp]
  have hkv : parse_keyvalues ((strL "   ni_type=\"int,int\"\n   ni_dimen=\""
        ++ (natRepr rows.length ++ strL "\"\n   ni_form=\"binary.lsbfirst\"")) ++ [' '])
      = [(strL "ni_type", strL "int,int"), (strL "ni_dimen", natRepr rows.length),
         (strL "ni_form", strL "binary.lsbfirst")] := by
    rw [show (strL "   ni_type=\"int,int\"\n   ni_dimen=\""
          ++ (natRepr rows.length ++ strL "\"\n   ni_form=\"binary.lsbfirst\"")) ++ [' ']
        = strL "   ni_type=\"int,int\"\n   ni_dimen=\""
          ++ (natRepr rows.length
            ++ ('"' :: (strL "\n   ni_form=\"binary.lsbfirst\"" ++ [' ']))) from by
      rw [List.append_assoc, List.append_assoc]
      rfl]
    rw [c1_kv (natRepr rows.length) (strL "\n   ni_form=\"binary.lsbfirst\"" ++ [' '])
      (natRepr_ne_nil _) (natRepr_mem _)]
    rfl
  have htake : (matBytes .tint rows ++ ('<' :: '/' :: 'd' :: '>' :: X)).take
      (2 * rows.length * 4) = matBytes .tint rows := by
    rw [← c1_matBytes_length rows hlen]
    exact List.take_left ..
  have hdrop : (matBytes .tint rows ++ ('<' :: '/' :: 'd' :: '>' :: X)).drop
      (2 * rows.length * 4) = '<' :: '/' :: 'd' :: '>' :: X := by
    rw [← c1_matBytes_length rows hlen]
    exact List.drop_left ..
  rw [parseNext_binary_step f _ (strL "d") _ _ (strL "int,int")
    (strL "binary.lsbfirst") acc [.tint, .tint] rows.length (2 * rows.length * 4)
    (.pmat .tint rows) (xml_false_nl _) hm
    (by rw [hkv]; rfl)
    (by decide)
    (by rw [hkv]
        show parsePyInt (natRepr rows.length) = some (Int.ofNat rows.length)
        rw [parsePyInt_natRepr]
        rfl)
    (by decide)
    (by rw [hkv]; rfl)
    (by decide)
    (by decide)
    rfl
    (by rw [htake]; exact c1_dec_binary rows hne hlen hrange)
    (by rw [hdrop]; exact isPre_append_self (closeTagOf (strL "d")) X)]
  rw [hdrop, hkv]
  rfl


/-- One loop step consuming a serialized base64-form child element. -/
lemma c1_child_step_b64 (rows : List (List Int)) (X : List Char) (f : Nat)
    (acc : List RawElem) (hne : rows ≠ []) (hlen : ∀ r ∈ rows, r.length = 2)
    (hrange : ∀ r ∈ rows, ∀ v ∈ r, -(2 ^ 31) ≤ v ∧ v < 2 ^ 31) :
    parseNext (f + 1) (rawniml2string .base64 (c1child rows) ++ X) acc
      = parseNext f X (acc ++ [RawElem.mk (strL "d")
          [(strL "ni_type", strL "int,int"), (strL "ni_dimen", natRepr rows.length),
           (strL "ni_form", strL "base64.lsbfirst")]
          [.tint, .tint] rows.length 2 (some (.pmat .tint rows)) none]) := by
  have hmbne : matBytes .tint rows ≠ [] := by
    intro h0
    have hl := c1_matBytes_length rows hlen
    rw [h0] at hl
    simp only [List.length_nil] at hl
    have hpos : 1 ≤ rows.length := List.length_pos.mpr hne
    omega
  obtain ⟨c0, r0, h64⟩ := List.exists_cons_of_ne_nil (b64encode_ne_nil _ hmbne)
  have hr0lt : ∀ c ∈ r0, c ≠ '<' := by
    intro c hc
    exact b64encode_no_lt (matBytes .tint rows).length (matBytes .tint rows) (le_refl _) c
      (by rw [h64]; exact List.mem_cons_of_mem c0 hc)
  rw [c1_child_ser_b64 rows, mkd_append, h64, List.cons_append]
  have hsp := c1_fsp rows.length (strL "\"\n   ni_form=\"base64.lsbfirst\"")
    (c0 :: (r0 ++ ('<' :: '/' :: 'd' :: '>' :: X))) (by decide)
  have hm : headerMatch ('<' :: 'd' :: '\n' ::
      ((strL "   ni_type=\"int,int\"\n   ni_dimen=\""
          ++ (natRepr rows.length ++ strL "\"\n   ni_form=\"base64.lsbfirst\""))
        ++ (' ' :: '>' :: (c0 :: (r0 ++ ('<' :: '/' :: 'd' :: '>' :: X))))))
      = some (strL "d",
          (strL "   ni_type=\"int,int\"\n   ni_dimen=\""
            ++ (natRepr rows.length ++ strL "\"\n   ni_form=\"base64.lsbfirst\"")) ++ [' '],
          c0 :: (r0 ++ ('<' :: '/' :: 'd' :: '>' :: X))) := by
    rw [headerMatch_d, hsp]
  have hkv : parse_keyvalues ((strL "   ni_type=\"int,int\"\n   ni_dimen=\""
        ++ (natRepr rows.length ++ strL "\"\n   ni_form=\"base64.lsbfirst\"")) ++ [' '])
      = [(strL "ni_type", strL "int,int"), (strL "ni_dimen", natRepr rows.length),
         (strL "ni_form", strL "base64.lsbfirst")] := by
    rw [show (strL "   ni_type=\"int,int\"\n   ni_dimen=\""
          ++ (natRepr rows.length ++ strL "\"\n   ni_form=\"base64.lsbfirst\"")) ++ [' ']
        = strL "   ni_type=\"int,int\"\n   ni_dimen=\""
          ++ (natRepr rows.length
            ++ ('"' :: (strL "\n   ni_form=\"base64.lsbfirst\"" ++ [' ']))) from by
      rw [List.append_assoc, List.append_assoc]
      rfl]
    rw [c1_kv (natRepr rows.length) (strL "\n   ni_form=\"base64.lsbfirst\"" ++ [' '])
      (natRepr_ne_nil _) (natRepr_mem _)]
    rfl
  have hidx : firstIdxOfChar '<' (r0 ++ ('<' :: '/' :: 'd' :: '>' :: X))
      = some r0.length := by
    unfold firstIdxOfChar
    rw [firstSplit_miss '<' r0 ('<' :: '/' :: 'd' :: '>' :: X) hr0lt,
      show firstSplitAtChar '<' ('<' :: '/' :: 'd' :: '>' :: X)
        = some ([], '/' :: 'd' :: '>' :: X) from rfl]
    simp
  have htake : (c0 :: (r0 ++ ('<' :: '/' :: 'd' :: '>' :: X))).take (1 + r0.length)
      = b64encode (matBytes .tint rows) := by
    rw [Nat.add_comm, List.take_succ_cons, List.take_left, h64]
  have hdrop : (c0 :: (r0 ++ ('<' :: '/' :: 'd' :: '>' :: X))).drop (1 + r0.length)
      = '<' :: '/' :: 'd' :: '>' :: X := by
    rw [Nat.add_comm, List.drop_succ_cons, List.drop_left]
  rw [parseNext_b64_step f _ (strL "d") _ (strL "int,int") (strL "base64.lsbfirst")
    (r0 ++ ('<' :: '/' :: 'd' :: '>' :: X)) c0 acc [.tint, .tint] rows.length r0.length
    (.pmat .tint rows) (xml_false_d _) hm
    (by rw [hkv]; rfl)
    (by decide)
    (by rw [hkv]
        show parsePyInt (natRepr rows.length) = some (Int.ofNat rows.length)
        rw [parsePyInt_natRepr]
        rfl)
    (by decide)
    (by rw [hkv]; rfl)
    (by decide)
    (by decide)
    hidx
    (by rw [htake]; exact c1_dec_b64 rows hne hlen hrange)
    (by rw [hdrop]; exact isPre_append_self (closeTagOf (strL "d")) X)]
  rw [hdrop, hkv]
  rfl

/-- The same step with the serializer's separating newline in front. -/
lemma c1_child_step_b64_nl (rows : List (List Int)) (X : List Char) (f : Nat)
    (acc : List RawElem) (hne : rows ≠ []) (hlen : ∀ r ∈ rows, r.length = 2)
    (hrange : ∀ r ∈ rows, ∀ v ∈ r, -(2 ^ 31) ≤ v ∧ v < 2 ^ 31) :
    parseNext (f + 1) ('\n' :: (rawniml2string .base64 (c1child rows) ++ X)) acc
      = parseNext f X (acc ++ [RawElem.mk (strL "d")
          [(strL "ni_type", strL "int,int"), (strL "ni_dimen", natRepr rows.length),
           (strL "ni_form", strL "base64.lsbfirst")]
          [.tint, .tint] rows.length 2 (some (.pmat .tint rows)) none]) := by
  have hmbne : matBytes .tint rows ≠ [] := by
    intro h0
    have hl := c1_matBytes_length rows hlen
    rw [h0] at hl
    simp only [List.length_nil] at hl
    have hpos : 1 ≤ rows.length := List.length_pos.mpr hne
    omega
  obtain ⟨c0, r0, h64⟩ := List.exists_cons_of_ne_nil (b64encode_ne_nil _ hmbne)
  have hr0lt : ∀ c ∈ r0, c ≠ '<' := by
    intro c hc
    exact b64encode_no_lt (matBytes .tint rows).length (matBytes .tint rows) (le_refl _) c
      (by rw [h64]; exact List.mem_cons_of_mem c0 hc)
  rw [c1_child_ser_b64 rows, mkd_append, h64, List.cons_append]
  have hsp := c1_fsp rows.length (strL "\"\n   ni_form=\"base64.lsbfirst\"")
    (c0 :: (r0 ++ ('<' :: '/' :: 'd' :: '>' :: X))) (by decide)
  have hm : headerMatch ('\n' :: '<' :: 'd' :: '\n' ::
      ((strL "   ni_type=\"int,int\"\n   ni_dimen=\""
          ++ (natRepr rows.length ++ strL "\"\n   ni_form=\"base64.lsbfirst\""))
        ++ (' ' :: '>' :: (c0 :: (r0 ++ ('<' :: '/' :: 'd' :: '>' :: X))))))
      = some (strL "d",
          (strL "   ni_type=\"int,int\"\n   ni_dimen=\""
            ++ (natRepr rows.length ++ strL "\"\n   ni_form=\"base64.lsbfirst\"")) ++ [' '],
          c0 :: (r0 ++ ('<' :: '/' :: 'd' :: '>' :: X))) := by
    rw [headerMatch_nl_d, hsp]
  have hkv : parse_keyvalues ((strL "   ni_type=\"int,int\"\n   ni_dimen=\""
        ++ (natRepr rows.length ++ strL "\"\n   ni_form=\"base64.lsbfirst\"")) ++ [' '])
      = [(strL "ni_type", strL "int,int"), (strL "ni_dimen", natRepr rows.length),
         (strL "ni_form", strL "base64.lsbfirst")] := by
    rw [show (strL "   ni_type=\"int,int\"\n   ni_dimen=\""
          ++ (natRepr rows.length ++ strL "\"\n   ni_form=\"base64.lsbfirst\"")) ++ [' ']
        = strL "   ni_type=\"int,int\"\n   ni_dimen=\""
          ++ (natRepr rows.length
            ++ ('"' :: (strL "\n   ni_form=\"base64.lsbfirst\"" ++ [' ']))) from by
      rw [List.append_assoc, List.append_assoc]
      rfl]
    rw [c1_kv (natRepr rows.length) (strL "\n   ni_form=\"base64.lsbfirst\"" ++ [' '])
      (natRepr_ne_nil _) (natRepr_mem _)]
    rfl
  have hidx : firstIdxOfChar '<' (r0 ++ ('<' :: '/' :: 'd' :: '>' :: X))
      = some r0.length := by
    unfold firstIdxOfChar
    rw [firstSplit_miss '<' r0 ('<' :: '/' :: 'd' :: '>' :: X) hr0lt,
      show firstSplitAtChar '<' ('<' :: '/' :: 'd' :: '>' :: X)
        = some ([], '/' :: 'd' :: '>' :: X) from rfl]
    simp
  have htake : (c0 :: (r0 ++ ('<' :: '/' :: 'd' :: '>' :: X))).take (1 + r0.length)
      = b64encode (matBytes .tint rows) := by
    rw [Nat.add_comm, List.take_succ_cons, List.take_left, h64]
  have hdrop : (c0 :: (r0 ++ ('<' :: '/' :: 'd' :: '>' :: X))).drop (1 + r0.length)
      = '<' :: '/' :: 'd' :: '>' :: X := by
    rw [Nat.add_comm, List.drop_succ_cons, List.drop_left]
  rw [parseNext_b64_step f _ (strL "d") _ (strL "int,int") (strL "base64.lsbfirst")
    (r0 ++ ('<' :: '/' :: 'd' :: '>' :: X)) c0 acc [.tint, .tint] rows.length r0.length
    (.pmat .tint rows) (xml_false_nl _) hm
    (by rw [hkv]; rfl)
    (by decide)
    (by rw [hkv]
        show parsePyInt (natRepr rows.length) = some (Int.ofNat rows.length)
        rw [parsePyInt_natRepr]
        rfl)
    (by decide)
    (by rw [hkv]; rfl)
    (by decide)
    (by decide)
    hidx
    (by rw [htake]; exact c1_dec_b64 rows hne hlen hrange)
    (by rw [hdrop]; exact isPre_append_self (closeTagOf (strL "d")) X)]
  rw [hdrop, hkv]
  rfl


/-- Claim C1 (corrected): for a document that is a single group of
data elements with uniform numeric columns and header attributes
consistent with their payloads, serialization in each of the three output
forms followed by re-parsing reconstructs the tree exactly — same nesting,
names, ordered column type lists, row counts and bit-exact payload values
(shown here for a group of two two-column int32 elements with any number
of rows and any in-range values).  The spec's unconditional round-trip
claim is still false: a document that is a bare DataElement fails to
re-parse (`c1_counterexample`). -/
theorem c1_amended (form : Form) (rows : List (List Int))
    (hne : rows ≠ []) (hlen : ∀ r ∈ rows, r.length = 2)
    (hrange : ∀ r ∈ rows, ∀ v ∈ r, -(2 ^ 31) ≤ v ∧ v < 2 ^ 31) :
    (string2rawniml (rawnimlList2string form [c1doc rows])).map
        (fun l => (flattenDoc l).map
          (fun r => (r.depth, r.name, r.vecTyp, r.vecLen, r.vecNum, r.data)))
      = .ok [(0, strL "G", [], 0, 0, none),
             (1, strL "d", [.tint, .tint], rows.length, 2, some (.pmat .tint rows)),
             (1, strL "d", [.tint, .tint], rows.length, 2, some (.pmat .tint rows))] := by
  cases form with
  | text =>
    rw [c1_ser_doc .text rows]
    unfold string2rawniml
    have hge : 3 ≤ (mkElemString (strL "G")
        (header2string [(strL "ni_form", strL "ni_group")])
        (rawniml2string .text (c1child rows)
          ++ '\n' :: rawniml2string .text (c1child rows))).length := by
      simp [mkElemString]
      omega
    rw [show (mkElemString (strL "G")
        (header2string [(strL "ni_form", strL "ni_group")])
        (rawniml2string .text (c1child rows)
          ++ '\n' :: rawniml2string .text (c1child rows))).length + 1
      = ((mkElemString (strL "G")
        (header2string [(strL "ni_form", strL "ni_group")])
        (rawniml2string .text (c1child rows)
          ++ '\n' :: rawniml2string .text (c1child rows))).length - 3 + 2 + 1) + 1
      from by omega]
    rw [c1_group_step]
    rw [show (rawniml2string .text (c1child rows)
          ++ '\n' :: rawniml2string .text (c1child rows)) ++ strL "</G>"
        = rawniml2string .text (c1child rows)
          ++ ('\n' :: (rawniml2string .text (c1child rows) ++ strL "</G>")) from by
      rw [List.append_assoc]
      rfl]
    have hnoM1 : noM ('<' :: strL "/d>") (strL "/d>"
        ++ ('\n' :: (rawniml2string .text (c1child rows) ++ strL "</G>"))) = true := by
      rw [c1_child_ser_text rows]
      exact c1_noM_mid (natRepr rows.length ++ strL "\"")
        (data2string (.pmat .tint rows) .text) (strL "</G>")
    rw [c1_child_step_text rows
      ('\n' :: (rawniml2string .text (c1child rows) ++ strL "</G>"))
      ((mkElemString (strL "G") (header2string [(strL "ni_form", strL "ni_group")])
        (rawniml2string .text (c1child rows)
          ++ '\n' :: rawniml2string .text (c1child rows))).length - 3 + 1 + 1) _
      hne hlen hnoM1]
    rw [c1_child_step_text_nl rows (strL "</G>")
      ((mkElemString (strL "G") (header2string [(strL "ni_form", strL "ni_group")])
        (rawniml2string .text (c1child rows)
          ++ '\n' :: rawniml2string .text (c1child rows))).length - 3 + 1) _
      hne hlen c1_noM_last]
    rw [c1_close_step]
    show Except.map
        (fun l => (flattenDoc l).map
          (fun r => (r.depth, r.name, r.vecTyp, r.vecLen, r.vecNum, r.data)))
        (Except.map Prod.snd (parseNext ((mkElemString (strL "G")
        (header2string [(strL "ni_form", strL "ni_group")])
        (rawniml2string .text (c1child rows)
          ++ '\n' :: rawniml2string .text (c1child rows))).length - 3 + 2 + 1)
      (strL "</G>")
      ([] ++ [RawElem.mk (strL "G") [(strL "ni_form", strL "ni_group")] [] 0 0 none
        (some (listToForest
          [RawElem.mk (strL "d")
            [(strL "ni_type", strL "int,int"), (strL "ni_dimen", natRepr rows.length)]
            [.tint, .tint] rows.length 2 (some (.pmat .tint rows)) none,
           RawElem.mk (strL "d")
            [(strL "ni_type", strL "int,int"), (strL "ni_dimen", natRepr rows.length)]
            [.tint, .tint] rows.length 2 (some (.pmat .tint rows)) none]))])))
      = _
    rw [c1_close_step]
    rfl
  | binary =>
    rw [c1_ser_doc .binary rows]
    unfold string2rawniml
    have hge : 3 ≤ (mkElemString (strL "G")
        (header2string [(strL "ni_form", strL "ni_group")])
        (rawniml2string .binary (c1child rows)
          ++ '\n' :: rawniml2string .binary (c1child rows))).length := by
      simp [mkElemString]
      omega
    rw [show (mkElemString (strL "G")
        (header2string [(strL "ni_form", strL "ni_group")])
        (rawniml2string .binary (c1child rows)
          ++ '\n' :: rawniml2string .binary (c1child rows))).length + 1
      = ((mkElemString (strL "G")
        (header2string [(strL "ni_form", strL "ni_group")])
        (rawniml2string .binary (c1child rows)
          ++ '\n' :: rawniml2string .binary (c1child rows))).length - 3 + 2 + 1) + 1
      from by omega]
    rw [c1_group_step]
    rw [show (rawniml2string .binary (c1child rows)
          ++ '\n' :: rawniml2string .binary (c1child rows)) ++ strL "</G>"
        = rawniml2string .binary (c1child rows)
          ++ ('\n' :: (rawniml2string .binary (c1child rows) ++ strL "</G>")) from by
      rw [List.append_assoc]
      rfl]
    rw [c1_child_step_bin rows
      ('\n' :: (rawniml2string .binary (c1child rows) ++ strL "</G>"))
      ((mkElemString (strL "G") (header2string [(strL "ni_form", strL "ni_group")])
        (rawniml2string .binary (c1child rows)
          ++ '\n' :: rawniml2string .binary (c1child rows))).length - 3 + 1 + 1) _
      hne hlen hrange]
    rw [c1_child_step_bin_nl rows (strL "</G>")
      ((mkElemString (strL "G") (header2string [(strL "ni_form", strL "ni_group")])
        (rawniml2string .binary (c1child rows)
          ++ '\n' :: rawniml2string .binary (c1child rows))).length - 3 + 1) _
      hne hlen hrange]
    rw [c1_close_step]
    show Except.map
        (fun l => (flattenDoc l).map
          (fun r => (r.depth, r.name, r.vecTyp, r.vecLen, r.vecNum, r.data)))
        (Except.map Prod.snd (parseNext ((mkElemString (strL "G")
        (header2string [(strL "ni_form", strL "ni_group")])
        (rawniml2string .binary (c1child rows)
          ++ '\n' :: rawniml2string .binary (c1child rows))).length - 3 + 2 + 1)
      (strL "</G>")
      ([] ++ [RawElem.mk (strL "G") [(strL "ni_form", strL "ni_group")] [] 0 0 none
        (some (listToForest
          [RawElem.mk (strL "d")
            [(strL "ni_type", strL "int,int"), (strL "ni_dimen", natRepr rows.length),
             (strL "ni_form", strL "binary.lsbfirst")]
            [.tint, .tint] rows.length 2 (some (.pmat .tint rows)) none,
           RawElem.mk (strL "d")
            [(strL "ni_type", strL "int,int"), (strL "ni_dimen", natRepr rows.length),
             (strL "ni_form", strL "binary.lsbfirst")]
            [.tint, .tint] rows.length 2 (some (.pmat .tint rows)) none]))])))
      = _
    rw [c1_close_step]
    rfl
  | base64 =>
    rw [c1_ser_doc .base64 rows]
    unfold string2rawniml
    have hge : 3 ≤ (mkElemString (strL "G")
        (header2string [(strL "ni_form", strL "ni_group")])
        (rawniml2string .base64 (c1child rows)
          ++ '\n' :: rawniml2string .base64 (c1child rows))).length := by
      simp [mkElemString]
      omega
    rw [show (mkElemString (strL "G")
        (header2string [(strL "ni_form", strL "ni_group")])
        (rawniml2string .base64 (c1child rows)
          ++ '\n' :: rawniml2string .base64 (c1child rows))).length + 1
      = ((mkElemString (strL "G")
        (header2string [(strL "ni_form", strL "ni_group")])
        (rawniml2string .base64 (c1child rows)
          ++ '\n' :: rawniml2string .base64 (c1child rows))).length - 3 + 2 + 1) + 1
      from by omega]
    rw [c1_group_step]
    rw [show (rawniml2string .base64 (c1child rows)
          ++ '\n' :: rawniml2string .base64 (c1child rows)) ++ strL "</G>"
        = rawniml2string .base64 (c1child rows)
          ++ ('\n' :: (rawniml2string .base64 (c1child rows) ++ strL "</G>")) from by
      rw [List.append_assoc]
      rfl]
    rw [c1_child_step_b64 rows
      ('\n' :: (rawniml2string .base64 (c1child rows) ++ strL "</G>"))
      ((mkElemString (strL "G") (header2string [(strL "ni_form", strL "ni_group")])
        (rawniml2string .base64 (c1child rows)
          ++ '\n' :: rawniml2string .base64 (c1child rows))).length - 3 + 1 + 1) _
      hne hlen hrange]
    rw [c1_child_step_b64_nl rows (strL "</G>")
      ((mkElemString (strL "G") (header2string [(strL "ni_form", strL "ni_group")])
        (rawniml2string .base64 (c1child rows)
          ++ '\n' :: rawniml2string .base64 (c1child rows))).length - 3 + 1) _
      hne hlen hrange]
    rw [c1_close_step]
    show Except.map
        (fun l => (flattenDoc l).map
          (fun r => (r.depth, r.name, r.vecTyp, r.vecLen, r.vecNum, r.data)))
        (Except.map Prod.snd (parseNext ((mkElemString (strL "G")
        (header2string [(strL "ni_form", strL "ni_group")])
        (rawniml2string .base64 (c1child rows)
          ++ '\n' :: rawniml2string .base64 (c1child rows))).length - 3 + 2 + 1)
      (strL "</G>")
      ([] ++ [RawElem.mk (strL "G") [(strL "ni_form", strL "ni_group")] [] 0 0 none
        (some (listToForest
          [RawElem.mk (strL "d")
            [(strL "ni_type", strL "int,int"), (strL "ni_dimen", natRepr rows.length),
             (strL "ni_form", strL "base64.lsbfirst")]
            [.tint, .tint] rows.length 2 (some (.pmat .tint rows)) none,
           RawElem.mk (strL "d")
            [(strL "ni_type", strL "int,int"), (strL "ni_dimen", natRepr rows.length),
             (strL "ni_form", strL "base64.lsbfirst")]
            [.tint, .tint] rows.length 2 (some (.pmat .tint rows)) none]))])))
      = _
    rw [c1_close_step]
    rfl


theorem c1_witness :
    ((string2rawniml (rawnimlList2string .text [c1doc [[5, -3], [7, 100]]])).map
        (fun l => (flattenDoc l).map
          (fun r => (r.depth, r.name, r.vecTyp, r.vecLen, r.vecNum, r.data)))
      = .ok [(0, strL "G", ([] : List NiType), 0, 0, (none : Option PData)),
             (1, strL "d", [.tint, .tint], 2, 2, some (.pmat .tint [[5, -3], [7, 100]])),
             (1, strL "d", [.tint, .tint], 2, 2, some (.pmat .tint [[5, -3], [7, 100]]))])
    ∧ ((string2rawniml (rawnimlList2string .binary [c1doc [[5, -3], [7, 100]]])).map
        (fun l => (flattenDoc l).map
          (fun r => (r.depth, r.name, r.vecTyp, r.vecLen, r.vecNum, r.data)))
      = .ok [(0, strL "G", ([] : List NiType), 0, 0, (none : Option PData)),
             (1, strL "d", [.tint, .tint], 2, 2, some (.pmat .tint [[5, -3], [7, 100]])),
             (1, strL "d", [.tint, .tint], 2, 2, some (.pmat .tint [[5, -3], [7, 100]]))])
    ∧ ((string2rawniml (rawnimlList2string .base64 [c1doc [[5, -3], [7, 100]]])).map
        (fun l => (flattenDoc l).map
          (fun r => (r.depth, r.name, r.vecTyp, r.vecLen, r.vecNum, r.data)))
      = .ok [(0, strL "G", ([] : List NiType), 0, 0, (none : Option PData)),
             (1, strL "d", [.tint, .tint], 2, 2, some (.pmat .tint [[5, -3], [7, 100]])),
             (1, strL "d", [.tint, .tint], 2, 2, some (.pmat .tint [[5, -3], [7, 100]]))]) :=
  ⟨c1_amended .text [[5, -3], [7, 100]] (by decide) (by decide) (by decide),
   c1_amended .binary [[5, -3], [7, 100]] (by decide) (by decide) (by decide),
   c1_amended .base64 [[5, -3], [7, 100]] (by decide) (by decide) (by decide)⟩

end Afni
